import Mathlib

/-!
# binproto: a shallow embedding of the unit codec

The Go package `binproto` (files `common.go`, `send.go`, `recv.go`,
`binstream.go`, `idkvmapscanner.go`, `demux.go`) is embedded as pure Lean
functions with explicit state passing.

Modelling conventions:

* A byte is a `Nat` (a Go `byte` is always below 256); wider machine integers
  are `Nat`/`Int` with an explicit reduction to their width where the Go code
  converts or encodes them.
* An `io.Reader` is the list of bytes it has not delivered yet (the
  `bytes.Reader` that the tests of the package use): a read delivers as many
  of the requested bytes as are left and reports `io.EOF` when none is left.
* An `io.Writer` is the list of bytes written so far, together with the number
  of bytes it still accepts before it fails (`none`: it never fails).
* The `sync.Mutex` of a `SimpleUnitReader` is a `Bool` (`true`: locked).
  Locking a locked mutex never returns (`Run.blocked`); unlocking an unlocked
  mutex, a failed type assertion and a slice with a negative bound stop the
  program (`Run.crashed`).
* Loops and recursion are driven by a fuel argument; the exported functions
  supply fuel from the length of the unread source, and `Run.starved` marks a
  run that used it up.
-/

namespace Binproto

/-! ## common.go -/

/-- Go: `type UnitType byte`. -/
abbrev UnitType := Nat

abbrev UTNil : UnitType := 0
abbrev UTRequest : UnitType := 1
abbrev UTAnswer : UnitType := 2
abbrev UTEvent : UnitType := 3
abbrev UTBin : UnitType := 4
abbrev UTNumber : UnitType := 5
abbrev UTList : UnitType := 6
abbrev UTTextKVMap : UnitType := 7
abbrev UTIdKVMap : UnitType := 8
abbrev UTUKey : UnitType := 9
abbrev UTBinStream : UnitType := 10
abbrev UTTerm : UnitType := 11
abbrev UTBool : UnitType := 12
abbrev UTByte : UnitType := 13

/-- The error values of the package and of the library calls it makes.
`errorfSkipping` and `errorfFound` are the two `fmt.Errorf` values built by
`ScanIdKVMap`; `other` stands for any error value that comes from outside the
package (a getter action, the transport). -/
inductive Err where
  | EOF
  | ErrUnexpectedEOF
  | UnknownUnit
  | UnexpectedUnit
  | Terminated
  | TooDeeplyNested
  | KeyMissing
  | UnknownKey
  | UnexpectedTypeForKey
  | abnormal
  | errorfSkipping (err : Err) (outerr : Err)
  | errorfSkippingNil (err : Err)
  | errorfFound (ut : UnitType)
  | other (code : Nat)
  deriving DecidableEq, Repr

/-- The outcome of running a piece of the program. -/
inductive Run (α : Type) where
  | ret (a : α)
  | blocked
  | crashed
  | starved
  deriving DecidableEq, Repr

/-- Go: `BinstreamReader` (binstream.go). The fields `r` and `surMu` alias the
reader and the mutex of the parent `SimpleUnitReader`; they live there. -/
structure BinstreamReader where
  err : Option Err
  toread : Int
  deriving DecidableEq, Repr

/-- The second output of `ReadUnit` (Go: `interface{}`), one shape per unit
type: `nil`, `uint16`, `[]byte`, `int64`, `byte`, `bool`, `*BinstreamReader`. -/
inductive Payload where
  | nil
  | code (c : Nat)
  | bin (b : List Nat)
  | number (n : Int)
  | byte (b : Nat)
  | bool (b : Bool)
  | stream (bsr : BinstreamReader)
  deriving DecidableEq, Repr

/-! ## Library calls: encoding/binary, io, kagus -/

/-- Little-endian bytes of `n`, `k` of them (`binary.Write` with
`binary.LittleEndian`). -/
def leBytes : Nat → Nat → List Nat
  | 0, _ => []
  | k + 1, n => n % 256 :: leBytes k (n / 256)

/-- The number whose little-endian bytes are given (`binary.Read`). -/
def leNat : List Nat → Nat
  | [] => 0
  | b :: bs => b % 256 + 256 * leNat bs

/-- Reinterpret a 32-bit pattern as `int32`. -/
def toInt32 (u : Nat) : Int :=
  if u % 2 ^ 32 < 2 ^ 31 then ((u % 2 ^ 32 : Nat) : Int) else ((u % 2 ^ 32 : Nat) : Int) - 2 ^ 32

/-- Reinterpret a 64-bit pattern as `int64`. -/
def toInt64 (u : Nat) : Int :=
  if u % 2 ^ 64 < 2 ^ 63 then ((u % 2 ^ 64 : Nat) : Int) else ((u % 2 ^ 64 : Nat) : Int) - 2 ^ 64

/-- The 64-bit pattern of an `int64` (two's complement). -/
def ofInt64 (n : Int) : Nat := (n % 2 ^ 64).toNat

/-- The 32-bit pattern of an `int32` (two's complement). -/
def ofInt32 (n : Int) : Nat := (n % 2 ^ 32).toNat

/-- Go: `kagus.ReadByte(r)`: one byte of the reader, or `io.EOF` (with byte 0). -/
def ReadByte (r : List Nat) : Nat × Option Err × List Nat :=
  match r with
  | [] => (0, some .EOF, [])
  | b :: rest => (b, none, rest)

/-- Go: `io.ReadFull(r, buf)` with `len(buf) = n`, which `binary.Read` uses as
well: all `n` bytes, or `io.EOF` when the reader is empty and
`io.ErrUnexpectedEOF` when it ends too early (what was left is consumed). -/
def ReadFull (n : Nat) (r : List Nat) : List Nat × Option Err × List Nat :=
  if n = 0 then ([], none, r)
  else if r = [] then ([], some .EOF, [])
  else if r.length < n then (r, some .ErrUnexpectedEOF, [])
  else (r.take n, none, r.drop n)

/-- Go: `r.Read(p)` of the underlying reader with `len(p) = n`. -/
def Read (n : Nat) (r : List Nat) : List Nat × Option Err × List Nat :=
  if r = [] then ([], some .EOF, [])
  else (r.take n, none, r.drop n)

/-- An `io.Writer`: the bytes written so far and, when it is going to fail,
the number of bytes it still accepts. -/
structure Writer where
  out : List Nat
  room : Option Nat
  deriving DecidableEq, Repr

/-- Go: `w.Write(p)`: the number of bytes written and the error. A failing
writer reports `Err.other 0`. -/
def Writer.Write (w : Writer) (p : List Nat) : Nat × Option Err × Writer :=
  match w.room with
  | none => (p.length, none, { w with out := w.out ++ p })
  | some k =>
    if p.length ≤ k then (p.length, none, { out := w.out ++ p, room := some (k - p.length) })
    else (k, some (.other 0), { out := w.out ++ p.take k, room := some 0 })

/-! ## send.go -/

def SendNil (w : Writer) : Option Err × Writer :=
  let (_, err, w) := w.Write [UTNil]
  (err, w)

def sendRAE (w : Writer) (what : UnitType) (code : Nat) : Option Err × Writer :=
  match w.Write [what % 256] with
  | (_, some err, w) => (some err, w)
  | (_, none, w) =>
    let (_, err, w) := w.Write (leBytes 2 code)
    (err, w)

def InitRequest (w : Writer) (code : Nat) : Option Err × Writer := sendRAE w UTRequest code
def InitAnswer (w : Writer) (code : Nat) : Option Err × Writer := sendRAE w UTAnswer code
def InitEvent (w : Writer) (code : Nat) : Option Err × Writer := sendRAE w UTEvent code

def SendBin (w : Writer) (bindata : List Nat) : Option Err × Writer :=
  match w.Write [UTBin] with
  | (_, some err, w) => (some err, w)
  | (_, none, w) =>
    match w.Write (leBytes 4 (bindata.length % 2 ^ 32)) with
    | (_, some err, w) => (some err, w)
    | (_, none, w) =>
      let (_, err, w) := w.Write bindata
      (err, w)

def SendNumber (w : Writer) (n : Int) : Option Err × Writer :=
  match w.Write [UTNumber] with
  | (_, some err, w) => (some err, w)
  | (_, none, w) =>
    let (_, err, w) := w.Write (leBytes 8 (ofInt64 n))
    (err, w)

def InitList (w : Writer) : Option Err × Writer :=
  let (_, err, w) := w.Write [UTList]
  (err, w)

def InitTextKVMap (w : Writer) : Option Err × Writer :=
  let (_, err, w) := w.Write [UTTextKVMap]
  (err, w)

def InitIdKVMap (w : Writer) : Option Err × Writer :=
  let (_, err, w) := w.Write [UTIdKVMap]
  (err, w)

def sendTypedByte (w : Writer) (t : UnitType) (b : Nat) : Option Err × Writer :=
  let (_, err, w) := w.Write [t % 256, b]
  (err, w)

def SendUKey (w : Writer) (key : Nat) : Option Err × Writer := sendTypedByte w UTUKey key

def SendBool (w : Writer) (b : Bool) : Option Err × Writer :=
  if b then sendTypedByte w UTBool 1 else sendTypedByte w UTBool 0

def SendByte (w : Writer) (b : Nat) : Option Err × Writer := sendTypedByte w UTByte b

/-- Go: `SendTextKey(w, key)`; the string is given by its UTF-8 bytes. -/
def SendTextKey (w : Writer) (key : List Nat) : Option Err × Writer := SendBin w key

def SendTerm (w : Writer) : Option Err × Writer :=
  let (_, err, w) := w.Write [UTTerm]
  (err, w)

/-! ## binstream.go, the writer -/

/-- Go: `BinstreamWriter`. -/
structure BinstreamWriter where
  w : Writer
  err : Option Err
  deriving DecidableEq, Repr

def InitBinStream (w : Writer) : Option BinstreamWriter × Option Err × Writer :=
  match w.Write [UTBinStream] with
  | (_, some err, w) => (none, some err, w)
  | (_, none, w) => (some { w := w, err := none }, none, w)

/-- Go: `(*BinstreamWriter).Write`. -/
def BinstreamWriter.Write (bsw : BinstreamWriter) (p : List Nat) :
    Nat × Option Err × BinstreamWriter :=
  match bsw.err with
  | some e => (0, some e, bsw)
  | none =>
    let l := p.length
    if l = 0 then (0, none, bsw)
    else
      match bsw.w.Write (leBytes 4 (ofInt32 (l : Int))) with
      | (_, some err, w) => (0, some err, { w := w, err := some err })
      | (_, none, w) =>
        match w.Write p with
        | (n, some err, w) => (n, some err, { w := w, err := some err })
        | (n, none, w) => (n, none, { w := w, err := bsw.err })

/-- Go: `(*BinstreamWriter).Close`. -/
def BinstreamWriter.Close (bsw : BinstreamWriter) : Option Err × BinstreamWriter :=
  match bsw.err with
  | some .EOF => (none, bsw)
  | some e => (some e, bsw)
  | none =>
    match bsw.w.Write (leBytes 4 (ofInt32 (-1))) with
    | (_, some err, w) => (some err, { bsw with w := w })
    | (_, none, w) => (none, { w := w, err := some .EOF })

/-! ## binstream.go, the reader -/

/-- Go: `SimpleUnitReader` (recv.go): the unread bytes of its `io.Reader` and
the state of its mutex. -/
structure SimpleUnitReader where
  r : List Nat
  mu : Bool
  deriving DecidableEq, Repr

def NewSimpleUnitReader (r : List Nat) : SimpleUnitReader := { r := r, mu := false }

/-- The second half of `(*BinstreamReader).Read`, from `want := len(p)` on. -/
def BinstreamReader.readChunk (bsr : BinstreamReader) (sur : SimpleUnitReader) (plen : Nat) :
    Run (List Nat × Option Err × BinstreamReader × SimpleUnitReader) :=
  if bsr.toread < 0 then .crashed
  else
    let want := if bsr.toread < (plen : Int) then bsr.toread.toNat else plen
    match Read want sur.r with
    | (p, none, r) =>
      .ret (p, none, { bsr with toread := bsr.toread - (p.length : Int) }, { sur with r := r })
    | (p, some .EOF, r) =>
      .ret (p, some .abnormal, { bsr with err := some .abnormal }, { sur with r := r })
    | (p, some err, r) =>
      .ret (p, some err, { bsr with err := some err }, { sur with r := r })

/-- Go: `(*BinstreamReader).Read(p)` with `len(p) = plen`. The result holds the
bytes stored into `p`, the error, and the new states of the stream reader and
of the parent reader (source and mutex). -/
def BinstreamReader.Read (bsr : BinstreamReader) (sur : SimpleUnitReader) (plen : Nat) :
    Run (List Nat × Option Err × BinstreamReader × SimpleUnitReader) :=
  match bsr.err with
  | some e => .ret ([], some e, bsr, sur)
  | none =>
    if bsr.toread = 0 then
      match ReadFull 4 sur.r with
      | (_, some err, r) => .ret ([], some err, { bsr with err := some err }, { sur with r := r })
      | (bs, none, r) =>
        let _toread := toInt32 (leNat bs)
        if _toread < 0 then
          if sur.mu then
            .ret ([], some .EOF, { err := some .EOF, toread := -1 }, { r := r, mu := false })
          else .crashed
        else
          BinstreamReader.readChunk { bsr with toread := _toread } { sur with r := r } plen
    else BinstreamReader.readChunk bsr sur plen

/-- Go: `io.Copy(dst, bsr)`, as far as the stream reader is concerned: `Read`
with a buffer of 32 KiB until it reports an error; `io.EOF` counts as
success. The bytes handed to `dst` are collected. -/
def copyStream : Nat → BinstreamReader → SimpleUnitReader →
    Run (List Nat × Option Err × BinstreamReader × SimpleUnitReader)
  | 0, _, _ => .starved
  | fuel + 1, bsr, sur =>
    match bsr.Read sur 32768 with
    | .ret (p, none, bsr, sur) =>
      match copyStream fuel bsr sur with
      | .ret (q, err, bsr, sur) => .ret (p ++ q, err, bsr, sur)
      | .blocked => .blocked
      | .crashed => .crashed
      | .starved => .starved
    | .ret (p, some .EOF, bsr, sur) => .ret (p, none, bsr, sur)
    | .ret (p, some err, bsr, sur) => .ret (p, some err, bsr, sur)
    | .blocked => .blocked
    | .crashed => .crashed
    | .starved => .starved

/-- Go: `(*BinstreamReader).FastForward`, with fuel for the copy loop. -/
def BinstreamReader.fastForward (fuel : Nat) (bsr : BinstreamReader) (sur : SimpleUnitReader) :
    Run (Option Err × BinstreamReader × SimpleUnitReader) :=
  match copyStream fuel bsr sur with
  | .ret (_, err, bsr, sur) => .ret (err, bsr, sur)
  | .blocked => .blocked
  | .crashed => .crashed
  | .starved => .starved

/-- Go: `(*BinstreamReader).FastForward`. Every round of the copy loop that
does not end it takes at least one byte from the source. -/
def BinstreamReader.FastForward (bsr : BinstreamReader) (sur : SimpleUnitReader) :
    Run (Option Err × BinstreamReader × SimpleUnitReader) :=
  bsr.fastForward (sur.r.length + 1) sur

/-! ## recv.go -/

/-- Go: `(*SimpleUnitReader).ReadUnit`. -/
def SimpleUnitReader.ReadUnit (sur : SimpleUnitReader) :
    Run (UnitType × Payload × Option Err × SimpleUnitReader) :=
  if sur.mu then .blocked
  else
    match ReadByte sur.r with
    | (_, some err, r) => .ret (0, .nil, some err, { sur with r := r })
    | (ut, none, r) =>
      if ut = UTNil then .ret (ut, .nil, none, { sur with r := r })
      else if ut = UTRequest ∨ ut = UTAnswer ∨ ut = UTEvent then
        match ReadFull 2 r with
        | (_, some err, r) => .ret (ut, .nil, some err, { sur with r := r })
        | (bs, none, r) => .ret (ut, .code (leNat bs), none, { sur with r := r })
      else if ut = UTBin then
        match ReadFull 4 r with
        | (_, some err, r) => .ret (ut, .nil, some err, { sur with r := r })
        | (bs, none, r) =>
          match ReadFull (leNat bs) r with
          | (_, some err, r) => .ret (ut, .nil, some err, { sur with r := r })
          | (buf, none, r) => .ret (ut, .bin buf, none, { sur with r := r })
      else if ut = UTNumber then
        match ReadFull 8 r with
        | (_, some err, r) => .ret (ut, .nil, some err, { sur with r := r })
        | (bs, none, r) => .ret (ut, .number (toInt64 (leNat bs)), none, { sur with r := r })
      else if ut = UTList ∨ ut = UTTextKVMap ∨ ut = UTIdKVMap then
        .ret (ut, .nil, none, { sur with r := r })
      else if ut = UTUKey ∨ ut = UTByte then
        let (k, err, r) := ReadByte r
        .ret (ut, .byte k, err, { sur with r := r })
      else if ut = UTBinStream then
        .ret (ut, .stream { err := none, toread := 0 }, none, { r := r, mu := true })
      else if ut = UTTerm then .ret (ut, .nil, none, { sur with r := r })
      else if ut = UTBool then
        let (_b, err, r) := ReadByte r
        .ret (ut, .bool (if _b = 0 then false else true), err, { sur with r := r })
      else .ret (ut, .nil, some .UnknownUnit, { sur with r := r })

/-- Go: `IdKVPair`. -/
structure IdKVPair where
  Key : Nat
  ValueType : UnitType
  ValuePayload : Payload
  deriving DecidableEq, Repr

/-- Go: `ReadIdKVPair`. -/
def ReadIdKVPair (ur : SimpleUnitReader) : Run (IdKVPair × Option Err × SimpleUnitReader) :=
  match ur.ReadUnit with
  | .ret (_, _, some err, ur) => .ret ({ Key := 0, ValueType := 0, ValuePayload := .nil }, some err, ur)
  | .ret (ut, data, none, ur) =>
    if ut = UTUKey then
      match data with
      | .byte k =>
        match ur.ReadUnit with
        | .ret (vt, vp, err, ur) => .ret ({ Key := k, ValueType := vt, ValuePayload := vp }, err, ur)
        | .blocked => .blocked
        | .crashed => .crashed
        | .starved => .starved
      | _ => .crashed
    else if ut = UTTerm then
      .ret ({ Key := 0, ValueType := 0, ValuePayload := .nil }, some .Terminated, ur)
    else .ret ({ Key := 0, ValueType := 0, ValuePayload := .nil }, some .UnexpectedUnit, ur)
  | .blocked => .blocked
  | .crashed => .crashed
  | .starved => .starved

/-- Go: `TextKVPair`; the key string is given by its bytes. -/
structure TextKVPair where
  Key : List Nat
  ValueType : UnitType
  ValuePayload : Payload
  deriving DecidableEq, Repr

/-- Go: `ReadTextKVPair`. -/
def ReadTextKVPair (ur : SimpleUnitReader) : Run (TextKVPair × Option Err × SimpleUnitReader) :=
  match ur.ReadUnit with
  | .ret (_, _, some err, ur) => .ret ({ Key := [], ValueType := 0, ValuePayload := .nil }, some err, ur)
  | .ret (ut, data, none, ur) =>
    if ut = UTBin then
      match data with
      | .bin k =>
        match ur.ReadUnit with
        | .ret (vt, vp, err, ur) => .ret ({ Key := k, ValueType := vt, ValuePayload := vp }, err, ur)
        | .blocked => .blocked
        | .crashed => .crashed
        | .starved => .starved
      | _ => .crashed
    else if ut = UTTerm then
      .ret ({ Key := [], ValueType := 0, ValuePayload := .nil }, some .Terminated, ur)
    else .ret ({ Key := [], ValueType := 0, ValuePayload := .nil }, some .UnexpectedUnit, ur)
  | .blocked => .blocked
  | .crashed => .crashed
  | .starved => .starved

def maxSkipDepth : Nat := 16

mutual
/-- Go: `skipUnit(ur, ut, data, revDepth)`. -/
def skipUnit : Nat → SimpleUnitReader → UnitType → Payload → Nat →
    Run (Option Err × SimpleUnitReader)
  | 0, _, _, _, _ => .starved
  | fuel + 1, ur, ut, data, revDepth =>
    if revDepth = 0 then .ret (some .TooDeeplyNested, ur)
    else if ut = UTNil ∨ ut = UTRequest ∨ ut = UTAnswer ∨ ut = UTEvent ∨ ut = UTBin ∨
        ut = UTNumber ∨ ut = UTUKey ∨ ut = UTTerm ∨ ut = UTBool ∨ ut = UTByte then
      .ret (none, ur)
    else if ut = UTList then skipList fuel ur revDepth
    else if ut = UTTextKVMap then skipTextKVMap fuel ur revDepth
    else if ut = UTIdKVMap then skipIdKVMap fuel ur revDepth
    else if ut = UTBinStream then
      match data with
      | .stream bsr =>
        match bsr.FastForward ur with
        | .ret (err, _, ur) => .ret (err, ur)
        | .blocked => .blocked
        | .crashed => .crashed
        | .starved => .starved
      | _ => .crashed
    else .ret (some .UnexpectedUnit, ur)
termination_by structural fuel => fuel
/-- The `for` loop of the `UTList` case of `skipUnit`. -/
def skipList : Nat → SimpleUnitReader → Nat → Run (Option Err × SimpleUnitReader)
  | 0, _, _ => .starved
  | fuel + 1, ur, revDepth =>
    match ur.ReadUnit with
    | .ret (_, _, some nErr, ur) => .ret (some nErr, ur)
    | .ret (nUt, nData, none, ur) =>
      if nUt = UTTerm then .ret (none, ur)
      else
        match skipUnit fuel ur nUt nData (revDepth - 1) with
        | .ret (some err, ur) => .ret (some err, ur)
        | .ret (none, ur) => skipList fuel ur revDepth
        | .blocked => .blocked
        | .crashed => .crashed
        | .starved => .starved
    | .blocked => .blocked
    | .crashed => .crashed
    | .starved => .starved
termination_by structural fuel => fuel
/-- The `for` loop of the `UTTextKVMap` case of `skipUnit`. -/
def skipTextKVMap : Nat → SimpleUnitReader → Nat → Run (Option Err × SimpleUnitReader)
  | 0, _, _ => .starved
  | fuel + 1, ur, revDepth =>
    match ReadTextKVPair ur with
    | .ret (kvp, none, ur) =>
      match skipUnit fuel ur kvp.ValueType kvp.ValuePayload (revDepth - 1) with
      | .ret (some err, ur) => .ret (some err, ur)
      | .ret (none, ur) => skipTextKVMap fuel ur revDepth
      | .blocked => .blocked
      | .crashed => .crashed
      | .starved => .starved
    | .ret (_, some .Terminated, ur) => .ret (none, ur)
    | .ret (_, some err, ur) => .ret (some err, ur)
    | .blocked => .blocked
    | .crashed => .crashed
    | .starved => .starved
termination_by structural fuel => fuel
/-- The `for` loop of the `UTIdKVMap` case of `skipUnit`. -/
def skipIdKVMap : Nat → SimpleUnitReader → Nat → Run (Option Err × SimpleUnitReader)
  | 0, _, _ => .starved
  | fuel + 1, ur, revDepth =>
    match ReadIdKVPair ur with
    | .ret (kvp, none, ur) =>
      match skipUnit fuel ur kvp.ValueType kvp.ValuePayload (revDepth - 1) with
      | .ret (some err, ur) => .ret (some err, ur)
      | .ret (none, ur) => skipIdKVMap fuel ur revDepth
      | .blocked => .blocked
      | .crashed => .crashed
      | .starved => .starved
    | .ret (_, some .Terminated, ur) => .ret (none, ur)
    | .ret (_, some err, ur) => .ret (some err, ur)
    | .blocked => .blocked
    | .crashed => .crashed
    | .starved => .starved
termination_by structural fuel => fuel
end

/-- Go: `SkipUnit(ur, ut, data)`. A unit read from the source costs two
levels of fuel at most, and it takes at least one byte. -/
def SkipUnit (ur : SimpleUnitReader) (ut : UnitType) (data : Payload) :
    Run (Option Err × SimpleUnitReader) :=
  skipUnit (2 * ur.r.length + 2) ur ut data maxSkipDepth

/-- Go: `SkipNext(ur)`. -/
def SkipNext (ur : SimpleUnitReader) : Run (Option Err × SimpleUnitReader) :=
  match ur.ReadUnit with
  | .ret (_, _, some err, ur) => .ret (some err, ur)
  | .ret (ut, data, none, ur) => SkipUnit ur ut data
  | .blocked => .blocked
  | .crashed => .crashed
  | .starved => .starved

/-- Go: `ReadExpect(ur, expected)`. -/
def ReadExpect (ur : SimpleUnitReader) (expected : UnitType) :
    Run (Payload × Option Err × SimpleUnitReader) :=
  match ur.ReadUnit with
  | .ret (_, _, some err, ur) => .ret (.nil, some err, ur)
  | .ret (ut, data, none, ur) =>
    if ut = expected then .ret (data, none, ur)
    else
      match SkipUnit ur ut data with
      | .ret (some err, ur) => .ret (.nil, some err, ur)
      | .ret (none, ur) => .ret (.nil, some .UnexpectedUnit, ur)
      | .blocked => .blocked
      | .crashed => .crashed
      | .starved => .starved
  | .blocked => .blocked
  | .crashed => .crashed
  | .starved => .starved

/-! ## idkvmapscanner.go -/

/-- Go: `GetterAction`, `func(interface{}, UnitReader) (err error, fatal bool)`.
`σ` is the state that the closure of the action can reach (the variables it
stores into, the writer it copies to). -/
abbrev GetterAction (σ : Type) :=
  Payload → SimpleUnitReader → σ → Run ((Option Err × Bool) × SimpleUnitReader × σ)

/-- Go: `UKeyGetter`. The field `Type` is called `Typ` here; `Captured` is the
address of a `bool` variable (`none`: the nil pointer). -/
structure UKeyGetter (σ : Type) where
  Typ : UnitType
  Optional : Bool
  Action : GetterAction σ
  Captured : Option Nat

/-- The variables of a running `ScanIdKVMap` and what it acts on: the reader,
the state of the actions, the `bool` variables that `Captured` pointers point
to (by address), the map `seen`, the result variable `outerr`, the flag
`skipAll`, and a record of the action calls made so far (key and payload). -/
structure ScanState (σ : Type) where
  ur : SimpleUnitReader
  world : σ
  flags : Nat → Bool
  seen : Nat → Bool
  outerr : Option Err
  skipAll : Bool
  calls : List (Nat × Payload)

/-- Go: `fmt.Errorf("Error while skipping: %s. Previous outerr was: %s", err, outerr)`. -/
def errorfSkipping (err : Err) (outerr : Option Err) : Err :=
  match outerr with
  | some e => .errorfSkipping err e
  | none => .errorfSkippingNil err

/-- The part of `ScanIdKVMap` after its `for` loop. The keys of the map
`getters` are bytes. -/
def scanFinish {σ : Type} (getters : Nat → Option (UKeyGetter σ)) (st : ScanState σ) :
    Option Err :=
  if st.skipAll then st.outerr
  else if (List.range 256).any (fun key =>
      match getters key with
      | some getter => !getter.Optional && !st.seen key
      | none => false) then some .KeyMissing
  else none

/-- The `for` loop of `ScanIdKVMap` and what follows it. -/
def scanLoop {σ : Type} (getters : Nat → Option (UKeyGetter σ)) (failOnUnknown : Bool) :
    Nat → ScanState σ → Run (Option Err × ScanState σ)
  | 0, _ => .starved
  | fuel + 1, st =>
    match st.ur.ReadUnit with
    | .ret (_, _, some err, ur) => .ret (some err, { st with ur := ur })
    | .ret (ut, data, none, ur) =>
      if ut = UTTerm then .ret (scanFinish getters { st with ur := ur }, { st with ur := ur })
      else if st.skipAll then
        match SkipUnit ur ut data with
        | .ret (some err, ur) => .ret (some (errorfSkipping err st.outerr), { st with ur := ur })
        | .ret (none, ur) => scanLoop getters failOnUnknown fuel { st with ur := ur }
        | .blocked => .blocked
        | .crashed => .crashed
        | .starved => .starved
      else if ut ≠ UTUKey then .ret (some (.errorfFound ut), { st with ur := ur })
      else
        match data with
        | .byte key =>
          match ur.ReadUnit with
          | .ret (_, _, some err, ur) => .ret (some err, { st with ur := ur })
          | .ret (ut, data, none, ur) =>
            match getters key with
            | none =>
              if failOnUnknown then
                match SkipUnit ur ut data with
                | .ret (some err, ur) =>
                  .ret (some err, { st with ur := ur, outerr := some .UnknownKey })
                | .ret (none, ur) =>
                  scanLoop getters failOnUnknown fuel
                    { st with ur := ur, outerr := some .UnknownKey, skipAll := true }
                | .blocked => .blocked
                | .crashed => .crashed
                | .starved => .starved
              else
                match SkipUnit ur ut data with
                | .ret (some err, ur) => .ret (some err, { st with ur := ur })
                | .ret (none, ur) => scanLoop getters failOnUnknown fuel { st with ur := ur }
                | .blocked => .blocked
                | .crashed => .crashed
                | .starved => .starved
            | some getter =>
              if ut ≠ getter.Typ then
                match SkipUnit ur ut data with
                | .ret (some err, ur) => .ret (some err, { st with ur := ur })
                | .ret (none, ur) =>
                  scanLoop getters failOnUnknown fuel
                    { st with ur := ur, outerr := some .UnexpectedTypeForKey, skipAll := true }
                | .blocked => .blocked
                | .crashed => .crashed
                | .starved => .starved
              else
                match getter.Action data ur st.world with
                | .ret ((some err, fatal), ur, world) =>
                  if fatal then
                    .ret (some err,
                      { st with ur := ur, world := world, calls := st.calls ++ [(key, data)] })
                  else
                    scanLoop getters failOnUnknown fuel
                      { st with ur := ur, world := world, calls := st.calls ++ [(key, data)],
                                outerr := some err, skipAll := true }
                | .ret ((none, _), ur, world) =>
                  scanLoop getters failOnUnknown fuel
                    { st with
                      ur := ur, world := world, calls := st.calls ++ [(key, data)],
                      seen := fun k => if k = key then true else st.seen k,
                      flags := match getter.Captured with
                        | some p => fun q => if q = p then true else st.flags q
                        | none => st.flags }
                | .blocked => .blocked
                | .crashed => .crashed
                | .starved => .starved
          | .blocked => .blocked
          | .crashed => .crashed
          | .starved => .starved
        | _ => .crashed
    | .blocked => .blocked
    | .crashed => .crashed
    | .starved => .starved

/-- Go: `ScanIdKVMap(ur, getters, failOnUnknown)`, run on the state `world` of
the actions and the `bool` variables `flags`. Every round of the loop reads at
least one byte. -/
def ScanIdKVMap {σ : Type} (ur : SimpleUnitReader) (getters : Nat → Option (UKeyGetter σ))
    (failOnUnknown : Bool) (world : σ) (flags : Nat → Bool) : Run (Option Err × ScanState σ) :=
  scanLoop getters failOnUnknown (ur.r.length + 1)
    { ur := ur, world := world, flags := flags, seen := fun _ => false,
      outerr := none, skipAll := false, calls := [] }

/-- Go: `ActionSkip(ut)`. -/
def ActionSkip {σ : Type} (ut : UnitType) : GetterAction σ :=
  fun data ur world =>
    match SkipUnit ur ut data with
    | .ret (err, ur) => .ret ((err, true), ur, world)
    | .blocked => .blocked
    | .crashed => .crashed
    | .starved => .starved

/-- Go: `ActionStoreNumber(n)`; `store` is the assignment `*n = ...`. -/
def ActionStoreNumber {σ : Type} (store : Int → σ → σ) : GetterAction σ :=
  fun data ur world =>
    match data with
    | .number n => .ret ((none, false), ur, store n world)
    | _ => .crashed

/-- Go: `ActionStoreBin(b)`. -/
def ActionStoreBin {σ : Type} (store : List Nat → σ → σ) : GetterAction σ :=
  fun data ur world =>
    match data with
    | .bin b => .ret ((none, false), ur, store b world)
    | _ => .crashed

/-- Go: `ActionStoreBool(b)`. -/
def ActionStoreBool {σ : Type} (store : Bool → σ → σ) : GetterAction σ :=
  fun data ur world =>
    match data with
    | .bool b => .ret ((none, false), ur, store b world)
    | _ => .crashed

/-- Go: `ActionStoreByte(b)`. -/
def ActionStoreByte {σ : Type} (store : Nat → σ → σ) : GetterAction σ :=
  fun data ur world =>
    match data with
    | .byte b => .ret ((none, false), ur, store b world)
    | _ => .crashed

/-! ## demux.go -/

/-- Go: `urReturn`. -/
structure urReturn where
  ut : UnitType
  data : Payload
  deriving DecidableEq, Repr

/-- Go: `Demux`, with the locals `inEvent` and `nesting` of its goroutine. A
channel is the list of the values sent on it so far, `closed` tells that both
channels have been closed. -/
structure Demux where
  events : List urReturn
  other : List urReturn
  err : Option Err
  closed : Bool
  inEvent : Bool
  nesting : Int
  deriving DecidableEq, Repr

/-- Go: `NewDemux(ur)`, before the goroutine has run. -/
def NewDemux : Demux :=
  { events := [], other := [], err := none, closed := false, inEvent := false, nesting := 0 }

/-- One round of the loop of `(*Demux).demux` in which `d.ur.ReadUnit()`
returned `(ut, data, nil)`. -/
def Demux.route (d : Demux) (ut : UnitType) (data : Payload) : Demux :=
  if d.inEvent then
    let nesting :=
      if ut = UTList ∨ ut = UTIdKVMap ∨ ut = UTTextKVMap then d.nesting + 1
      else if ut = UTTerm then d.nesting - 1
      else d.nesting
    { d with
      events := d.events ++ [{ ut := ut, data := data }],
      nesting := nesting,
      inEvent := if nesting ≤ 0 then false else d.inEvent }
  else if ut = UTEvent then
    { d with events := d.events ++ [{ ut := ut, data := data }], inEvent := true, nesting := 0 }
  else
    { d with other := d.other ++ [{ ut := ut, data := data }] }

/-- Go: `(*Demux).demux`, on a unit reader `d.ur` that returns the units
`units` one after the other and then the error `err`; every value sent on a
channel is taken by a receiver. -/
def Demux.demux (d : Demux) : List urReturn → Err → Demux
  | [], err => { d with err := some err, closed := true }
  | u :: units, err => (d.route u.ut u.data).demux units err

/-- The rounds of the loop of `(*Demux).demux` for the units `units`, the
source not having failed yet. -/
def Demux.routeAll (d : Demux) : List urReturn → Demux
  | [] => d
  | u :: units => (d.route u.ut u.data).routeAll units

/-- Go: `(*PartUnitReader).ReadUnit`, for the `n`-th receive (from 0) on the
channel `ch` of a demultiplexer whose goroutine has ended. -/
def PartUnitReader.ReadUnit (ch : List urReturn) (d : Demux) (n : Nat) :
    UnitType × Payload × Option Err :=
  match ch.get? n with
  | some urr => (urr.ut, urr.data, none)
  | none => (0, .nil, d.err)

/-! ## Programs that use the package

What the claims quantify over: the units a caller sends, the calls it makes
to send them, and the loops with which it reads them back. -/

/-- A unit other than a stream, as a caller hands it to the encoder. -/
inductive FlatUnit where
  | nil
  | request (code : Nat)
  | answer (code : Nat)
  | event (code : Nat)
  | bin (b : List Nat)
  | number (n : Int)
  | list
  | textkvmap
  | idkvmap
  | ukey (k : Nat)
  | byte (b : Nat)
  | bool (b : Bool)
  | term
  deriving DecidableEq, Repr

/-- The values lie in their Go types: a code is a `uint16`, a number an
`int64`, and a byte block is shorter than 2^32 bytes. -/
def FlatUnit.fits : FlatUnit → Prop
  | .request c => c < 2 ^ 16
  | .answer c => c < 2 ^ 16
  | .event c => c < 2 ^ 16
  | .bin b => b.length < 2 ^ 32
  | .number n => -2 ^ 63 ≤ n ∧ n < 2 ^ 63
  | _ => True

/-- The encoder function for a unit. -/
def FlatUnit.send (w : Writer) : FlatUnit → Option Err × Writer
  | .nil => SendNil w
  | .request c => InitRequest w c
  | .answer c => InitAnswer w c
  | .event c => InitEvent w c
  | .bin b => SendBin w b
  | .number n => SendNumber w n
  | .list => InitList w
  | .textkvmap => InitTextKVMap w
  | .idkvmap => InitIdKVMap w
  | .ukey k => SendUKey w k
  | .byte b => SendByte w b
  | .bool b => SendBool w b
  | .term => SendTerm w

/-- Send the units in order, up to the first error. -/
def sendAll (w : Writer) : List FlatUnit → Option Err × Writer
  | [] => (none, w)
  | u :: us =>
    match u.send w with
    | (some err, w) => (some err, w)
    | (none, w) => sendAll w us

/-- The unit type that the unit was sent with. -/
def FlatUnit.ut : FlatUnit → UnitType
  | .nil => UTNil
  | .request _ => UTRequest
  | .answer _ => UTAnswer
  | .event _ => UTEvent
  | .bin _ => UTBin
  | .number _ => UTNumber
  | .list => UTList
  | .textkvmap => UTTextKVMap
  | .idkvmap => UTIdKVMap
  | .ukey _ => UTUKey
  | .byte _ => UTByte
  | .bool _ => UTBool
  | .term => UTTerm

/-- The value that the unit was sent with. -/
def FlatUnit.payload : FlatUnit → Payload
  | .request c => .code c
  | .answer c => .code c
  | .event c => .code c
  | .bin b => .bin b
  | .number n => .number n
  | .ukey k => .byte k
  | .byte b => .byte b
  | .bool b => .bool b
  | _ => .nil

/-- The results of `n` calls of `ReadUnit`, one after the other; a call that
does not return ends the list. -/
def readUnits : Nat → SimpleUnitReader → List (Run (UnitType × Payload × Option Err))
  | 0, _ => []
  | n + 1, sur =>
    match sur.ReadUnit with
    | .ret (ut, data, err, sur) => .ret (ut, data, err) :: readUnits n sur
    | .blocked => [.blocked]
    | .crashed => [.crashed]
    | .starved => [.starved]

/-- Pass the slices to `Write` in order, up to the first error. -/
def BinstreamWriter.writeAll (bsw : BinstreamWriter) : List (List Nat) → Option Err × BinstreamWriter
  | [] => (none, bsw)
  | p :: ps =>
    match bsw.Write p with
    | (_, some err, bsw) => (some err, bsw)
    | (_, none, bsw) => bsw.writeAll ps

/-- Pass the slices to `Write` in order, then `Close`. -/
def BinstreamWriter.writeClose (bsw : BinstreamWriter) (ps : List (List Nat)) :
    Option Err × BinstreamWriter :=
  match bsw.writeAll ps with
  | (some err, bsw) => (some err, bsw)
  | (none, bsw) => bsw.Close

/-- Call `Read` with buffers of the given sizes, one after the other, until it
reports an error; the bytes read are collected. -/
def readStream : List Nat → BinstreamReader → SimpleUnitReader →
    Run (List Nat × Option Err × BinstreamReader × SimpleUnitReader)
  | [], bsr, sur => .ret ([], none, bsr, sur)
  | n :: sizes, bsr, sur =>
    match bsr.Read sur n with
    | .ret (p, none, bsr, sur) =>
      match readStream sizes bsr sur with
      | .ret (q, err, bsr, sur) => .ret (p ++ q, err, bsr, sur)
      | .blocked => .blocked
      | .crashed => .crashed
      | .starved => .starved
    | .ret (p, some err, bsr, sur) => .ret (p, some err, bsr, sur)
    | .blocked => .blocked
    | .crashed => .crashed
    | .starved => .starved

/-- A complete unit: a scalar, a stream (the slices written to it), or a
container with its body. -/
inductive UnitTree where
  | nil
  | request (code : Nat)
  | answer (code : Nat)
  | event (code : Nat)
  | bin (b : List Nat)
  | number (n : Int)
  | ukey (k : Nat)
  | bool (b : Bool)
  | byte (b : Nat)
  | binstream (writes : List (List Nat))
  | list (items : List UnitTree)
  | textkvmap (pairs : List (List Nat × UnitTree))
  | idkvmap (pairs : List (Nat × UnitTree))

mutual
/-- Send a complete unit with the encoder functions, up to the first error. -/
def UnitTree.send : UnitTree → Writer → Option Err × Writer
  | .nil, w => SendNil w
  | .request c, w => InitRequest w c
  | .answer c, w => InitAnswer w c
  | .event c, w => InitEvent w c
  | .bin b, w => SendBin w b
  | .number n, w => SendNumber w n
  | .ukey k, w => SendUKey w k
  | .bool b, w => SendBool w b
  | .byte b, w => SendByte w b
  | .binstream writes, w =>
    match InitBinStream w with
    | (some bsw, none, _) =>
      let (err, bsw) := bsw.writeClose writes
      (err, bsw.w)
    | (_, err, w) => (err, w)
  | .list items, w =>
    match InitList w with
    | (some err, w) => (some err, w)
    | (none, w) => sendItems items w
  | .textkvmap pairs, w =>
    match InitTextKVMap w with
    | (some err, w) => (some err, w)
    | (none, w) => sendTextPairs pairs w
  | .idkvmap pairs, w =>
    match InitIdKVMap w with
    | (some err, w) => (some err, w)
    | (none, w) => sendIdPairs pairs w
/-- The body of a List, then `SendTerm`. -/
def sendItems : List UnitTree → Writer → Option Err × Writer
  | [], w => SendTerm w
  | t :: ts, w =>
    match t.send w with
    | (some err, w) => (some err, w)
    | (none, w) => sendItems ts w
/-- The body of a TextKVMap, then `SendTerm`. -/
def sendTextPairs : List (List Nat × UnitTree) → Writer → Option Err × Writer
  | [], w => SendTerm w
  | (key, t) :: ts, w =>
    match SendTextKey w key with
    | (some err, w) => (some err, w)
    | (none, w) =>
      match t.send w with
      | (some err, w) => (some err, w)
      | (none, w) => sendTextPairs ts w
/-- The body of an IdKVMap, then `SendTerm`. -/
def sendIdPairs : List (Nat × UnitTree) → Writer → Option Err × Writer
  | [], w => SendTerm w
  | (key, t) :: ts, w =>
    match SendUKey w key with
    | (some err, w) => (some err, w)
    | (none, w) =>
      match t.send w with
      | (some err, w) => (some err, w)
      | (none, w) => sendIdPairs ts w
end

/-- The bytes that sending a complete unit produces. -/
def UnitTree.encode (t : UnitTree) : List Nat := (t.send { out := [], room := none }).2.out

/-- The bytes that sending the body of an IdKVMap (pairs, then Term) produces. -/
def encodeIdPairs (pairs : List (Nat × UnitTree)) : List Nat :=
  (sendIdPairs pairs { out := [], room := none }).2.out

mutual
/-- The values lie in their Go types, a byte block is shorter than 2^32 bytes
and a slice written to a stream is shorter than 2^31 bytes. -/
def UnitTree.fits : UnitTree → Prop
  | .request c => c < 2 ^ 16
  | .answer c => c < 2 ^ 16
  | .event c => c < 2 ^ 16
  | .bin b => b.length < 2 ^ 32
  | .number n => -2 ^ 63 ≤ n ∧ n < 2 ^ 63
  | .binstream writes => ∀ p ∈ writes, p.length < 2 ^ 31
  | .list items => fitsItems items
  | .textkvmap pairs => fitsTextPairs pairs
  | .idkvmap pairs => fitsIdPairs pairs
  | _ => True
def fitsItems : List UnitTree → Prop
  | [] => True
  | t :: ts => t.fits ∧ fitsItems ts
def fitsTextPairs : List (List Nat × UnitTree) → Prop
  | [] => True
  | (key, t) :: ts => key.length < 2 ^ 32 ∧ t.fits ∧ fitsTextPairs ts
def fitsIdPairs : List (Nat × UnitTree) → Prop
  | [] => True
  | (_, t) :: ts => t.fits ∧ fitsIdPairs ts
end

/-- The unit type that `ReadUnit` reports at the start of a complete unit. -/
def UnitTree.ut : UnitTree → UnitType
  | .nil => UTNil
  | .request _ => UTRequest
  | .answer _ => UTAnswer
  | .event _ => UTEvent
  | .bin _ => UTBin
  | .number _ => UTNumber
  | .ukey _ => UTUKey
  | .bool _ => UTBool
  | .byte _ => UTByte
  | .binstream _ => UTBinStream
  | .list _ => UTList
  | .textkvmap _ => UTTextKVMap
  | .idkvmap _ => UTIdKVMap

/-- The payload that `ReadUnit` reports at the start of a complete unit. -/
def UnitTree.payload : UnitTree → Payload
  | .request c => .code c
  | .answer c => .code c
  | .event c => .code c
  | .bin b => .bin b
  | .number n => .number n
  | .ukey k => .byte k
  | .bool b => .bool b
  | .byte b => .byte b
  | .binstream _ => .stream { err := none, toread := 0 }
  | _ => .nil

/-- `ReadUnit` keeps the mutex locked at the start of this unit. -/
def UnitTree.locks : UnitTree → Bool
  | .binstream _ => true
  | _ => false

mutual
/-- The number of levels of `skipUnit` that a complete unit takes: a unit
inside a container is one level further down than the container. -/
def UnitTree.depth : UnitTree → Nat
  | .list items => 1 + depthItems items
  | .textkvmap pairs => 1 + depthTextPairs pairs
  | .idkvmap pairs => 1 + depthIdPairs pairs
  | _ => 1
def depthItems : List UnitTree → Nat
  | [] => 0
  | t :: ts => max t.depth (depthItems ts)
def depthTextPairs : List (List Nat × UnitTree) → Nat
  | [] => 0
  | (_, t) :: ts => max t.depth (depthTextPairs ts)
def depthIdPairs : List (Nat × UnitTree) → Nat
  | [] => 0
  | (_, t) :: ts => max t.depth (depthIdPairs ts)
end

mutual
/-- The units that a unit reader reports for a complete unit, in order. -/
def UnitTree.units : UnitTree → List urReturn
  | .list items => { ut := UTList, data := .nil } :: unitsItems items
  | .textkvmap pairs => { ut := UTTextKVMap, data := .nil } :: unitsTextPairs pairs
  | .idkvmap pairs => { ut := UTIdKVMap, data := .nil } :: unitsIdPairs pairs
  | .nil => [{ ut := UTNil, data := .nil }]
  | .request c => [{ ut := UTRequest, data := .code c }]
  | .answer c => [{ ut := UTAnswer, data := .code c }]
  | .event c => [{ ut := UTEvent, data := .code c }]
  | .bin b => [{ ut := UTBin, data := .bin b }]
  | .number n => [{ ut := UTNumber, data := .number n }]
  | .ukey k => [{ ut := UTUKey, data := .byte k }]
  | .bool b => [{ ut := UTBool, data := .bool b }]
  | .byte b => [{ ut := UTByte, data := .byte b }]
  | .binstream _ => [{ ut := UTBinStream, data := .stream { err := none, toread := 0 } }]
def unitsItems : List UnitTree → List urReturn
  | [] => [{ ut := UTTerm, data := .nil }]
  | t :: ts => t.units ++ unitsItems ts
def unitsTextPairs : List (List Nat × UnitTree) → List urReturn
  | [] => [{ ut := UTTerm, data := .nil }]
  | (key, t) :: ts => { ut := UTBin, data := .bin key } :: (t.units ++ unitsTextPairs ts)
def unitsIdPairs : List (Nat × UnitTree) → List urReturn
  | [] => [{ ut := UTTerm, data := .nil }]
  | (key, t) :: ts => { ut := UTUKey, data := .byte key } :: (t.units ++ unitsIdPairs ts)
end

/-- A stretch of the units that the wrapped reader of a demultiplexer
reports: one unit that is not an Event, or an Event with the complete unit
that follows it. -/
inductive Stretch where
  | plain (u : urReturn)
  | event (code : Nat) (follow : UnitTree)

/-- The units of a stretch, as the wrapped reader reports them. -/
def Stretch.units : Stretch → List urReturn
  | .plain u => [u]
  | .event c t => { ut := UTEvent, data := .code c } :: t.units

/-- The units of a stretch that belong to an event: the Event unit and the
complete unit that follows it. -/
def Stretch.eventUnits : Stretch → List urReturn
  | .plain _ => []
  | .event c t => { ut := UTEvent, data := .code c } :: t.units

/-- The units of a stretch that do not belong to an event. -/
def Stretch.otherUnits : Stretch → List urReturn
  | .plain u => [u]
  | .event _ _ => []

/-- The bytes of a unit on the wire (section 6 of the wire format). -/
def FlatUnit.wire : FlatUnit → List Nat
  | .nil => [UTNil]
  | .request c => UTRequest :: leBytes 2 c
  | .answer c => UTAnswer :: leBytes 2 c
  | .event c => UTEvent :: leBytes 2 c
  | .bin b => UTBin :: (leBytes 4 (b.length % 2 ^ 32) ++ b)
  | .number n => UTNumber :: leBytes 8 (ofInt64 n)
  | .list => [UTList]
  | .textkvmap => [UTTextKVMap]
  | .idkvmap => [UTIdKVMap]
  | .ukey k => [UTUKey, k]
  | .byte b => [UTByte, b]
  | .bool b => [UTBool, if b then 1 else 0]
  | .term => [UTTerm]

/-- The bytes of a sequence of units on the wire. -/
def wireAll : List FlatUnit → List Nat
  | [] => []
  | u :: us => u.wire ++ wireAll us

/-- The frames that the writes of the given slices put on the wire: a length
and the bytes for each slice that is not empty. -/
def frames : List (List Nat) → List Nat
  | [] => []
  | p :: ps => (if p = [] then [] else leBytes 4 (ofInt32 (p.length : Int)) ++ p) ++ frames ps

/-- The frame that `Close` puts on the wire: the length -1. -/
def terminator : List Nat := leBytes 4 (ofInt32 (-1))

/-- The bytes of the given slices, one after the other. -/
def concat : List (List Nat) → List Nat
  | [] => []
  | p :: ps => p ++ concat ps

mutual
/-- The bytes of a complete unit on the wire. -/
def UnitTree.wire : UnitTree → List Nat
  | .nil => [UTNil]
  | .request c => UTRequest :: leBytes 2 c
  | .answer c => UTAnswer :: leBytes 2 c
  | .event c => UTEvent :: leBytes 2 c
  | .bin b => UTBin :: (leBytes 4 (b.length % 2 ^ 32) ++ b)
  | .number n => UTNumber :: leBytes 8 (ofInt64 n)
  | .ukey k => [UTUKey, k]
  | .bool b => [UTBool, if b then 1 else 0]
  | .byte b => [UTByte, b]
  | .binstream writes => UTBinStream :: (frames writes ++ terminator)
  | .list items => UTList :: wireItems items
  | .textkvmap pairs => UTTextKVMap :: wireTextPairs pairs
  | .idkvmap pairs => UTIdKVMap :: wireIdPairs pairs
/-- The bytes of the body of a List, with its Term. -/
def wireItems : List UnitTree → List Nat
  | [] => [UTTerm]
  | t :: ts => t.wire ++ wireItems ts
/-- The bytes of the body of a TextKVMap, with its Term. -/
def wireTextPairs : List (List Nat × UnitTree) → List Nat
  | [] => [UTTerm]
  | (key, t) :: ts => (UTBin :: (leBytes 4 (key.length % 2 ^ 32) ++ key)) ++ (t.wire ++ wireTextPairs ts)
/-- The bytes of the body of an IdKVMap, with its Term. -/
def wireIdPairs : List (Nat × UnitTree) → List Nat
  | [] => [UTTerm]
  | (key, t) :: ts => [UTUKey, key] ++ (t.wire ++ wireIdPairs ts)
end

/-- The bytes of a complete unit that follow what `ReadUnit` takes at its
start: the frames of a stream, the body of a container. -/
def UnitTree.body : UnitTree → List Nat
  | .binstream writes => frames writes ++ terminator
  | .list items => wireItems items
  | .textkvmap pairs => wireTextPairs pairs
  | .idkvmap pairs => wireIdPairs pairs
  | _ => []

mutual
/-- Fuel that is enough for `skipUnit` on a complete unit. -/
def UnitTree.cost : UnitTree → Nat
  | .list items => 1 + costItems items
  | .textkvmap pairs => 1 + costTextPairs pairs
  | .idkvmap pairs => 1 + costIdPairs pairs
  | _ => 1
def costItems : List UnitTree → Nat
  | [] => 1
  | t :: ts => 1 + t.cost + costItems ts
def costTextPairs : List (List Nat × UnitTree) → Nat
  | [] => 1
  | (_, t) :: ts => 1 + t.cost + costTextPairs ts
def costIdPairs : List (Nat × UnitTree) → Nat
  | [] => 1
  | (_, t) :: ts => 1 + t.cost + costIdPairs ts
end

/-- `SkipUnit` returns no error on this complete unit, whatever follows it. -/
def Skippable (t : UnitTree) : Prop :=
  ∀ rest : List Nat, ∃ ur,
    SkipUnit { r := t.body ++ rest, mu := t.locks } t.ut t.payload = .ret (none, ur)

/-- The action of the getter succeeds on this complete unit and takes exactly
the bytes of the unit, whatever follows it and whatever the actions reach. -/
def ActionConsumes {σ : Type} (g : UKeyGetter σ) (t : UnitTree) : Prop :=
  ∀ (rest : List Nat) (w : σ), ∃ fatal w',
    g.Action t.payload { r := t.body ++ rest, mu := t.locks } w =
      .ret ((none, fatal), { r := rest, mu := false }, w')

/-- A pair of an IdKVMap that does not put `ScanIdKVMap` into its drain-only
mode and does not end it: its key is registered, with the declared type and
an action that consumes the value, or its key is not registered, unknown
keys are let through and the value can be skipped. -/
def PairOk {σ : Type} (getters : Nat → Option (UKeyGetter σ)) (failOnUnknown : Bool)
    (p : Nat × UnitTree) : Prop :=
  match getters p.1 with
  | none => failOnUnknown = false ∧ Skippable p.2
  | some g => p.2.ut = g.Typ ∧ ActionConsumes g p.2

/-- The bytes of pairs of an IdKVMap on the wire, without the Term. -/
def wirePairs : List (Nat × UnitTree) → List Nat
  | [] => []
  | (key, t) :: ts => [UTUKey, key] ++ (t.wire ++ wirePairs ts)

/-- The action calls that the pairs with a registered key stand for: key and
payload, in the order of the source. -/
def callsOf {σ : Type} (getters : Nat → Option (UKeyGetter σ)) (body : List (Nat × UnitTree)) :
    List (Nat × Payload) :=
  body.filterMap (fun p => if (getters p.1).isSome then some (p.1, p.2.payload) else none)

/-- The `bool` variable at address `q` is the `Captured` variable of a
registered key that occurs in the pairs. -/
def capturedIn {σ : Type} (getters : Nat → Option (UKeyGetter σ)) (body : List (Nat × UnitTree))
    (q : Nat) : Bool :=
  body.any (fun p =>
    match getters p.1 with
    | some g => decide (g.Captured = some q)
    | none => false)

/-- The key `k` is registered and occurs in the pairs. -/
def occursIn {σ : Type} (getters : Nat → Option (UKeyGetter σ)) (body : List (Nat × UnitTree))
    (k : Nat) : Bool :=
  body.any (fun p => decide (p.1 = k) && (getters p.1).isSome)

/-- What a run of `ScanIdKVMap` shows: the error, the reader, whether the scan
was in drain-only mode at its end, and the action calls made. -/
def scanSummary {σ : Type} :
    Run (Option Err × ScanState σ) → Run (Option Err × SimpleUnitReader × Bool × List (Nat × Payload))
  | .ret (err, st) => .ret (err, st.ur, st.skipAll, st.calls)
  | .blocked => .blocked
  | .crashed => .crashed
  | .starved => .starved

/-- A getter table for the examples: key 1 is mandatory and holds a Number,
which its action drops. -/
def numberGetters : Nat → Option (UKeyGetter Unit) := fun k =>
  if k = 1 then
    some { Typ := UTNumber, Optional := false, Action := ActionStoreNumber (fun _ w => w),
           Captured := some 0 }
  else none

/-- A getter table for the examples: key 1 is mandatory and holds a Bool,
and its action fails with an error that is not fatal, leaving the reader as
it is. -/
def failingGetters : Nat → Option (UKeyGetter Unit) := fun k =>
  if k = 1 then
    some { Typ := UTBool, Optional := false,
           Action := fun _ ur w => .ret ((some (.other 5), false), ur, w),
           Captured := some 0 }
  else none

/-- Lists nested in each other, `n + 1` of them, the innermost one empty. -/
def nestedLists : Nat → UnitTree
  | 0 => .list []
  | n + 1 => .list [nestedLists n]

/-- The units of a sequence of stretches, as the wrapped reader reports them. -/
def allUnits : List Stretch → List urReturn
  | [] => []
  | s :: ss => s.units ++ allUnits ss

/-- The Event units of a sequence of stretches, each with the complete unit
that follows it. -/
def allEventUnits : List Stretch → List urReturn
  | [] => []
  | s :: ss => s.eventUnits ++ allEventUnits ss

/-- The remaining units of a sequence of stretches. -/
def allOtherUnits : List Stretch → List urReturn
  | [] => []
  | s :: ss => s.otherUnits ++ allOtherUnits ss

/-- The units among `units` whose mark in `mask` is `b`, in their order. -/
def pick (b : Bool) : List Bool → List urReturn → List urReturn
  | m :: mask, u :: units => if m = b then u :: pick b mask units else pick b mask units
  | _, _ => []

/-- A call on a stream reader: `Read` with a buffer of the given size, or
`FastForward`. -/
inductive StreamCall where
  | read (plen : Nat)
  | fastForward
  deriving DecidableEq, Repr

/-- Make the call: the error it returns and the states it leaves. -/
def StreamCall.run : StreamCall → BinstreamReader → SimpleUnitReader →
    Run (Option Err × BinstreamReader × SimpleUnitReader)
  | .read plen, bsr, sur =>
    match bsr.Read sur plen with
    | .ret (_, err, bsr, sur) => .ret (err, bsr, sur)
    | .blocked => .blocked
    | .crashed => .crashed
    | .starved => .starved
  | .fastForward, bsr, sur => bsr.FastForward sur

/-- The number of calls, in a sequence of calls on one stream reader, that
release the mutex (find it locked and leave it unlocked). -/
def unlocks : List StreamCall → BinstreamReader → SimpleUnitReader → Nat
  | [], _, _ => 0
  | c :: cs, bsr, sur =>
    match c.run bsr sur with
    | .ret (_, bsr', sur') => (if sur.mu && !sur'.mu then 1 else 0) + unlocks cs bsr' sur'
    | _ => 0

/-- The number that a sequence of bytes stands for, least significant byte
first. -/
def leValue : List Nat → Nat
  | [] => 0
  | b :: bs => b + 256 * leValue bs

/-- A call on a stream writer: `Write` of a slice, or `Close`. -/
inductive WriterCall where
  | write (p : List Nat)
  | close
  deriving DecidableEq, Repr

/-- Make the calls in order, whatever they return: the writer they leave. -/
def BinstreamWriter.calls (bsw : BinstreamWriter) : List WriterCall → BinstreamWriter
  | [] => bsw
  | .write p :: cs => BinstreamWriter.calls (bsw.Write p).2.2 cs
  | .close :: cs => BinstreamWriter.calls bsw.Close.2 cs

/-- The slices of the `Write` calls that come before the first `Close`. -/
def written : List WriterCall → List (List Nat)
  | [] => []
  | .write p :: cs => p :: written cs
  | .close :: _ => []

/-- Whether a `Close` is among the calls. -/
def closes : List WriterCall → Bool
  | [] => false
  | .write _ :: cs => closes cs
  | .close :: _ => true

mutual
/-- The number of containers nested in each other in a complete unit, the
unit itself counted when it is a container; a scalar or a stream has none. -/
def UnitTree.nesting : UnitTree → Nat
  | .list items => 1 + nestingItems items
  | .textkvmap pairs => 1 + nestingTextPairs pairs
  | .idkvmap pairs => 1 + nestingIdPairs pairs
  | _ => 0
def nestingItems : List UnitTree → Nat
  | [] => 0
  | t :: ts => max t.nesting (nestingItems ts)
def nestingTextPairs : List (List Nat × UnitTree) → Nat
  | [] => 0
  | (_, t) :: ts => max t.nesting (nestingTextPairs ts)
def nestingIdPairs : List (Nat × UnitTree) → Nat
  | [] => 0
  | (_, t) :: ts => max t.nesting (nestingIdPairs ts)
end

/-- Lists nested in each other, `n + 1` of them, the innermost one holding
the unit `t`. -/
def nestedHolding (t : UnitTree) : Nat → UnitTree
  | 0 => .list [t]
  | n + 1 => .list [nestedHolding t n]

/-- The state of the actions after the scan has gone through the pairs, none
of which ends it, `tail` following them in the source: the action of a pair
is called when its key is registered with the type of its value, with the
reader standing after the start of the value, and the state it leaves is
passed on. -/
def worldAfter {σ : Type} (getters : Nat → Option (UKeyGetter σ)) :
    List (Nat × UnitTree) → List Nat → σ → σ
  | [], _, w => w
  | (k, t) :: ps, tail, w =>
    match getters k with
    | none => worldAfter getters ps tail w
    | some g =>
      if t.ut = g.Typ then
        match g.Action t.payload { r := t.body ++ (wirePairs ps ++ tail), mu := t.locks } w with
        | .ret (_, _, w') => worldAfter getters ps tail w'
        | _ => worldAfter getters ps tail w
      else worldAfter getters ps tail w

/-- A getter table for the examples: key 1 is mandatory and holds a Byte,
which its action stores. -/
def storingGetters : Nat → Option (UKeyGetter Nat) := fun k =>
  if k = 1 then
    some { Typ := UTByte, Optional := false, Action := ActionStoreByte (fun b _ => b),
           Captured := some 0 }
  else none

/-! # Theorems -/

theorem leBytes_length (k n : Nat) : (leBytes k n).length = k := by
  induction k generalizing n with
  | zero => rfl
  | succ k ih => simp [leBytes, ih]

theorem leNat_leBytes (k n : Nat) : leNat (leBytes k n) = n % 256 ^ k := by
  induction k generalizing n with
  | zero => simp [leBytes, leNat, Nat.mod_one]
  | succ k ih =>
    simp only [leBytes, leNat, ih, Nat.mod_mod]
    rw [pow_succ', Nat.mod_mul]

theorem toInt64_ofInt64 (n : Int) (h : -2 ^ 63 ≤ n ∧ n < 2 ^ 63) :
    toInt64 (ofInt64 n % 256 ^ 8) = n := by
  unfold toInt64 ofInt64
  omega

theorem toInt32_ofInt32_len (l : Nat) (h : l < 2 ^ 31) :
    toInt32 (ofInt32 (l : Int) % 256 ^ 4) = (l : Int) := by
  unfold toInt32 ofInt32
  omega

theorem toInt32_ofInt32_neg : toInt32 (ofInt32 (-1) % 256 ^ 4) = -1 := by decide

theorem ReadFull_append (bs rest : List Nat) (n : Nat) (h : bs.length = n) :
    ReadFull n (bs ++ rest) = (bs, none, rest) := by
  subst h
  unfold ReadFull
  by_cases h0 : bs.length = 0
  · have : bs = [] := List.length_eq_zero.mp h0
    subst this; simp
  · have hne : bs ≠ [] := fun h => h0 (by simp [h])
    simp [h0, hne]

theorem Write_unlimited (out p : List Nat) :
    Writer.Write { out := out, room := none } p = (p.length, none, { out := out ++ p, room := none }) := rfl

/-! ## ReadUnit on the bytes of one unit -/

theorem readUnit_empty : (SimpleUnitReader.mk [] false).ReadUnit = .ret (0, .nil, some .EOF, ⟨[], false⟩) := rfl

theorem readUnit_locked (r : List Nat) : (SimpleUnitReader.mk r true).ReadUnit = .blocked := rfl

theorem readUnit_bare (t : Nat) (rest : List Nat)
    (ht : t = UTNil ∨ t = UTList ∨ t = UTTextKVMap ∨ t = UTIdKVMap ∨ t = UTTerm) :
    (SimpleUnitReader.mk (t :: rest) false).ReadUnit = .ret (t, .nil, none, ⟨rest, false⟩) := by
  rcases ht with h | h | h | h | h <;> subst h <;> rfl

theorem readUnit_code (t c : Nat) (rest : List Nat)
    (ht : t = UTRequest ∨ t = UTAnswer ∨ t = UTEvent) (hc : c < 2 ^ 16) :
    (SimpleUnitReader.mk (t :: (leBytes 2 c ++ rest)) false).ReadUnit =
      .ret (t, .code c, none, ⟨rest, false⟩) := by
  have hl : leNat (leBytes 2 c) = c := by
    rw [leNat_leBytes]; exact Nat.mod_eq_of_lt (by simpa using hc)
  have hr := ReadFull_append (leBytes 2 c) rest 2 (leBytes_length 2 c)
  rcases ht with h | h | h <;> subst h <;>
    simp [SimpleUnitReader.ReadUnit, ReadByte, hr, hl]

theorem readUnit_bin (b rest : List Nat) (hb : b.length < 2 ^ 32) :
    (SimpleUnitReader.mk (UTBin :: (leBytes 4 (b.length % 2 ^ 32) ++ (b ++ rest))) false).ReadUnit =
      .ret (UTBin, .bin b, none, ⟨rest, false⟩) := by
  have hl : leNat (leBytes 4 (b.length % 2 ^ 32)) = b.length := by
    rw [leNat_leBytes]
    have : (256 : Nat) ^ 4 = 2 ^ 32 := by norm_num
    rw [this, Nat.mod_mod, Nat.mod_eq_of_lt hb]
  have hr := ReadFull_append (leBytes 4 (b.length % 2 ^ 32)) (b ++ rest) 4 (leBytes_length 4 _)
  have hr2 := ReadFull_append b rest b.length rfl
  simp only [Nat.reducePow] at hr hl
  simp [SimpleUnitReader.ReadUnit, ReadByte, hr, hl, hr2]

theorem readUnit_number (n : Int) (rest : List Nat) (hn : -2 ^ 63 ≤ n ∧ n < 2 ^ 63) :
    (SimpleUnitReader.mk (UTNumber :: (leBytes 8 (ofInt64 n) ++ rest)) false).ReadUnit =
      .ret (UTNumber, .number n, none, ⟨rest, false⟩) := by
  have hl : toInt64 (leNat (leBytes 8 (ofInt64 n))) = n := by
    rw [leNat_leBytes]; exact toInt64_ofInt64 n hn
  have hr := ReadFull_append (leBytes 8 (ofInt64 n)) rest 8 (leBytes_length 8 _)
  simp [SimpleUnitReader.ReadUnit, ReadByte, hr, hl]

theorem readUnit_byte (t k : Nat) (rest : List Nat) (ht : t = UTUKey ∨ t = UTByte) :
    (SimpleUnitReader.mk (t :: k :: rest) false).ReadUnit = .ret (t, .byte k, none, ⟨rest, false⟩) := by
  rcases ht with h | h <;> subst h <;> rfl

theorem readUnit_bool (b : Bool) (rest : List Nat) :
    (SimpleUnitReader.mk (UTBool :: (if b then 1 else 0) :: rest) false).ReadUnit =
      .ret (UTBool, .bool b, none, ⟨rest, false⟩) := by
  cases b <;> rfl

theorem readUnit_stream (rest : List Nat) :
    (SimpleUnitReader.mk (UTBinStream :: rest) false).ReadUnit =
      .ret (UTBinStream, .stream { err := none, toread := 0 }, none, ⟨rest, true⟩) := rfl

/-! ## C1: flat units -/

theorem flat_send (u : FlatUnit) (out : List Nat) :
    u.send { out := out, room := none } = (none, { out := out ++ u.wire, room := none }) := by
  cases u <;>
    simp [FlatUnit.send, FlatUnit.wire, SendNil, InitRequest, InitAnswer, InitEvent, sendRAE,
      SendBin, SendNumber, InitList, InitTextKVMap, InitIdKVMap, SendUKey, SendByte, SendBool,
      sendTypedByte, SendTerm, Writer.Write]
  case bool b => cases b <;> simp [sendTypedByte, Writer.Write] <;> decide
  all_goals decide

theorem sendAll_wire (us : List FlatUnit) (out : List Nat) :
    sendAll { out := out, room := none } us = (none, { out := out ++ wireAll us, room := none }) := by
  induction us generalizing out with
  | nil => simp [sendAll, wireAll]
  | cons u us ih => simp [sendAll, wireAll, flat_send, ih]

theorem flat_read (u : FlatUnit) (rest : List Nat) (h : u.fits) :
    (SimpleUnitReader.mk (u.wire ++ rest) false).ReadUnit =
      .ret (u.ut, u.payload, none, ⟨rest, false⟩) := by
  cases u with
  | nil => exact readUnit_bare _ _ (by simp)
  | request c => exact readUnit_code _ _ _ (by simp) h
  | answer c => exact readUnit_code _ _ _ (by simp) h
  | event c => exact readUnit_code _ _ _ (by simp) h
  | bin b => simpa [FlatUnit.wire] using readUnit_bin b rest h
  | number n => exact readUnit_number n rest h
  | list => exact readUnit_bare _ _ (by simp)
  | textkvmap => exact readUnit_bare _ _ (by simp)
  | idkvmap => exact readUnit_bare _ _ (by simp)
  | ukey k => exact readUnit_byte _ _ _ (by simp)
  | byte b => exact readUnit_byte _ _ _ (by simp)
  | bool b => exact readUnit_bool b rest
  | term => exact readUnit_bare _ _ (by simp)

theorem readUnits_wire (us : List FlatUnit) (h : ∀ u ∈ us, u.fits) :
    readUnits (us.length + 1) (SimpleUnitReader.mk (wireAll us) false) =
      us.map (fun u => Run.ret (u.ut, u.payload, none)) ++ [.ret (0, .nil, some .EOF)] := by
  induction us with
  | nil => rfl
  | cons u us ih =>
    have hu := flat_read u (wireAll us) (h u (by simp))
    have ih' := ih (fun v hv => h v (by simp [hv]))
    simp only [wireAll, List.length_cons, List.map_cons, List.cons_append]
    rw [readUnits, hu]
    simp only []
    rw [ih']

/-- C1: units other than streams, sent in order with their encoder functions
on a writer that does not fail, are read back by successive calls of
`ReadUnit` with the same unit types and payloads and a nil error each, and
the call after the last unit returns `io.EOF`. -/
theorem C1_roundtrip_flat_units (us : List FlatUnit) (h : ∀ u ∈ us, u.fits) :
    (sendAll { out := [], room := none } us).1 = none ∧
    readUnits (us.length + 1)
        (NewSimpleUnitReader (sendAll { out := [], room := none } us).2.out) =
      us.map (fun u => Run.ret (u.ut, u.payload, none)) ++ [.ret (0, .nil, some .EOF)] := by
  rw [sendAll_wire]
  exact ⟨rfl, by simpa [NewSimpleUnitReader] using readUnits_wire us h⟩

theorem C1_roundtrip_flat_units_witness :
    (∀ u ∈ [FlatUnit.request 42, .idkvmap, .ukey 16, .bin [104, 105], .number (-7), .bool true,
        .term], u.fits) ∧
    (sendAll { out := [], room := none } [FlatUnit.request 42, .idkvmap, .ukey 16,
        .bin [104, 105], .number (-7), .bool true, .term]).1 = none ∧
    readUnits 8 (NewSimpleUnitReader (sendAll { out := [], room := none }
        [FlatUnit.request 42, .idkvmap, .ukey 16, .bin [104, 105], .number (-7), .bool true,
          .term]).2.out) =
      [.ret (UTRequest, .code 42, none), .ret (UTIdKVMap, .nil, none),
        .ret (UTUKey, .byte 16, none), .ret (UTBin, .bin [104, 105], none),
        .ret (UTNumber, .number (-7), none), .ret (UTBool, .bool true, none),
        .ret (UTTerm, .nil, none), .ret (0, .nil, some .EOF)] :=
  ⟨by simp [FlatUnit.fits],
    C1_roundtrip_flat_units _ (by simp [FlatUnit.fits])⟩

/-! ## C2: the stream writer and the stream reader -/

theorem bsw_write (out p : List Nat) :
    BinstreamWriter.Write { w := { out := out, room := none }, err := none } p =
      (p.length, none,
        { w := { out := out ++ (if p = [] then [] else leBytes 4 (ofInt32 (p.length : Int)) ++ p),
                 room := none }, err := none }) := by
  by_cases hp : p = []
  · subst hp; simp [BinstreamWriter.Write]
  · have : p.length ≠ 0 := fun h => hp (List.length_eq_zero.mp h)
    simp [BinstreamWriter.Write, Writer.Write, hp, this]

theorem bsw_writeAll (ps : List (List Nat)) (out : List Nat) :
    BinstreamWriter.writeAll { w := { out := out, room := none }, err := none } ps =
      (none, { w := { out := out ++ frames ps, room := none }, err := none }) := by
  induction ps generalizing out with
  | nil => simp [BinstreamWriter.writeAll, frames]
  | cons p ps ih => simp [BinstreamWriter.writeAll, bsw_write, ih, frames]

theorem bsw_writeClose (ps : List (List Nat)) (out : List Nat) :
    BinstreamWriter.writeClose { w := { out := out, room := none }, err := none } ps =
      (none, { w := { out := out ++ (frames ps ++ terminator), room := none },
               err := some .EOF }) := by
  simp [BinstreamWriter.writeClose, bsw_writeAll, BinstreamWriter.Close, Writer.Write, terminator]

theorem read_terminator (rest : List Nat) (plen : Nat) :
    BinstreamReader.Read { err := none, toread := 0 } { r := terminator ++ rest, mu := true } plen =
      .ret ([], some .EOF, { err := some .EOF, toread := -1 }, { r := rest, mu := false }) := by
  have hr := ReadFull_append terminator rest 4 (by rfl)
  have ht : toInt32 (leNat terminator) = -1 := by decide
  simp [BinstreamReader.Read, hr, ht]

theorem readChunk_data (data tail : List Nat) (plen : Nat) (mu : Bool) (hd : data ≠ []) :
    BinstreamReader.readChunk { err := none, toread := (data.length : Int) }
        { r := data ++ tail, mu := mu } plen =
      .ret (data.take plen, none,
        { err := none, toread := ((data.drop plen).length : Int) },
        { r := data.drop plen ++ tail, mu := mu }) := by
  have hne : data ++ tail ≠ [] := by simp [hd]
  have hlen : 0 < data.length := List.length_pos.mpr hd
  unfold BinstreamReader.readChunk
  have h0 : ¬ ((data.length : Int) < 0) := by omega
  simp only [h0, if_false]
  by_cases hlt : (data.length : Int) < (plen : Int)
  · have hle : data.length ≤ plen := by omega
    simp only [hlt, if_true, Int.toNat_ofNat, Read, hne, if_false]
    have h1 : List.take data.length (data ++ tail) = data := by simp
    have h2 : List.drop data.length (data ++ tail) = tail := by simp
    have h3 : List.take plen data = data := List.take_of_length_le hle
    have h4 : List.drop plen data = [] := List.drop_of_length_le hle
    simp [h1, h2, h3, h4]
  · have hle : plen ≤ data.length := by omega
    simp only [hlt, if_false, Read, hne]
    have h1 : List.take plen (data ++ tail) = List.take plen data := List.take_append_of_le_length hle
    have h2 : List.drop plen (data ++ tail) = List.drop plen data ++ tail :=
      List.drop_append_of_le_length hle
    have h3 : (List.take plen data).length = plen := by simp [hle]
    have h5 : (data.length : Int) - ((List.take plen data).length : Int) =
        ((List.drop plen data).length : Int) := by
      rw [h3, List.length_drop]; omega
    simp only [h1, h2, h5]

theorem read_mid (data tail : List Nat) (plen : Nat) (mu : Bool) (hd : data ≠ []) :
    BinstreamReader.Read { err := none, toread := (data.length : Int) }
        { r := data ++ tail, mu := mu } plen =
      .ret (data.take plen, none,
        { err := none, toread := ((data.drop plen).length : Int) },
        { r := data.drop plen ++ tail, mu := mu }) := by
  have hlen : 0 < data.length := List.length_pos.mpr hd
  have h0 : ¬ ((data.length : Int) = 0) := by omega
  simp only [BinstreamReader.Read, h0, if_false]
  exact readChunk_data data tail plen mu hd

theorem read_frame (p tail : List Nat) (plen : Nat) (mu : Bool) (hd : p ≠ [])
    (hl : p.length < 2 ^ 31) :
    BinstreamReader.Read { err := none, toread := 0 }
        { r := leBytes 4 (ofInt32 (p.length : Int)) ++ (p ++ tail), mu := mu } plen =
      .ret (p.take plen, none,
        { err := none, toread := ((p.drop plen).length : Int) },
        { r := p.drop plen ++ tail, mu := mu }) := by
  have hr := ReadFull_append (leBytes 4 (ofInt32 (p.length : Int))) (p ++ tail) 4
    (leBytes_length 4 _)
  have ht : toInt32 (leNat (leBytes 4 (ofInt32 (p.length : Int)))) = (p.length : Int) := by
    rw [leNat_leBytes]; exact toInt32_ofInt32_len _ hl
  have h0 : ¬ ((p.length : Int) < 0) := by omega
  simp only [BinstreamReader.Read, hr, ht, h0, if_true, if_false]
  exact readChunk_data p tail plen mu hd

theorem readStream_terminator (n : Nat) (ss rest : List Nat) :
    readStream (n :: ss) { err := none, toread := 0 } { r := terminator ++ rest, mu := true } =
      .ret ([], some .EOF, { err := some .EOF, toread := -1 }, { r := rest, mu := false }) := by
  rw [readStream, read_terminator rest n]

theorem readStream_frames (sizes : List Nat) :
    ∀ (data : List Nat) (ps : List (List Nat)) (rest : List Nat),
      (∀ n ∈ sizes, 0 < n) → (∀ p ∈ ps, p.length < 2 ^ 31) →
      data.length + (concat ps).length < sizes.length →
      readStream sizes { err := none, toread := (data.length : Int) }
          { r := data ++ (frames ps ++ (terminator ++ rest)), mu := true } =
        .ret (data ++ concat ps, some .EOF, { err := some .EOF, toread := -1 },
          { r := rest, mu := false }) := by
  induction sizes with
  | nil => intro data ps rest _ _ h; simp at h
  | cons n ss ih =>
    intro data ps rest hs hps hlen
    have hn : 0 < n := hs n (by simp)
    have hss : ∀ m ∈ ss, 0 < m := fun m hm => hs m (by simp [hm])
    by_cases hd : data = []
    · subst hd
      induction ps with
      | nil =>
        simp only [frames, concat, List.nil_append, List.length_nil, Nat.cast_zero]
        exact readStream_terminator n ss rest
      | cons p ps ihp =>
        have hps' : ∀ q ∈ ps, q.length < 2 ^ 31 := fun q hq => hps q (by simp [hq])
        by_cases hp : p = []
        · subst hp
          have := ihp hps' (by simpa [concat] using hlen)
          simpa [frames, concat] using this
        · have hpl := hps p (by simp)
          have hrd := read_frame p (frames ps ++ (terminator ++ rest)) n true hp hpl
          have hlen' : (p.drop n).length + (concat ps).length < ss.length := by
            have : 0 < p.length := List.length_pos.mpr hp
            simp only [concat, List.length_append, List.length_cons, List.length_nil,
              List.length_drop] at hlen ⊢
            omega
          have hih := ih (p.drop n) ps rest hss hps' hlen'
          simp only [frames, hp, if_false, List.append_assoc, List.nil_append, List.length_nil,
            Nat.cast_zero, readStream, hrd, hih, concat]
          rw [← List.append_assoc, List.take_append_drop]
    · have hrd := read_mid data (frames ps ++ (terminator ++ rest)) n true hd
      have hlen' : (data.drop n).length + (concat ps).length < ss.length := by
        have : 0 < data.length := List.length_pos.mpr hd
        simp only [List.length_cons, List.length_drop] at hlen ⊢
        omega
      have hih := ih (data.drop n) ps rest hss hps hlen'
      simp only [readStream, hrd, hih]
      rw [← List.append_assoc, List.take_append_drop]

theorem copyStream_of_readStream (fuel : Nat) :
    ∀ (bsr : BinstreamReader) (sur : SimpleUnitReader) (d : List Nat) (e : Err)
      (b : BinstreamReader) (s : SimpleUnitReader),
      readStream (List.replicate fuel 32768) bsr sur = .ret (d, some e, b, s) →
      copyStream fuel bsr sur = .ret (d, if e = .EOF then none else some e, b, s) := by
  induction fuel with
  | zero => intro bsr sur d e b s h; simp [readStream] at h
  | succ fuel ih =>
    intro bsr sur d e b s h
    simp only [List.replicate_succ, readStream] at h
    simp only [copyStream]
    cases hr : bsr.Read sur 32768 with
    | ret a =>
      obtain ⟨p, err, bsr1, sur1⟩ := a
      rw [hr] at h
      cases err with
      | none =>
        simp only at h ⊢
        cases hq : readStream (List.replicate fuel 32768) bsr1 sur1 with
        | ret a2 =>
          obtain ⟨q, err2, bsr2, sur2⟩ := a2
          rw [hq] at h
          simp only [Run.ret.injEq, Prod.mk.injEq] at h
          obtain ⟨h1, h2, h3, h4⟩ := h
          subst h1 h2 h3 h4
          rw [ih bsr1 sur1 q e bsr2 sur2 hq]
        | blocked => rw [hq] at h; simp at h
        | crashed => rw [hq] at h; simp at h
        | starved => rw [hq] at h; simp at h
      | some e1 =>
        simp only [Run.ret.injEq, Prod.mk.injEq, Option.some.injEq] at h
        obtain ⟨h1, h2, h3, h4⟩ := h
        subst h1 h2 h3 h4
        cases e1 <;> simp
    | blocked => rw [hr] at h; simp at h
    | crashed => rw [hr] at h; simp at h
    | starved => rw [hr] at h; simp at h

theorem frames_length (ps : List (List Nat)) : (concat ps).length ≤ (frames ps).length := by
  induction ps with
  | nil => simp [concat, frames]
  | cons p ps ih =>
    by_cases hp : p = []
    · subst hp; simpa [concat, frames] using ih
    · simp only [concat, frames, hp, if_false, List.length_append, leBytes_length]; omega

theorem fastForward_frames (ps : List (List Nat)) (rest : List Nat)
    (hps : ∀ p ∈ ps, p.length < 2 ^ 31) :
    BinstreamReader.FastForward { err := none, toread := 0 }
        { r := frames ps ++ (terminator ++ rest), mu := true } =
      .ret (none, { err := some .EOF, toread := -1 }, { r := rest, mu := false }) := by
  have hlen := frames_length ps
  have h := readStream_frames
    (List.replicate ((frames ps ++ (terminator ++ rest)).length + 1) 32768) [] ps rest
    (by intro n hn; rw [List.eq_of_mem_replicate hn]; decide) hps
    (by simp only [List.length_nil, List.length_replicate, List.length_append]; omega)
  have h2 := copyStream_of_readStream _ _ _ _ _ _ _ h
  simp only [List.nil_append, List.length_nil, Nat.cast_zero] at h2
  simp only [BinstreamReader.FastForward, BinstreamReader.fastForward]
  rw [h2]
  simp

/-- C2: slices shorter than 2^31 bytes (empty ones among them) are passed to
`BinstreamWriter.Write` and `Close` follows; the bytes produced, followed by
any bytes `rest`, are read through a `BinstreamReader` with buffers of any
sizes above zero until it reports an error: the error is `io.EOF`, the bytes
read are the slices one after the other, and exactly `rest` is left in the
source. -/
theorem C2_stream_roundtrip (ps : List (List Nat)) (rest sizes : List Nat)
    (hps : ∀ p ∈ ps, p.length < 2 ^ 31) (hs : ∀ n ∈ sizes, 0 < n)
    (hlen : (concat ps).length < sizes.length) :
    (BinstreamWriter.writeClose { w := { out := [], room := none }, err := none } ps).1 = none ∧
    readStream sizes { err := none, toread := 0 }
        { r := (BinstreamWriter.writeClose { w := { out := [], room := none }, err := none }
                  ps).2.w.out ++ rest,
          mu := true } =
      .ret (concat ps, some .EOF, { err := some .EOF, toread := -1 },
        { r := rest, mu := false }) := by
  rw [bsw_writeClose]
  refine ⟨rfl, ?_⟩
  have h := readStream_frames sizes [] ps rest hs hps (by simpa using hlen)
  simpa using h

theorem C2_stream_roundtrip_witness :
    (∀ p ∈ [[104, 101, 108, 108, 111], [44, 32], [], [119, 111, 114, 108, 100, 33]],
      p.length < 2 ^ 31) ∧
    (∀ n ∈ [3, 1, 100, 2, 2, 1, 1, 1, 1, 1, 1, 1, 1, 7], 0 < n) ∧
    readStream [3, 1, 100, 2, 2, 1, 1, 1, 1, 1, 1, 1, 1, 7] { err := none, toread := 0 }
        { r := (BinstreamWriter.writeClose { w := { out := [], room := none }, err := none }
                  [[104, 101, 108, 108, 111], [44, 32], [], [119, 111, 114, 108, 100, 33]]).2.w.out
                ++ [9, 9],
          mu := true } =
      .ret ([104, 101, 108, 108, 111, 44, 32, 119, 111, 114, 108, 100, 33], some .EOF,
        { err := some .EOF, toread := -1 }, { r := [9, 9], mu := false }) :=
  ⟨by decide, by decide,
    (C2_stream_roundtrip [[104, 101, 108, 108, 111], [44, 32], [], [119, 111, 114, 108, 100, 33]]
      [9, 9] [3, 1, 100, 2, 2, 1, 1, 1, 1, 1, 1, 1, 1, 7] (by decide) (by decide)
      (by decide)).2⟩

/-! ## Complete units: what is sent, what ReadUnit reports -/

mutual
theorem send_wire : ∀ (t : UnitTree) (out : List Nat),
    t.send { out := out, room := none } = (none, { out := out ++ t.wire, room := none })
  | .nil, out => flat_send .nil out
  | .request c, out => flat_send (.request c) out
  | .answer c, out => flat_send (.answer c) out
  | .event c, out => flat_send (.event c) out
  | .bin b, out => flat_send (.bin b) out
  | .number n, out => flat_send (.number n) out
  | .ukey k, out => flat_send (.ukey k) out
  | .bool b, out => flat_send (.bool b) out
  | .byte b, out => flat_send (.byte b) out
  | .binstream writes, out => by
    simp [UnitTree.send, UnitTree.wire, InitBinStream, Writer.Write, bsw_writeClose]
  | .list items, out => by
    simp [UnitTree.send, UnitTree.wire, InitList, Writer.Write, sendItems_wire items]
  | .textkvmap pairs, out => by
    simp [UnitTree.send, UnitTree.wire, InitTextKVMap, Writer.Write, sendTextPairs_wire pairs]
  | .idkvmap pairs, out => by
    simp [UnitTree.send, UnitTree.wire, InitIdKVMap, Writer.Write, sendIdPairs_wire pairs]
theorem sendItems_wire : ∀ (ts : List UnitTree) (out : List Nat),
    sendItems ts { out := out, room := none } = (none, { out := out ++ wireItems ts, room := none })
  | [], out => by simp [sendItems, wireItems, SendTerm, Writer.Write]
  | t :: ts, out => by
    simp [sendItems, wireItems, send_wire t, sendItems_wire ts]
theorem sendTextPairs_wire : ∀ (ts : List (List Nat × UnitTree)) (out : List Nat),
    sendTextPairs ts { out := out, room := none } =
      (none, { out := out ++ wireTextPairs ts, room := none })
  | [], out => by simp [sendTextPairs, wireTextPairs, SendTerm, Writer.Write]
  | (key, t) :: ts, out => by
    have hk := flat_send (.bin key) out
    simp only [FlatUnit.send, FlatUnit.wire] at hk
    simp [sendTextPairs, wireTextPairs, SendTextKey, hk, send_wire t, sendTextPairs_wire ts]
theorem sendIdPairs_wire : ∀ (ts : List (Nat × UnitTree)) (out : List Nat),
    sendIdPairs ts { out := out, room := none } =
      (none, { out := out ++ wireIdPairs ts, room := none })
  | [], out => by simp [sendIdPairs, wireIdPairs, SendTerm, Writer.Write]
  | (key, t) :: ts, out => by
    have hk := flat_send (.ukey key) out
    simp only [FlatUnit.send, FlatUnit.wire] at hk
    simp [sendIdPairs, wireIdPairs, hk, send_wire t, sendIdPairs_wire ts]
end

theorem encode_eq_wire (t : UnitTree) : t.encode = t.wire := by
  simp [UnitTree.encode, send_wire]

theorem encodeIdPairs_eq_wire (pairs : List (Nat × UnitTree)) :
    encodeIdPairs pairs = wireIdPairs pairs := by
  simp [encodeIdPairs, sendIdPairs_wire]

theorem ut_ne_term (t : UnitTree) : t.ut ≠ UTTerm := by
  cases t <;> simp [UnitTree.ut]

theorem readUnit_tree (t : UnitTree) (rest : List Nat) (h : t.fits) :
    (SimpleUnitReader.mk (t.wire ++ rest) false).ReadUnit =
      .ret (t.ut, t.payload, none, ⟨t.body ++ rest, t.locks⟩) := by
  cases t with
  | nil => exact readUnit_bare _ _ (by simp)
  | request c => exact readUnit_code _ _ _ (by simp) (by simpa [UnitTree.fits] using h)
  | answer c => exact readUnit_code _ _ _ (by simp) (by simpa [UnitTree.fits] using h)
  | event c => exact readUnit_code _ _ _ (by simp) (by simpa [UnitTree.fits] using h)
  | bin b =>
    simpa [UnitTree.wire, UnitTree.body] using readUnit_bin b rest (by simpa [UnitTree.fits] using h)
  | number n => exact readUnit_number n rest (by simpa [UnitTree.fits] using h)
  | ukey k => exact readUnit_byte _ _ _ (by simp)
  | bool b => exact readUnit_bool b rest
  | byte b => exact readUnit_byte _ _ _ (by simp)
  | binstream writes =>
    simpa [UnitTree.wire, UnitTree.body] using readUnit_stream (frames writes ++ terminator ++ rest)
  | list items =>
    simpa [UnitTree.wire, UnitTree.body] using readUnit_bare UTList (wireItems items ++ rest) (by simp)
  | textkvmap pairs =>
    simpa [UnitTree.wire, UnitTree.body] using
      readUnit_bare UTTextKVMap (wireTextPairs pairs ++ rest) (by simp)
  | idkvmap pairs =>
    simpa [UnitTree.wire, UnitTree.body] using
      readUnit_bare UTIdKVMap (wireIdPairs pairs ++ rest) (by simp)

/-! ## The skip engine on complete units -/

theorem skipUnit_depth_zero (fuel : Nat) (ur : SimpleUnitReader) (ut : UnitType) (data : Payload) :
    skipUnit (fuel + 1) ur ut data 0 = .ret (some .TooDeeplyNested, ur) := by
  simp [skipUnit]

theorem skipUnit_scalar (fuel d : Nat) (ur : SimpleUnitReader) (ut : UnitType) (data : Payload)
    (hd : 0 < d)
    (hut : ut = UTNil ∨ ut = UTRequest ∨ ut = UTAnswer ∨ ut = UTEvent ∨ ut = UTBin ∨
      ut = UTNumber ∨ ut = UTUKey ∨ ut = UTTerm ∨ ut = UTBool ∨ ut = UTByte) :
    skipUnit (fuel + 1) ur ut data d = .ret (none, ur) := by
  have h0 : d ≠ 0 := by omega
  simp only [skipUnit, h0, if_false, hut, if_true]

theorem skipUnit_list (fuel d : Nat) (ur : SimpleUnitReader) (data : Payload) (hd : 0 < d) :
    skipUnit (fuel + 1) ur UTList data d = skipList fuel ur d := by
  have h0 : d ≠ 0 := by omega
  simp [skipUnit, h0]

theorem skipUnit_textkvmap (fuel d : Nat) (ur : SimpleUnitReader) (data : Payload) (hd : 0 < d) :
    skipUnit (fuel + 1) ur UTTextKVMap data d = skipTextKVMap fuel ur d := by
  have h0 : d ≠ 0 := by omega
  simp [skipUnit, h0]

theorem skipUnit_idkvmap (fuel d : Nat) (ur : SimpleUnitReader) (data : Payload) (hd : 0 < d) :
    skipUnit (fuel + 1) ur UTIdKVMap data d = skipIdKVMap fuel ur d := by
  have h0 : d ≠ 0 := by omega
  simp [skipUnit, h0]

theorem skipUnit_binstream (fuel d : Nat) (writes : List (List Nat)) (rest : List Nat)
    (hd : 0 < d) (hw : ∀ p ∈ writes, p.length < 2 ^ 31) :
    skipUnit (fuel + 1) { r := frames writes ++ terminator ++ rest, mu := true } UTBinStream
        (.stream { err := none, toread := 0 }) d =
      .ret (none, { r := rest, mu := false }) := by
  have h0 : d ≠ 0 := by omega
  have hf := fastForward_frames writes rest hw
  rw [List.append_assoc]
  simp [skipUnit, h0, hf]

theorem readIdKVPair_term (rest : List Nat) :
    ReadIdKVPair { r := UTTerm :: rest, mu := false } =
      .ret ({ Key := 0, ValueType := 0, ValuePayload := .nil }, some .Terminated,
        { r := rest, mu := false }) := by
  simp [ReadIdKVPair, readUnit_bare UTTerm rest (by simp)]

theorem readIdKVPair_pair (key : Nat) (t : UnitTree) (rest : List Nat) (h : t.fits) :
    ReadIdKVPair { r := [UTUKey, key] ++ (t.wire ++ rest), mu := false } =
      .ret ({ Key := key, ValueType := t.ut, ValuePayload := t.payload }, none,
        { r := t.body ++ rest, mu := t.locks }) := by
  have h1 := readUnit_byte UTUKey key (t.wire ++ rest) (by simp)
  simp only [List.cons_append, List.nil_append] at h1 ⊢
  simp [ReadIdKVPair, h1, readUnit_tree t rest h]

theorem readTextKVPair_term (rest : List Nat) :
    ReadTextKVPair { r := UTTerm :: rest, mu := false } =
      .ret ({ Key := [], ValueType := 0, ValuePayload := .nil }, some .Terminated,
        { r := rest, mu := false }) := by
  simp [ReadTextKVPair, readUnit_bare UTTerm rest (by simp)]

theorem readTextKVPair_pair (key : List Nat) (t : UnitTree) (rest : List Nat)
    (hk : key.length < 2 ^ 32) (h : t.fits) :
    ReadTextKVPair
        { r := (UTBin :: (leBytes 4 (key.length % 2 ^ 32) ++ key)) ++ (t.wire ++ rest),
          mu := false } =
      .ret ({ Key := key, ValueType := t.ut, ValuePayload := t.payload }, none,
        { r := t.body ++ rest, mu := t.locks }) := by
  have h1 := readUnit_bin key (t.wire ++ rest) hk
  simp only [List.cons_append, List.append_assoc, Nat.reducePow] at h1 ⊢
  simp [ReadTextKVPair, h1, readUnit_tree t rest h]

mutual
theorem skip_tree : ∀ (t : UnitTree) (fuel d : Nat) (rest : List Nat),
    t.fits → t.cost ≤ fuel →
    (t.depth ≤ d →
      skipUnit fuel { r := t.body ++ rest, mu := t.locks } t.ut t.payload d =
        .ret (none, { r := rest, mu := false })) ∧
    (d < t.depth →
      ∃ ur, skipUnit fuel { r := t.body ++ rest, mu := t.locks } t.ut t.payload d =
        .ret (some .TooDeeplyNested, ur))
  | .list items, fuel, d, rest, hf, hc => by
    simp only [UnitTree.cost] at hc
    obtain ⟨f, rfl⟩ : ∃ f, fuel = f + 1 := ⟨fuel - 1, by omega⟩
    simp only [UnitTree.fits] at hf
    simp only [UnitTree.body, UnitTree.ut, UnitTree.payload, UnitTree.locks, UnitTree.depth]
    by_cases hd : d = 0
    · subst hd
      exact ⟨fun h => by omega, fun _ => ⟨_, skipUnit_depth_zero _ _ _ _⟩⟩
    · have hd' : 0 < d := by omega
      rw [skipUnit_list f d _ _ hd']
      obtain ⟨h1, h2⟩ := skip_items items f d rest hf (by omega) hd'
      exact ⟨fun h => h1 (by omega), fun h => h2 (by omega)⟩
  | .textkvmap pairs, fuel, d, rest, hf, hc => by
    simp only [UnitTree.cost] at hc
    obtain ⟨f, rfl⟩ : ∃ f, fuel = f + 1 := ⟨fuel - 1, by omega⟩
    simp only [UnitTree.fits] at hf
    simp only [UnitTree.body, UnitTree.ut, UnitTree.payload, UnitTree.locks, UnitTree.depth]
    by_cases hd : d = 0
    · subst hd
      exact ⟨fun h => by omega, fun _ => ⟨_, skipUnit_depth_zero _ _ _ _⟩⟩
    · have hd' : 0 < d := by omega
      rw [skipUnit_textkvmap f d _ _ hd']
      obtain ⟨h1, h2⟩ := skip_textPairs pairs f d rest hf (by omega) hd'
      exact ⟨fun h => h1 (by omega), fun h => h2 (by omega)⟩
  | .idkvmap pairs, fuel, d, rest, hf, hc => by
    simp only [UnitTree.cost] at hc
    obtain ⟨f, rfl⟩ : ∃ f, fuel = f + 1 := ⟨fuel - 1, by omega⟩
    simp only [UnitTree.fits] at hf
    simp only [UnitTree.body, UnitTree.ut, UnitTree.payload, UnitTree.locks, UnitTree.depth]
    by_cases hd : d = 0
    · subst hd
      exact ⟨fun h => by omega, fun _ => ⟨_, skipUnit_depth_zero _ _ _ _⟩⟩
    · have hd' : 0 < d := by omega
      rw [skipUnit_idkvmap f d _ _ hd']
      obtain ⟨h1, h2⟩ := skip_idPairs pairs f d rest hf (by omega) hd'
      exact ⟨fun h => h1 (by omega), fun h => h2 (by omega)⟩
  | .binstream writes, fuel, d, rest, hf, hc => by
    simp only [UnitTree.cost] at hc
    obtain ⟨f, rfl⟩ : ∃ f, fuel = f + 1 := ⟨fuel - 1, by omega⟩
    simp only [UnitTree.fits] at hf
    simp only [UnitTree.body, UnitTree.ut, UnitTree.payload, UnitTree.locks, UnitTree.depth]
    by_cases hd : d = 0
    · subst hd
      exact ⟨fun h => by omega, fun _ => ⟨_, skipUnit_depth_zero _ _ _ _⟩⟩
    · exact ⟨fun _ => skipUnit_binstream f d writes rest (by omega) hf, fun h => by omega⟩
  | .nil, fuel, d, rest, _, hc => by
    simp only [UnitTree.cost] at hc
    obtain ⟨f, rfl⟩ : ∃ f, fuel = f + 1 := ⟨fuel - 1, by omega⟩
    simp only [UnitTree.body, UnitTree.ut, UnitTree.payload, UnitTree.locks, UnitTree.depth,
      List.nil_append]
    by_cases hd : d = 0
    · subst hd
      exact ⟨fun h => by omega, fun _ => ⟨_, skipUnit_depth_zero _ _ _ _⟩⟩
    · exact ⟨fun _ => skipUnit_scalar f d _ _ _ (by omega) (by simp), fun h => by omega⟩
  | .request c, fuel, d, rest, _, hc => by
    simp only [UnitTree.cost] at hc
    obtain ⟨f, rfl⟩ : ∃ f, fuel = f + 1 := ⟨fuel - 1, by omega⟩
    simp only [UnitTree.body, UnitTree.ut, UnitTree.payload, UnitTree.locks, UnitTree.depth,
      List.nil_append]
    by_cases hd : d = 0
    · subst hd
      exact ⟨fun h => by omega, fun _ => ⟨_, skipUnit_depth_zero _ _ _ _⟩⟩
    · exact ⟨fun _ => skipUnit_scalar f d _ _ _ (by omega) (by simp), fun h => by omega⟩
  | .answer c, fuel, d, rest, _, hc => by
    simp only [UnitTree.cost] at hc
    obtain ⟨f, rfl⟩ : ∃ f, fuel = f + 1 := ⟨fuel - 1, by omega⟩
    simp only [UnitTree.body, UnitTree.ut, UnitTree.payload, UnitTree.locks, UnitTree.depth,
      List.nil_append]
    by_cases hd : d = 0
    · subst hd
      exact ⟨fun h => by omega, fun _ => ⟨_, skipUnit_depth_zero _ _ _ _⟩⟩
    · exact ⟨fun _ => skipUnit_scalar f d _ _ _ (by omega) (by simp), fun h => by omega⟩
  | .event c, fuel, d, rest, _, hc => by
    simp only [UnitTree.cost] at hc
    obtain ⟨f, rfl⟩ : ∃ f, fuel = f + 1 := ⟨fuel - 1, by omega⟩
    simp only [UnitTree.body, UnitTree.ut, UnitTree.payload, UnitTree.locks, UnitTree.depth,
      List.nil_append]
    by_cases hd : d = 0
    · subst hd
      exact ⟨fun h => by omega, fun _ => ⟨_, skipUnit_depth_zero _ _ _ _⟩⟩
    · exact ⟨fun _ => skipUnit_scalar f d _ _ _ (by omega) (by simp), fun h => by omega⟩
  | .bin b, fuel, d, rest, _, hc => by
    simp only [UnitTree.cost] at hc
    obtain ⟨f, rfl⟩ : ∃ f, fuel = f + 1 := ⟨fuel - 1, by omega⟩
    simp only [UnitTree.body, UnitTree.ut, UnitTree.payload, UnitTree.locks, UnitTree.depth,
      List.nil_append]
    by_cases hd : d = 0
    · subst hd
      exact ⟨fun h => by omega, fun _ => ⟨_, skipUnit_depth_zero _ _ _ _⟩⟩
    · exact ⟨fun _ => skipUnit_scalar f d _ _ _ (by omega) (by simp), fun h => by omega⟩
  | .number n, fuel, d, rest, _, hc => by
    simp only [UnitTree.cost] at hc
    obtain ⟨f, rfl⟩ : ∃ f, fuel = f + 1 := ⟨fuel - 1, by omega⟩
    simp only [UnitTree.body, UnitTree.ut, UnitTree.payload, UnitTree.locks, UnitTree.depth,
      List.nil_append]
    by_cases hd : d = 0
    · subst hd
      exact ⟨fun h => by omega, fun _ => ⟨_, skipUnit_depth_zero _ _ _ _⟩⟩
    · exact ⟨fun _ => skipUnit_scalar f d _ _ _ (by omega) (by simp), fun h => by omega⟩
  | .ukey k, fuel, d, rest, _, hc => by
    simp only [UnitTree.cost] at hc
    obtain ⟨f, rfl⟩ : ∃ f, fuel = f + 1 := ⟨fuel - 1, by omega⟩
    simp only [UnitTree.body, UnitTree.ut, UnitTree.payload, UnitTree.locks, UnitTree.depth,
      List.nil_append]
    by_cases hd : d = 0
    · subst hd
      exact ⟨fun h => by omega, fun _ => ⟨_, skipUnit_depth_zero _ _ _ _⟩⟩
    · exact ⟨fun _ => skipUnit_scalar f d _ _ _ (by omega) (by simp), fun h => by omega⟩
  | .bool b, fuel, d, rest, _, hc => by
    simp only [UnitTree.cost] at hc
    obtain ⟨f, rfl⟩ : ∃ f, fuel = f + 1 := ⟨fuel - 1, by omega⟩
    simp only [UnitTree.body, UnitTree.ut, UnitTree.payload, UnitTree.locks, UnitTree.depth,
      List.nil_append]
    by_cases hd : d = 0
    · subst hd
      exact ⟨fun h => by omega, fun _ => ⟨_, skipUnit_depth_zero _ _ _ _⟩⟩
    · exact ⟨fun _ => skipUnit_scalar f d _ _ _ (by omega) (by simp), fun h => by omega⟩
  | .byte b, fuel, d, rest, _, hc => by
    simp only [UnitTree.cost] at hc
    obtain ⟨f, rfl⟩ : ∃ f, fuel = f + 1 := ⟨fuel - 1, by omega⟩
    simp only [UnitTree.body, UnitTree.ut, UnitTree.payload, UnitTree.locks, UnitTree.depth,
      List.nil_append]
    by_cases hd : d = 0
    · subst hd
      exact ⟨fun h => by omega, fun _ => ⟨_, skipUnit_depth_zero _ _ _ _⟩⟩
    · exact ⟨fun _ => skipUnit_scalar f d _ _ _ (by omega) (by simp), fun h => by omega⟩
theorem skip_items : ∀ (ts : List UnitTree) (fuel d : Nat) (rest : List Nat),
    fitsItems ts → costItems ts ≤ fuel → 0 < d →
    (depthItems ts ≤ d - 1 →
      skipList fuel { r := wireItems ts ++ rest, mu := false } d =
        .ret (none, { r := rest, mu := false })) ∧
    (d - 1 < depthItems ts →
      ∃ ur, skipList fuel { r := wireItems ts ++ rest, mu := false } d =
        .ret (some .TooDeeplyNested, ur))
  | [], fuel, d, rest, _, hc, _ => by
    simp only [costItems] at hc
    obtain ⟨f, rfl⟩ : ∃ f, fuel = f + 1 := ⟨fuel - 1, by omega⟩
    simp only [wireItems, depthItems, List.cons_append, List.nil_append, skipList,
      readUnit_bare UTTerm rest (by simp), if_true]
    exact ⟨fun _ => by trivial, fun h => by omega⟩
  | t :: ts, fuel, d, rest, hf, hc, hd => by
    simp only [costItems] at hc
    obtain ⟨f, rfl⟩ : ∃ f, fuel = f + 1 := ⟨fuel - 1, by omega⟩
    simp only [fitsItems] at hf
    simp only [wireItems, depthItems, List.append_assoc, skipList,
      readUnit_tree t (wireItems ts ++ rest) hf.1, ut_ne_term t, if_false]
    obtain ⟨h1, h2⟩ := skip_tree t f (d - 1) (wireItems ts ++ rest) hf.1 (by omega)
    obtain ⟨h3, h4⟩ := skip_items ts f d rest hf.2 (by omega) hd
    by_cases hdt : t.depth ≤ d - 1
    · rw [h1 hdt]
      exact ⟨fun h => h3 (by omega), fun h => h4 (by omega)⟩
    · obtain ⟨ur, hur⟩ := h2 (by omega)
      rw [hur]
      exact ⟨fun h => by omega, fun _ => ⟨ur, rfl⟩⟩
theorem skip_textPairs : ∀ (ts : List (List Nat × UnitTree)) (fuel d : Nat) (rest : List Nat),
    fitsTextPairs ts → costTextPairs ts ≤ fuel → 0 < d →
    (depthTextPairs ts ≤ d - 1 →
      skipTextKVMap fuel { r := wireTextPairs ts ++ rest, mu := false } d =
        .ret (none, { r := rest, mu := false })) ∧
    (d - 1 < depthTextPairs ts →
      ∃ ur, skipTextKVMap fuel { r := wireTextPairs ts ++ rest, mu := false } d =
        .ret (some .TooDeeplyNested, ur))
  | [], fuel, d, rest, _, hc, _ => by
    simp only [costTextPairs] at hc
    obtain ⟨f, rfl⟩ : ∃ f, fuel = f + 1 := ⟨fuel - 1, by omega⟩
    simp only [wireTextPairs, depthTextPairs, List.cons_append, List.nil_append, skipTextKVMap,
      readTextKVPair_term rest]
    exact ⟨fun _ => by trivial, fun h => by omega⟩
  | (key, t) :: ts, fuel, d, rest, hf, hc, hd => by
    simp only [costTextPairs] at hc
    obtain ⟨f, rfl⟩ : ∃ f, fuel = f + 1 := ⟨fuel - 1, by omega⟩
    simp only [fitsTextPairs] at hf
    have hrd := readTextKVPair_pair key t (wireTextPairs ts ++ rest) hf.1 hf.2.1
    simp only [wireTextPairs, depthTextPairs, List.append_assoc, skipTextKVMap, hrd]
    obtain ⟨h1, h2⟩ := skip_tree t f (d - 1) (wireTextPairs ts ++ rest) hf.2.1 (by omega)
    obtain ⟨h3, h4⟩ := skip_textPairs ts f d rest hf.2.2 (by omega) hd
    by_cases hdt : t.depth ≤ d - 1
    · rw [h1 hdt]
      exact ⟨fun h => h3 (by omega), fun h => h4 (by omega)⟩
    · obtain ⟨ur, hur⟩ := h2 (by omega)
      rw [hur]
      exact ⟨fun h => by omega, fun _ => ⟨ur, rfl⟩⟩
theorem skip_idPairs : ∀ (ts : List (Nat × UnitTree)) (fuel d : Nat) (rest : List Nat),
    fitsIdPairs ts → costIdPairs ts ≤ fuel → 0 < d →
    (depthIdPairs ts ≤ d - 1 →
      skipIdKVMap fuel { r := wireIdPairs ts ++ rest, mu := false } d =
        .ret (none, { r := rest, mu := false })) ∧
    (d - 1 < depthIdPairs ts →
      ∃ ur, skipIdKVMap fuel { r := wireIdPairs ts ++ rest, mu := false } d =
        .ret (some .TooDeeplyNested, ur))
  | [], fuel, d, rest, _, hc, _ => by
    simp only [costIdPairs] at hc
    obtain ⟨f, rfl⟩ : ∃ f, fuel = f + 1 := ⟨fuel - 1, by omega⟩
    simp only [wireIdPairs, depthIdPairs, List.cons_append, List.nil_append, skipIdKVMap,
      readIdKVPair_term rest]
    exact ⟨fun _ => by trivial, fun h => by omega⟩
  | (key, t) :: ts, fuel, d, rest, hf, hc, hd => by
    simp only [costIdPairs] at hc
    obtain ⟨f, rfl⟩ : ∃ f, fuel = f + 1 := ⟨fuel - 1, by omega⟩
    simp only [fitsIdPairs] at hf
    have hrd := readIdKVPair_pair key t (wireIdPairs ts ++ rest) hf.1
    simp only [wireIdPairs, depthIdPairs, List.append_assoc, skipIdKVMap, hrd]
    obtain ⟨h1, h2⟩ := skip_tree t f (d - 1) (wireIdPairs ts ++ rest) hf.1 (by omega)
    obtain ⟨h3, h4⟩ := skip_idPairs ts f d rest hf.2 (by omega) hd
    by_cases hdt : t.depth ≤ d - 1
    · rw [h1 hdt]
      exact ⟨fun h => h3 (by omega), fun h => h4 (by omega)⟩
    · obtain ⟨ur, hur⟩ := h2 (by omega)
      rw [hur]
      exact ⟨fun h => by omega, fun _ => ⟨ur, rfl⟩⟩
end

theorem wire_length (t : UnitTree) : t.body.length + 1 ≤ t.wire.length := by
  cases t <;> simp [UnitTree.wire, UnitTree.body]

mutual
theorem cost_le : ∀ t : UnitTree, t.cost ≤ 2 * t.body.length + 1
  | .list items => by
    have := costItems_le items
    simp only [UnitTree.cost, UnitTree.body]; omega
  | .textkvmap pairs => by
    have := costTextPairs_le pairs
    simp only [UnitTree.cost, UnitTree.body]; omega
  | .idkvmap pairs => by
    have := costIdPairs_le pairs
    simp only [UnitTree.cost, UnitTree.body]; omega
  | .nil => by simp [UnitTree.cost]
  | .request _ => by simp [UnitTree.cost]
  | .answer _ => by simp [UnitTree.cost]
  | .event _ => by simp [UnitTree.cost]
  | .bin _ => by simp [UnitTree.cost]
  | .number _ => by simp [UnitTree.cost]
  | .ukey _ => by simp [UnitTree.cost]
  | .bool _ => by simp [UnitTree.cost]
  | .byte _ => by simp [UnitTree.cost]
  | .binstream _ => by simp [UnitTree.cost]
theorem costItems_le : ∀ ts : List UnitTree, costItems ts ≤ 2 * (wireItems ts).length
  | [] => by simp [costItems, wireItems]
  | t :: ts => by
    have h1 := cost_le t
    have h2 := costItems_le ts
    have h3 := wire_length t
    simp only [costItems, wireItems, List.length_append]; omega
theorem costTextPairs_le :
    ∀ ts : List (List Nat × UnitTree), costTextPairs ts ≤ 2 * (wireTextPairs ts).length
  | [] => by simp [costTextPairs, wireTextPairs]
  | (_, t) :: ts => by
    have h1 := cost_le t
    have h2 := costTextPairs_le ts
    have h3 := wire_length t
    simp only [costTextPairs, wireTextPairs, List.length_append, List.length_cons]; omega
theorem costIdPairs_le :
    ∀ ts : List (Nat × UnitTree), costIdPairs ts ≤ 2 * (wireIdPairs ts).length
  | [] => by simp [costIdPairs, wireIdPairs]
  | (_, t) :: ts => by
    have h1 := cost_le t
    have h2 := costIdPairs_le ts
    have h3 := wire_length t
    simp only [costIdPairs, wireIdPairs, List.length_append, List.length_cons]; omega
end

theorem depth_pos (t : UnitTree) : 0 < t.depth := by
  cases t <;> simp [UnitTree.depth]

/-- `SkipUnit` on a complete unit whose start `ReadUnit` has just taken: the
unit is skipped exactly when its levels fit into the bound, and
`TooDeeplyNested` is returned otherwise. -/
theorem SkipUnit_tree (t : UnitTree) (rest : List Nat) (h : t.fits) :
    (t.depth ≤ maxSkipDepth →
      SkipUnit { r := t.body ++ rest, mu := t.locks } t.ut t.payload =
        .ret (none, { r := rest, mu := false })) ∧
    (maxSkipDepth < t.depth →
      ∃ ur, SkipUnit { r := t.body ++ rest, mu := t.locks } t.ut t.payload =
        .ret (some .TooDeeplyNested, ur)) := by
  have hc := cost_le t
  exact skip_tree t (2 * (t.body ++ rest).length + 2) maxSkipDepth rest h
    (by simp only [List.length_append]; omega)

theorem SkipNext_tree (t : UnitTree) (rest : List Nat) (h : t.fits) :
    (t.depth ≤ maxSkipDepth →
      SkipNext (NewSimpleUnitReader (t.wire ++ rest)) = .ret (none, NewSimpleUnitReader rest)) ∧
    (maxSkipDepth < t.depth →
      ∃ ur, SkipNext (NewSimpleUnitReader (t.wire ++ rest)) =
        .ret (some .TooDeeplyNested, ur)) := by
  simp only [SkipNext, NewSimpleUnitReader, readUnit_tree t rest h]
  exact SkipUnit_tree t rest h

/-- C3: a complete unit (scalar, stream with all its frames, container with
its body and Term, nested in any way) is followed by the bytes `rest`.
`SkipNext` returns, and whenever it returns no error it has taken exactly the
bytes of that unit: `rest` is what is left, the mutex is free, and the next
`ReadUnit` is the first `ReadUnit` on `rest`. The same holds for a bare
Term. -/
theorem C3_skip_consumes_one_unit (t : UnitTree) (rest : List Nat) (h : t.fits) :
    (∃ err ur, SkipNext (NewSimpleUnitReader (t.encode ++ rest)) = .ret (err, ur) ∧
      (err = none →
        ur = NewSimpleUnitReader rest ∧ ur.ReadUnit = (NewSimpleUnitReader rest).ReadUnit)) ∧
    SkipNext (NewSimpleUnitReader (UTTerm :: rest)) = .ret (none, NewSimpleUnitReader rest) := by
  constructor
  · rw [encode_eq_wire]
    obtain ⟨h1, h2⟩ := SkipNext_tree t rest h
    by_cases hd : t.depth ≤ maxSkipDepth
    · exact ⟨none, _, h1 hd, fun _ => ⟨rfl, rfl⟩⟩
    · obtain ⟨ur, hur⟩ := h2 (by omega)
      exact ⟨_, ur, hur, fun he => by simp at he⟩
  · simp only [SkipNext, NewSimpleUnitReader, readUnit_bare UTTerm rest (by simp), SkipUnit]
    exact skipUnit_scalar _ _ _ _ _ (by decide) (by simp)

theorem C3_skip_consumes_one_unit_witness :
    (UnitTree.idkvmap [(1, .list [.list [.number 1], .list [.number 3, .number 4]]),
        (2, .textkvmap [([102, 111, 111], .binstream [[104, 105], [33]])])]).fits ∧
    ((∃ err ur, SkipNext (NewSimpleUnitReader
        ((UnitTree.idkvmap [(1, .list [.list [.number 1], .list [.number 3, .number 4]]),
          (2, .textkvmap [([102, 111, 111], .binstream [[104, 105], [33]])])]).encode ++
            [5, 8, 0, 0, 0, 0, 0, 0, 0])) = .ret (err, ur) ∧
      (err = none →
        ur = NewSimpleUnitReader [5, 8, 0, 0, 0, 0, 0, 0, 0] ∧
        ur.ReadUnit = (NewSimpleUnitReader [5, 8, 0, 0, 0, 0, 0, 0, 0]).ReadUnit)) ∧
    SkipNext (NewSimpleUnitReader (UTTerm :: [5, 8, 0, 0, 0, 0, 0, 0, 0])) =
      .ret (none, NewSimpleUnitReader [5, 8, 0, 0, 0, 0, 0, 0, 0])) :=
  ⟨by simp [UnitTree.fits, fitsIdPairs, fitsItems, fitsTextPairs],
    C3_skip_consumes_one_unit _ _ (by simp [UnitTree.fits, fitsIdPairs, fitsItems, fitsTextPairs])⟩

/-! ## C4: the depth guard -/

theorem skipUnit_nested (d : Nat) : ∀ (fuel : Nat) (rest : List Nat), 2 * d + 1 ≤ fuel →
    skipUnit fuel { r := List.replicate d UTList ++ rest, mu := false } UTList .nil d =
      .ret (some .TooDeeplyNested, { r := rest, mu := false }) := by
  induction d with
  | zero =>
    intro fuel rest hf
    obtain ⟨f, rfl⟩ : ∃ f, fuel = f + 1 := ⟨fuel - 1, by omega⟩
    simpa using skipUnit_depth_zero f { r := rest, mu := false } UTList .nil
  | succ d ih =>
    intro fuel rest hf
    obtain ⟨f, rfl⟩ : ∃ f, fuel = f + 2 := ⟨fuel - 2, by omega⟩
    rw [skipUnit_list (f + 1) (d + 1) _ _ (by omega)]
    have hr := readUnit_bare UTList (List.replicate d UTList ++ rest) (by simp)
    simp only [List.replicate_succ, List.cons_append, skipList, hr, Nat.add_sub_cancel]
    rw [ih f rest (by omega)]
    simp

/-- C4: when the bytes after a List opening that has been read start with 16
further List tags, `SkipUnit(ur, UTList, nil)` returns `TooDeeplyNested`
whatever follows, having read exactly those 16 bytes; hence skipping the
outermost of `n ≥ 17` directly nested Lists fails with `TooDeeplyNested`
after the first 17 tags. -/
theorem C4_depth_guard (n : Nat) (hn : 17 ≤ n) (rest : List Nat) :
    SkipUnit { r := List.replicate 16 UTList ++ rest, mu := false } UTList .nil =
      .ret (some .TooDeeplyNested, { r := rest, mu := false }) ∧
    SkipNext (NewSimpleUnitReader (List.replicate n UTList ++ rest)) =
      .ret (some .TooDeeplyNested, { r := List.replicate (n - 17) UTList ++ rest, mu := false }) := by
  have key : ∀ rest' : List Nat,
      SkipUnit { r := List.replicate 16 UTList ++ rest', mu := false } UTList .nil =
        .ret (some .TooDeeplyNested, { r := rest', mu := false }) := by
    intro rest'
    exact skipUnit_nested 16 _ rest' (by simp only [List.length_append, List.length_replicate]; omega)
  refine ⟨key rest, ?_⟩
  obtain ⟨m, rfl⟩ : ∃ m, n = m + 17 := ⟨n - 17, by omega⟩
  have hsplit : List.replicate (m + 17) UTList ++ rest =
      UTList :: (List.replicate 16 UTList ++ (List.replicate m UTList ++ rest)) := by
    rw [show m + 17 = 1 + (16 + m) by omega, List.replicate_add, List.replicate_add]
    simp
  rw [hsplit]
  simp only [SkipNext, NewSimpleUnitReader,
    readUnit_bare UTList (List.replicate 16 UTList ++ (List.replicate m UTList ++ rest)) (by simp),
    Nat.add_sub_cancel]
  exact key _

theorem C4_depth_guard_witness :
    17 ≤ 17 ∧
    SkipUnit { r := List.replicate 16 UTList ++ List.replicate 17 UTTerm, mu := false } UTList .nil =
      .ret (some .TooDeeplyNested, { r := List.replicate 17 UTTerm, mu := false }) ∧
    SkipNext (NewSimpleUnitReader (List.replicate 17 UTList ++ List.replicate 17 UTTerm)) =
      .ret (some .TooDeeplyNested,
        { r := List.replicate (17 - 17) UTList ++ List.replicate 17 UTTerm, mu := false }) :=
  ⟨by decide, C4_depth_guard 17 (by decide) (List.replicate 17 UTTerm)⟩

/-! ## The map scanner, one round of its loop at a time -/

theorem skippable_skip (t : UnitTree) (rest : List Nat) (hf : t.fits) (hs : Skippable t) :
    SkipUnit { r := t.body ++ rest, mu := t.locks } t.ut t.payload =
      .ret (none, { r := rest, mu := false }) := by
  obtain ⟨h1, h2⟩ := SkipUnit_tree t rest hf
  by_cases hd : t.depth ≤ maxSkipDepth
  · exact h1 hd
  · obtain ⟨ur, hur⟩ := h2 (by omega)
    obtain ⟨ur', hur'⟩ := hs rest
    rw [hur] at hur'
    simp at hur'

theorem skippable_of_depth (t : UnitTree) (hf : t.fits) (hd : t.depth ≤ maxSkipDepth) :
    Skippable t := fun rest => ⟨_, (SkipUnit_tree t rest hf).1 hd⟩

theorem SkipUnit_ukey (ur : SimpleUnitReader) (data : Payload) :
    SkipUnit ur UTUKey data = .ret (none, ur) :=
  skipUnit_scalar _ _ _ _ _ (by decide) (by simp)

variable {σ : Type}

theorem scanLoop_term (getters : Nat → Option (UKeyGetter σ)) (failOnUnknown : Bool)
    (fuel : Nat) (st : ScanState σ) (rest : List Nat)
    (hur : st.ur = { r := UTTerm :: rest, mu := false }) :
    scanLoop getters failOnUnknown (fuel + 1) st =
      .ret (scanFinish getters { st with ur := { r := rest, mu := false } },
        { st with ur := { r := rest, mu := false } }) := by
  simp [scanLoop, hur, readUnit_bare UTTerm rest (by simp)]

theorem scanLoop_unknown_lenient (getters : Nat → Option (UKeyGetter σ))
    (fuel : Nat) (st : ScanState σ) (key : Nat) (t : UnitTree) (tail : List Nat)
    (hur : st.ur = { r := [UTUKey, key] ++ (t.wire ++ tail), mu := false })
    (hskip : st.skipAll = false) (hf : t.fits) (hg : getters key = none) (hs : Skippable t) :
    scanLoop getters false (fuel + 1) st =
      scanLoop getters false fuel { st with ur := { r := tail, mu := false } } := by
  have h1 := readUnit_byte UTUKey key (t.wire ++ tail) (by simp)
  simp only [List.cons_append, List.nil_append] at hur
  simp [scanLoop, hur, h1, hskip, readUnit_tree t tail hf, hg, skippable_skip t tail hf hs]

theorem scanLoop_unknown_strict (getters : Nat → Option (UKeyGetter σ))
    (fuel : Nat) (st : ScanState σ) (key : Nat) (t : UnitTree) (tail : List Nat)
    (hur : st.ur = { r := [UTUKey, key] ++ (t.wire ++ tail), mu := false })
    (hskip : st.skipAll = false) (hf : t.fits) (hg : getters key = none) (hs : Skippable t) :
    scanLoop getters true (fuel + 1) st =
      scanLoop getters true fuel
        { st with ur := { r := tail, mu := false }, outerr := some .UnknownKey, skipAll := true } := by
  have h1 := readUnit_byte UTUKey key (t.wire ++ tail) (by simp)
  simp only [List.cons_append, List.nil_append] at hur
  simp [scanLoop, hur, h1, hskip, readUnit_tree t tail hf, hg, skippable_skip t tail hf hs]

theorem scanLoop_mismatch (getters : Nat → Option (UKeyGetter σ)) (failOnUnknown : Bool)
    (fuel : Nat) (st : ScanState σ) (key : Nat) (t : UnitTree) (tail : List Nat)
    (g : UKeyGetter σ)
    (hur : st.ur = { r := [UTUKey, key] ++ (t.wire ++ tail), mu := false })
    (hskip : st.skipAll = false) (hf : t.fits) (hg : getters key = some g)
    (hty : t.ut ≠ g.Typ) (hs : Skippable t) :
    scanLoop getters failOnUnknown (fuel + 1) st =
      scanLoop getters failOnUnknown fuel
        { st with ur := { r := tail, mu := false }, outerr := some .UnexpectedTypeForKey,
                  skipAll := true } := by
  have h1 := readUnit_byte UTUKey key (t.wire ++ tail) (by simp)
  simp only [List.cons_append, List.nil_append] at hur
  simp [scanLoop, hur, h1, hskip, readUnit_tree t tail hf, hg, hty,
    skippable_skip t tail hf hs]

theorem scanLoop_action_ok (getters : Nat → Option (UKeyGetter σ)) (failOnUnknown : Bool)
    (fuel : Nat) (st : ScanState σ) (key : Nat) (t : UnitTree) (tail : List Nat)
    (g : UKeyGetter σ) (fatal : Bool) (ur1 : SimpleUnitReader) (w1 : σ)
    (hur : st.ur = { r := [UTUKey, key] ++ (t.wire ++ tail), mu := false })
    (hskip : st.skipAll = false) (hf : t.fits) (hg : getters key = some g)
    (hty : t.ut = g.Typ)
    (hact : g.Action t.payload { r := t.body ++ tail, mu := t.locks } st.world =
      .ret ((none, fatal), ur1, w1)) :
    scanLoop getters failOnUnknown (fuel + 1) st =
      scanLoop getters failOnUnknown fuel
        { st with
          ur := ur1, world := w1, calls := st.calls ++ [(key, t.payload)],
          seen := fun k => if k = key then true else st.seen k,
          flags := match g.Captured with
            | some p => fun q => if q = p then true else st.flags q
            | none => st.flags } := by
  have h1 := readUnit_byte UTUKey key (t.wire ++ tail) (by simp)
  simp only [List.cons_append, List.nil_append] at hur
  simp [scanLoop, hur, h1, hskip, readUnit_tree t tail hf, hg, hty, hact]

theorem scanLoop_action_fatal (getters : Nat → Option (UKeyGetter σ)) (failOnUnknown : Bool)
    (fuel : Nat) (st : ScanState σ) (key : Nat) (t : UnitTree) (tail : List Nat)
    (g : UKeyGetter σ) (e : Err) (ur1 : SimpleUnitReader) (w1 : σ)
    (hur : st.ur = { r := [UTUKey, key] ++ (t.wire ++ tail), mu := false })
    (hskip : st.skipAll = false) (hf : t.fits) (hg : getters key = some g)
    (hty : t.ut = g.Typ)
    (hact : g.Action t.payload { r := t.body ++ tail, mu := t.locks } st.world =
      .ret ((some e, true), ur1, w1)) :
    scanLoop getters failOnUnknown (fuel + 1) st =
      .ret (some e,
        { st with ur := ur1, world := w1, calls := st.calls ++ [(key, t.payload)] }) := by
  have h1 := readUnit_byte UTUKey key (t.wire ++ tail) (by simp)
  simp only [List.cons_append, List.nil_append] at hur
  simp [scanLoop, hur, h1, hskip, readUnit_tree t tail hf, hg, hty, hact]

theorem scanLoop_action_soft (getters : Nat → Option (UKeyGetter σ)) (failOnUnknown : Bool)
    (fuel : Nat) (st : ScanState σ) (key : Nat) (t : UnitTree) (tail : List Nat)
    (g : UKeyGetter σ) (e : Err) (ur1 : SimpleUnitReader) (w1 : σ)
    (hur : st.ur = { r := [UTUKey, key] ++ (t.wire ++ tail), mu := false })
    (hskip : st.skipAll = false) (hf : t.fits) (hg : getters key = some g)
    (hty : t.ut = g.Typ)
    (hact : g.Action t.payload { r := t.body ++ tail, mu := t.locks } st.world =
      .ret ((some e, false), ur1, w1)) :
    scanLoop getters failOnUnknown (fuel + 1) st =
      scanLoop getters failOnUnknown fuel
        { st with ur := ur1, world := w1, calls := st.calls ++ [(key, t.payload)],
                  outerr := some e, skipAll := true } := by
  have h1 := readUnit_byte UTUKey key (t.wire ++ tail) (by simp)
  simp only [List.cons_append, List.nil_append] at hur
  simp [scanLoop, hur, h1, hskip, readUnit_tree t tail hf, hg, hty, hact]

theorem scanLoop_drain_pair (getters : Nat → Option (UKeyGetter σ)) (failOnUnknown : Bool)
    (fuel : Nat) (st : ScanState σ) (key : Nat) (t : UnitTree) (tail : List Nat)
    (hur : st.ur = { r := [UTUKey, key] ++ (t.wire ++ tail), mu := false })
    (hskip : st.skipAll = true) (hf : t.fits) (hs : Skippable t) :
    scanLoop getters failOnUnknown (fuel + 2) st =
      scanLoop getters failOnUnknown fuel { st with ur := { r := tail, mu := false } } := by
  have h1 := readUnit_byte UTUKey key (t.wire ++ tail) (by simp)
  simp only [List.cons_append, List.nil_append] at hur
  have h2 : scanLoop getters failOnUnknown (fuel + 2) st =
      scanLoop getters failOnUnknown (fuel + 1)
        { st with ur := { r := t.wire ++ tail, mu := false } } := by
    simp [scanLoop, hur, h1, hskip, SkipUnit_ukey]
  rw [h2]
  simp [scanLoop, hskip, readUnit_tree t tail hf, ut_ne_term t, skippable_skip t tail hf hs]

/-! ## The map scanner on well-formed bodies -/

theorem wireIdPairs_append (pre post : List (Nat × UnitTree)) :
    wireIdPairs (pre ++ post) = wirePairs pre ++ wireIdPairs post := by
  induction pre with
  | nil => simp [wirePairs]
  | cons p pre ih =>
    obtain ⟨k, t⟩ := p
    simp [wireIdPairs, wirePairs, ih]

theorem fitsIdPairs_append (pre post : List (Nat × UnitTree)) :
    fitsIdPairs (pre ++ post) ↔ fitsIdPairs pre ∧ fitsIdPairs post := by
  induction pre with
  | nil => simp [fitsIdPairs]
  | cons p pre ih =>
    obtain ⟨k, t⟩ := p
    simp [fitsIdPairs, ih, and_assoc]

theorem wirePairs_length (ps : List (Nat × UnitTree)) : 3 * ps.length ≤ (wirePairs ps).length := by
  induction ps with
  | nil => simp [wirePairs]
  | cons p ps ih =>
    obtain ⟨k, t⟩ := p
    have := wire_length t
    simp only [wirePairs, List.length_append, List.length_cons, List.length_nil]
    omega

theorem wireIdPairs_length (ps : List (Nat × UnitTree)) :
    3 * ps.length + 1 ≤ (wireIdPairs ps).length := by
  have h := wireIdPairs_append ps []
  have := wirePairs_length ps
  simp only [List.append_nil, wireIdPairs] at h
  rw [h]
  simp only [List.length_append, List.length_cons, List.length_nil]
  omega

/-- Pairs that do not put the scan into drain-only mode are processed one per
round of the loop. -/
theorem scan_pairs (getters : Nat → Option (UKeyGetter σ)) (failOnUnknown : Bool)
    (pre : List (Nat × UnitTree)) :
    ∀ (fuel : Nat) (st : ScanState σ) (tail : List Nat),
      fitsIdPairs pre → (∀ p ∈ pre, PairOk getters failOnUnknown p) →
      st.skipAll = false → st.ur = { r := wirePairs pre ++ tail, mu := false } →
      ∃ st' : ScanState σ,
        scanLoop getters failOnUnknown (fuel + pre.length) st =
          scanLoop getters failOnUnknown fuel st' ∧
        st'.ur = { r := tail, mu := false } ∧ st'.skipAll = false ∧ st'.outerr = st.outerr ∧
        st'.calls = st.calls ++ callsOf getters pre ∧
        (∀ q, st'.flags q = (st.flags q || capturedIn getters pre q)) ∧
        (∀ k, st'.seen k = (st.seen k || occursIn getters pre k)) := by
  induction pre with
  | nil =>
    intro fuel st tail _ _ hskip hur
    exact ⟨st, rfl, by simpa [wirePairs] using hur, hskip, rfl, by simp [callsOf],
      by simp [capturedIn], by simp [occursIn]⟩
  | cons p pre ih =>
    obtain ⟨key, t⟩ := p
    intro fuel st tail hfit hok hskip hur
    simp only [fitsIdPairs] at hfit
    have hp := hok (key, t) (by simp)
    have hok' : ∀ p ∈ pre, PairOk getters failOnUnknown p := fun p hp => hok p (by simp [hp])
    simp only [wirePairs, List.append_assoc] at hur
    simp only [List.length_cons, ← Nat.add_assoc]
    unfold PairOk at hp
    cases hg : getters key with
    | none =>
      simp only [hg] at hp
      obtain ⟨hfl, hs⟩ := hp
      subst hfl
      rw [scanLoop_unknown_lenient getters _ st key t _ hur hskip hfit.1 hg hs]
      obtain ⟨st', h1, h2, h3, h4, h5, h6, h7⟩ :=
        ih fuel { st with ur := { r := wirePairs pre ++ tail, mu := false } } tail hfit.2 hok'
          hskip rfl
      refine ⟨st', h1, h2, h3, h4, ?_, ?_, ?_⟩
      · simpa [callsOf, hg] using h5
      · intro q; simpa [capturedIn, hg] using h6 q
      · intro k; simpa [occursIn, hg] using h7 k
    | some g =>
      simp only [hg] at hp
      obtain ⟨hty, hact⟩ := hp
      obtain ⟨fatal, w1, hrun⟩ := hact (wirePairs pre ++ tail) st.world
      rw [scanLoop_action_ok getters failOnUnknown _ st key t _ g fatal _ w1 hur hskip hfit.1 hg
        hty hrun]
      obtain ⟨st', h1, h2, h3, h4, h5, h6, h7⟩ :=
        ih fuel
          { st with
            ur := { r := wirePairs pre ++ tail, mu := false }, world := w1,
            calls := st.calls ++ [(key, t.payload)],
            seen := fun k => if k = key then true else st.seen k,
            flags := match g.Captured with
              | some p => fun q => if q = p then true else st.flags q
              | none => st.flags }
          tail hfit.2 hok' hskip rfl
      refine ⟨st', h1, h2, h3, h4, ?_, ?_, ?_⟩
      · simpa [callsOf, hg] using h5
      · intro q
        rw [h6 q]
        cases hc : g.Captured with
        | none => simp [capturedIn, hg, hc]
        | some p =>
          by_cases hq : q = p
          · subst hq; simp [capturedIn, hg, hc]
          · have : ¬ p = q := fun h => hq h.symm
            simp [capturedIn, hg, hc, hq, this]
      · intro k
        rw [h7 k]
        by_cases hk : k = key
        · subst hk; simp [occursIn, hg]
        · have : ¬ key = k := fun h => hk h.symm
          simp [occursIn, hg, hk, this]

/-- In drain-only mode the remaining pairs are skipped, two rounds of the loop
per pair, and the Term ends the scan with the error that was kept. -/
theorem scan_drain (getters : Nat → Option (UKeyGetter σ)) (failOnUnknown : Bool)
    (post : List (Nat × UnitTree)) :
    ∀ (fuel : Nat) (st : ScanState σ) (rest : List Nat),
      fitsIdPairs post → (∀ p ∈ post, Skippable p.2) → 2 * post.length < fuel →
      st.skipAll = true → st.ur = { r := wireIdPairs post ++ rest, mu := false } →
      scanLoop getters failOnUnknown fuel st =
        .ret (st.outerr, { st with ur := { r := rest, mu := false } }) := by
  induction post with
  | nil =>
    intro fuel st rest _ _ hfuel hskip hur
    obtain ⟨f, rfl⟩ : ∃ f, fuel = f + 1 := ⟨fuel - 1, by omega⟩
    simp only [wireIdPairs, List.cons_append, List.nil_append] at hur
    rw [scanLoop_term getters failOnUnknown f st rest hur]
    simp [scanFinish, hskip]
  | cons p post ih =>
    obtain ⟨key, t⟩ := p
    intro fuel st rest hfit hs hfuel hskip hur
    simp only [fitsIdPairs] at hfit
    simp only [List.length_cons] at hfuel
    obtain ⟨f, rfl⟩ : ∃ f, fuel = f + 2 := ⟨fuel - 2, by omega⟩
    simp only [wireIdPairs, List.append_assoc] at hur
    rw [scanLoop_drain_pair getters failOnUnknown f st key t _ hur hskip hfit.1
      (hs (key, t) (by simp))]
    exact ih f { st with ur := { r := wireIdPairs post ++ rest, mu := false } } rest hfit.2
      (fun p hp => hs p (by simp [hp])) (by omega) hskip rfl

/-! ## C5 - C9: the results of ScanIdKVMap -/

theorem occursIn_of_mem (getters : Nat → Option (UKeyGetter σ)) (body : List (Nat × UnitTree))
    (p : Nat × UnitTree) (g : UKeyGetter σ) (hp : p ∈ body) (hg : getters p.1 = some g) :
    occursIn getters body p.1 = true := by
  simp only [occursIn, List.any_eq_true]
  exact ⟨p, hp, by simp [hg]⟩

theorem occursIn_absent (getters : Nat → Option (UKeyGetter σ)) (body : List (Nat × UnitTree))
    (k : Nat) (h : ∀ p ∈ body, p.1 ≠ k) : occursIn getters body k = false := by
  rw [Bool.eq_false_iff]
  intro hc
  simp only [occursIn, List.any_eq_true] at hc
  obtain ⟨p, hp, hpk⟩ := hc
  simp only [Bool.and_eq_true, decide_eq_true_eq] at hpk
  exact h p hp hpk.1

theorem scanFinish_none (getters : Nat → Option (UKeyGetter σ)) (st : ScanState σ)
    (hskip : st.skipAll = false)
    (h : ∀ k < 256, ∀ g, getters k = some g → g.Optional = false → st.seen k = true) :
    scanFinish getters st = none := by
  unfold scanFinish
  simp only [hskip, Bool.false_eq_true, if_false]
  rw [if_neg]
  intro hc
  simp only [List.any_eq_true, List.mem_range] at hc
  obtain ⟨k, hk, hm⟩ := hc
  cases hg : getters k with
  | none => simp [hg] at hm
  | some g =>
    simp only [hg, Bool.and_eq_true, Bool.not_eq_true'] at hm
    have := h k hk g hg hm.1
    rw [this] at hm
    simp at hm

theorem scanFinish_missing (getters : Nat → Option (UKeyGetter σ)) (st : ScanState σ)
    (k : Nat) (g : UKeyGetter σ) (hskip : st.skipAll = false) (hk : k < 256)
    (hg : getters k = some g) (hopt : g.Optional = false) (hseen : st.seen k = false) :
    scanFinish getters st = some .KeyMissing := by
  unfold scanFinish
  simp only [hskip, Bool.false_eq_true, if_false]
  rw [if_pos]
  simp only [List.any_eq_true, List.mem_range]
  exact ⟨k, hk, by simp [hg, hopt, hseen]⟩

/-- A body whose pairs all pass is scanned through its Term, and the checks
after the loop decide the result. -/
theorem scan_body (getters : Nat → Option (UKeyGetter σ)) (failOnUnknown : Bool)
    (body : List (Nat × UnitTree)) (rest : List Nat) (world : σ) (flags : Nat → Bool)
    (hfit : fitsIdPairs body) (hok : ∀ p ∈ body, PairOk getters failOnUnknown p) :
    ∃ st : ScanState σ,
      ScanIdKVMap (NewSimpleUnitReader (encodeIdPairs body ++ rest)) getters failOnUnknown
          world flags = .ret (scanFinish getters st, st) ∧
      st.ur = NewSimpleUnitReader rest ∧ st.skipAll = false ∧
      st.calls = callsOf getters body ∧
      (∀ q, st.flags q = (flags q || capturedIn getters body q)) ∧
      (∀ k, st.seen k = occursIn getters body k) := by
  have hw : encodeIdPairs body ++ rest = wirePairs body ++ (UTTerm :: rest) := by
    rw [encodeIdPairs_eq_wire]
    have := wireIdPairs_append body []
    simp only [List.append_nil, wireIdPairs] at this
    rw [this]; simp
  have hlen := wirePairs_length body
  obtain ⟨fuel, hfuel⟩ : ∃ fuel, (encodeIdPairs body ++ rest).length + 1 =
      (fuel + 1) + body.length := by
    refine ⟨(encodeIdPairs body ++ rest).length - body.length, ?_⟩
    rw [hw]; simp only [List.length_append, List.length_cons]; omega
  obtain ⟨st', h1, h2, h3, _, h5, h6, h7⟩ := scan_pairs getters failOnUnknown body (fuel + 1)
    { ur := NewSimpleUnitReader (encodeIdPairs body ++ rest), world := world, flags := flags,
      seen := fun _ => false, outerr := none, skipAll := false, calls := [] }
    (UTTerm :: rest) hfit hok rfl (by simp [NewSimpleUnitReader, hw])
  have h8 := scanLoop_term getters failOnUnknown fuel st' rest h2
  refine ⟨{ st' with ur := { r := rest, mu := false } }, ?_, rfl, h3, by simpa using h5,
    h6, by simpa using h7⟩
  simp only [ScanIdKVMap, NewSimpleUnitReader] at h1 ⊢
  rw [hfuel, h1, h8]

/-- C5: a well-formed IdKVMap body followed by `rest`, with a getter table in
which every registered key that occurs has a value of the declared type and an
action that succeeds and consumes exactly the value, every registered key that
is not optional occurs, and the values of the other keys can be skipped by
`SkipUnit`: `ScanIdKVMap` with `failOnUnknown = false` returns nil, has called
the actions of the registered pairs with their payloads in the order of the
source, has set to true exactly the `Captured` variables of the registered keys
that occur, and leaves exactly `rest`. -/
theorem C5_scan_lenient_success (getters : Nat → Option (UKeyGetter σ))
    (body : List (Nat × UnitTree)) (rest : List Nat) (world : σ) (flags : Nat → Bool)
    (hfit : fitsIdPairs body)
    (hreg : ∀ p ∈ body, ∀ g, getters p.1 = some g → p.2.ut = g.Typ ∧ ActionConsumes g p.2)
    (hunk : ∀ p ∈ body, getters p.1 = none → Skippable p.2)
    (hmand : ∀ k < 256, ∀ g, getters k = some g → g.Optional = false → ∃ p ∈ body, p.1 = k) :
    ∃ st : ScanState σ,
      ScanIdKVMap (NewSimpleUnitReader (encodeIdPairs body ++ rest)) getters false world flags =
        .ret (none, st) ∧
      st.ur = NewSimpleUnitReader rest ∧
      st.calls = callsOf getters body ∧
      (∀ q, st.flags q = (flags q || capturedIn getters body q)) := by
  have hok : ∀ p ∈ body, PairOk getters false p := by
    intro p hp
    unfold PairOk
    cases hg : getters p.1 with
    | none => exact ⟨rfl, hunk p hp hg⟩
    | some g => exact hreg p hp g hg
  obtain ⟨st, h1, h2, h3, h4, h5, h6⟩ := scan_body getters false body rest world flags hfit hok
  refine ⟨st, ?_, h2, h4, h5⟩
  rw [h1, scanFinish_none getters st h3]
  intro k hk g hg hopt
  obtain ⟨p, hp, hpk⟩ := hmand k hk g hg hopt
  subst hpk
  rw [h6]
  exact occursIn_of_mem getters body p g hp hg

theorem C5_scan_lenient_success_witness :
    ∃ st : ScanState Unit,
      ScanIdKVMap (NewSimpleUnitReader
          (encodeIdPairs [(1, .number 42), (3, .list [.number 1, .bool true])] ++ [9, 9]))
        numberGetters false () (fun _ => false) = .ret (none, st) ∧
      st.ur = NewSimpleUnitReader [9, 9] ∧
      st.calls = callsOf numberGetters [(1, .number 42), (3, .list [.number 1, .bool true])] ∧
      (∀ q, st.flags q = (false ||
        capturedIn numberGetters [(1, .number 42), (3, .list [.number 1, .bool true])] q)) :=
  C5_scan_lenient_success numberGetters [(1, .number 42), (3, .list [.number 1, .bool true])]
    [9, 9] () (fun _ => false)
    (by simp [fitsIdPairs, UnitTree.fits, fitsItems])
    (by
      intro p hp g hg
      simp only [List.mem_cons, List.mem_singleton, List.not_mem_nil, or_false] at hp
      rcases hp with rfl | rfl
      · simp only [numberGetters, if_true, Option.some.injEq] at hg
        subst hg
        exact ⟨rfl, fun rest w => ⟨false, w, rfl⟩⟩
      · simp [numberGetters] at hg)
    (by
      intro p hp _
      simp only [List.mem_cons, List.mem_singleton, List.not_mem_nil, or_false] at hp
      rcases hp with rfl | rfl
      · exact skippable_of_depth _ (by simp [UnitTree.fits]) (by decide)
      · exact skippable_of_depth _ (by simp [UnitTree.fits, fitsItems]) (by decide))
    (by
      intro k _ g hg _
      by_cases hk : k = 1
      · exact ⟨(1, .number 42), by simp, hk.symm⟩
      · simp [numberGetters, hk] at hg)

/-- C6, as the code has it: a well-formed IdKVMap body followed by `rest`, in
which every registered key that occurs has its declared type and an action
that succeeds and consumes the value, and unknown keys are absent or let
through with values that `SkipUnit` can skip; if a registered key that is not
optional does not occur, `ScanIdKVMap` returns `KeyMissing`, having consumed
the body through its Term and leaving exactly `rest`. -/
theorem C6_key_missing (getters : Nat → Option (UKeyGetter σ)) (failOnUnknown : Bool)
    (body : List (Nat × UnitTree)) (rest : List Nat) (world : σ) (flags : Nat → Bool)
    (k : Nat) (g : UKeyGetter σ)
    (hfit : fitsIdPairs body) (hok : ∀ p ∈ body, PairOk getters failOnUnknown p)
    (hk : k < 256) (hg : getters k = some g) (hopt : g.Optional = false)
    (habs : ∀ p ∈ body, p.1 ≠ k) :
    ∃ st : ScanState σ,
      ScanIdKVMap (NewSimpleUnitReader (encodeIdPairs body ++ rest)) getters failOnUnknown
          world flags = .ret (some .KeyMissing, st) ∧
      st.ur = NewSimpleUnitReader rest := by
  obtain ⟨st, h1, h2, h3, _, _, h6⟩ :=
    scan_body getters failOnUnknown body rest world flags hfit hok
  refine ⟨st, ?_, h2⟩
  rw [h1, scanFinish_missing getters st k g h3 hk hg hopt]
  rw [h6, occursIn_absent getters body k habs]

theorem C6_key_missing_witness :
    ∃ st : ScanState Unit,
      ScanIdKVMap (NewSimpleUnitReader (encodeIdPairs [(3, .list [.number 1])] ++ [9, 9]))
        numberGetters false () (fun _ => false) = .ret (some .KeyMissing, st) ∧
      st.ur = NewSimpleUnitReader [9, 9] :=
  C6_key_missing numberGetters false [(3, .list [.number 1])] [9, 9] () (fun _ => false) 1
    { Typ := UTNumber, Optional := false, Action := ActionStoreNumber (fun _ w => w),
      Captured := some 0 }
    (by simp [fitsIdPairs, UnitTree.fits, fitsItems])
    (by
      intro p hp
      simp only [List.mem_singleton] at hp
      subst hp
      exact ⟨rfl, skippable_of_depth _ (by simp [UnitTree.fits, fitsItems]) (by decide)⟩)
    (by decide) rfl rfl (by simp)

/-- C6 fails as stated: the body holds one pair, with an unknown key (let
through) and 17 Lists nested in each other as its value; the registered key 1
is mandatory and does not occur; the scan never enters drain-only mode, and it
returns `TooDeeplyNested`, not `KeyMissing`, with 18 Terms left unread. -/
theorem C6_counterexample :
    fitsIdPairs [(7, nestedLists 16)] ∧ numberGetters 7 = none ∧
    (numberGetters 1).map (fun g => g.Optional) = some false ∧
    scanSummary (ScanIdKVMap (NewSimpleUnitReader (encodeIdPairs [(7, nestedLists 16)] ++ []))
        numberGetters false () (fun _ => false)) =
      .ret (some .TooDeeplyNested, { r := List.replicate 18 UTTerm, mu := false }, false, []) :=
  ⟨by simp [fitsIdPairs, nestedLists, UnitTree.fits, fitsItems], by simp [numberGetters],
    by decide, by decide⟩

theorem wirePairs_append (pre post : List (Nat × UnitTree)) :
    wirePairs (pre ++ post) = wirePairs pre ++ wirePairs post := by
  induction pre with
  | nil => simp [wirePairs]
  | cons p pre ih =>
    obtain ⟨k, t⟩ := p
    simp [wirePairs, ih]

theorem encodeIdPairs_split (pre post : List (Nat × UnitTree)) (k : Nat) (v : UnitTree)
    (rest : List Nat) :
    encodeIdPairs (pre ++ (k, v) :: post) ++ rest =
      wirePairs pre ++ ([UTUKey, k] ++ (v.wire ++ (wireIdPairs post ++ rest))) := by
  rw [encodeIdPairs_eq_wire, wireIdPairs_append]
  simp [wireIdPairs]

theorem scan_fuel (pre : List (Nat × UnitTree)) (k : Nat) (v : UnitTree) (tail : List Nat) :
    ∃ f, (wirePairs pre ++ ([UTUKey, k] ++ (v.wire ++ tail))).length + 1 = (f + 1) + pre.length ∧
      v.body.length + tail.length + 3 ≤ f := by
  have h1 := wirePairs_length pre
  have h2 := wire_length v
  refine ⟨(wirePairs pre ++ ([UTUKey, k] ++ (v.wire ++ tail))).length - pre.length, ?_, ?_⟩ <;>
    simp only [List.length_append, List.length_cons, List.length_nil] <;> omega

/-- The pairs `pre` pass, and the scan stands before the pair `(k, v)`. -/
theorem scan_upto (getters : Nat → Option (UKeyGetter σ)) (failOnUnknown : Bool)
    (pre : List (Nat × UnitTree)) (k : Nat) (v : UnitTree) (tail : List Nat) (world : σ)
    (flags : Nat → Bool)
    (hfit : fitsIdPairs pre) (hok : ∀ p ∈ pre, PairOk getters failOnUnknown p) :
    ∃ (f : Nat) (st : ScanState σ),
      ScanIdKVMap (NewSimpleUnitReader (wirePairs pre ++ ([UTUKey, k] ++ (v.wire ++ tail))))
          getters failOnUnknown world flags = scanLoop getters failOnUnknown (f + 1) st ∧
      v.body.length + tail.length + 3 ≤ f ∧
      st.ur = { r := [UTUKey, k] ++ (v.wire ++ tail), mu := false } ∧ st.skipAll = false ∧
      st.calls = callsOf getters pre ∧
      (∀ q, st.flags q = (flags q || capturedIn getters pre q)) ∧
      (∀ k', st.seen k' = occursIn getters pre k') := by
  obtain ⟨f, hf1, hf2⟩ := scan_fuel pre k v tail
  obtain ⟨st, h1, h2, h3, _, h5, h6, h7⟩ := scan_pairs getters failOnUnknown pre (f + 1)
    { ur := NewSimpleUnitReader (wirePairs pre ++ ([UTUKey, k] ++ (v.wire ++ tail))),
      world := world, flags := flags, seen := fun _ => false, outerr := none, skipAll := false,
      calls := [] }
    ([UTUKey, k] ++ (v.wire ++ tail)) hfit hok rfl rfl
  refine ⟨f, st, ?_, hf2, h2, h3, by simpa using h5, h6, by simpa using h7⟩
  simp only [ScanIdKVMap, NewSimpleUnitReader] at h1 ⊢
  rw [hf1, h1]

/-- C7, as the code has it: in a well-formed IdKVMap body followed by `rest`
the first pair that is not a registered key with its declared type and a
succeeding action has an unregistered key, and its value and the values of
all later pairs can be skipped by `SkipUnit`; `ScanIdKVMap` with
`failOnUnknown = true` returns `UnknownKey`, having skipped that value and
drained the remaining pairs through the Term, leaving exactly `rest`. -/
theorem C7_unknown_key_strict (getters : Nat → Option (UKeyGetter σ))
    (pre post : List (Nat × UnitTree)) (k : Nat) (v : UnitTree) (rest : List Nat) (world : σ)
    (flags : Nat → Bool)
    (hfit : fitsIdPairs (pre ++ (k, v) :: post))
    (hpre : ∀ p ∈ pre, ∃ g, getters p.1 = some g ∧ p.2.ut = g.Typ ∧ ActionConsumes g p.2)
    (hk : getters k = none) (hv : Skippable v) (hpost : ∀ p ∈ post, Skippable p.2) :
    ∃ st : ScanState σ,
      ScanIdKVMap (NewSimpleUnitReader (encodeIdPairs (pre ++ (k, v) :: post) ++ rest)) getters
          true world flags = .ret (some .UnknownKey, st) ∧
      st.ur = NewSimpleUnitReader rest ∧ st.calls = callsOf getters pre := by
  rw [fitsIdPairs_append] at hfit
  obtain ⟨hfpre, hfv, hfpost⟩ := hfit
  have hok : ∀ p ∈ pre, PairOk getters true p := by
    intro p hp
    obtain ⟨g, hg, h⟩ := hpre p hp
    unfold PairOk
    rw [hg]; exact h
  obtain ⟨f, st, h1, hf, h2, h3, h4, _, _⟩ :=
    scan_upto getters true pre k v (wireIdPairs post ++ rest) world flags hfpre hok
  have hl := wireIdPairs_length post
  rw [encodeIdPairs_split, h1,
    scanLoop_unknown_strict getters f st k v _ h2 h3 hfv hk hv,
    scan_drain getters true post f _ rest hfpost hpost
      (by simp only [List.length_append] at hf; omega) rfl rfl]
  exact ⟨_, rfl, rfl, h4⟩

theorem C7_unknown_key_strict_witness :
    ∃ st : ScanState Unit,
      ScanIdKVMap (NewSimpleUnitReader
          (encodeIdPairs ([(1, .number 42)] ++ (3, .list [.number 1]) :: [(1, .bool true)]) ++
            [9, 9]))
        numberGetters true () (fun _ => false) = .ret (some .UnknownKey, st) ∧
      st.ur = NewSimpleUnitReader [9, 9] ∧ st.calls = callsOf numberGetters [(1, .number 42)] :=
  C7_unknown_key_strict numberGetters [(1, .number 42)] [(1, .bool true)] 3 (.list [.number 1])
    [9, 9] () (fun _ => false)
    (by simp [fitsIdPairs, UnitTree.fits, fitsItems])
    (by
      intro p hp
      simp only [List.mem_singleton] at hp
      subst hp
      exact ⟨_, rfl, rfl, fun rest w => ⟨false, w, rfl⟩⟩)
    (by simp [numberGetters])
    (skippable_of_depth _ (by simp [UnitTree.fits, fitsItems]) (by decide))
    (by
      intro p hp
      simp only [List.mem_singleton] at hp
      subst hp
      exact skippable_of_depth _ (by simp [UnitTree.fits]) (by decide))

/-- C7 fails as stated: the body holds one pair, with an unregistered key and
17 Lists nested in each other as its value; `ScanIdKVMap` with
`failOnUnknown = true` returns `TooDeeplyNested`, not `UnknownKey`, with 18
Terms left unread. -/
theorem C7_counterexample :
    fitsIdPairs [(7, nestedLists 16)] ∧ numberGetters 7 = none ∧
    scanSummary (ScanIdKVMap (NewSimpleUnitReader (encodeIdPairs [(7, nestedLists 16)] ++ []))
        numberGetters true () (fun _ => false)) =
      .ret (some .TooDeeplyNested, { r := List.replicate 18 UTTerm, mu := false }, false, []) :=
  ⟨by simp [fitsIdPairs, nestedLists, UnitTree.fits, fitsItems], by simp [numberGetters],
    by decide⟩

/-- C8, as the code has it: in a well-formed IdKVMap body followed by `rest`
the pairs before `(k, v)` pass, `k` is registered and the type of `v` differs
from the declared one, and `v` and the values of all later pairs can be
skipped by `SkipUnit`; `ScanIdKVMap` returns `UnexpectedTypeForKey`, has made
no action call and set no `Captured` variable for this pair or a later one,
has skipped `v` and drained the remaining pairs through the Term, and leaves
exactly `rest`. -/
theorem C8_type_mismatch (getters : Nat → Option (UKeyGetter σ)) (failOnUnknown : Bool)
    (pre post : List (Nat × UnitTree)) (k : Nat) (v : UnitTree) (rest : List Nat) (world : σ)
    (flags : Nat → Bool) (g : UKeyGetter σ)
    (hfit : fitsIdPairs (pre ++ (k, v) :: post))
    (hpre : ∀ p ∈ pre, PairOk getters failOnUnknown p)
    (hg : getters k = some g) (hty : v.ut ≠ g.Typ)
    (hv : Skippable v) (hpost : ∀ p ∈ post, Skippable p.2) :
    ∃ st : ScanState σ,
      ScanIdKVMap (NewSimpleUnitReader (encodeIdPairs (pre ++ (k, v) :: post) ++ rest)) getters
          failOnUnknown world flags = .ret (some .UnexpectedTypeForKey, st) ∧
      st.ur = NewSimpleUnitReader rest ∧ st.calls = callsOf getters pre ∧
      (∀ q, st.flags q = (flags q || capturedIn getters pre q)) := by
  rw [fitsIdPairs_append] at hfit
  obtain ⟨hfpre, hfv, hfpost⟩ := hfit
  obtain ⟨f, st, h1, hf, h2, h3, h4, h5, _⟩ :=
    scan_upto getters failOnUnknown pre k v (wireIdPairs post ++ rest) world flags hfpre hpre
  have hl := wireIdPairs_length post
  rw [encodeIdPairs_split, h1,
    scanLoop_mismatch getters failOnUnknown f st k v _ g h2 h3 hfv hg hty hv,
    scan_drain getters failOnUnknown post f _ rest hfpost hpost
      (by simp only [List.length_append] at hf; omega) rfl rfl]
  exact ⟨_, rfl, rfl, h4, h5⟩

theorem C8_type_mismatch_witness :
    ∃ st : ScanState Unit,
      ScanIdKVMap (NewSimpleUnitReader
          (encodeIdPairs ([(3, .list [.number 1])] ++ (1, .bool true) :: [(1, .number 5)]) ++
            [9, 9]))
        numberGetters false () (fun _ => false) = .ret (some .UnexpectedTypeForKey, st) ∧
      st.ur = NewSimpleUnitReader [9, 9] ∧
      st.calls = callsOf numberGetters [(3, .list [.number 1])] ∧
      (∀ q, st.flags q = (false || capturedIn numberGetters [(3, .list [.number 1])] q)) :=
  C8_type_mismatch numberGetters false [(3, .list [.number 1])] [(1, .number 5)] 1 (.bool true)
    [9, 9] () (fun _ => false)
    { Typ := UTNumber, Optional := false, Action := ActionStoreNumber (fun _ w => w),
      Captured := some 0 }
    (by simp [fitsIdPairs, UnitTree.fits, fitsItems])
    (by
      intro p hp
      simp only [List.mem_singleton] at hp
      subst hp
      exact ⟨rfl, skippable_of_depth _ (by simp [UnitTree.fits, fitsItems]) (by decide)⟩)
    rfl (by decide)
    (skippable_of_depth _ (by simp [UnitTree.fits]) (by decide))
    (by
      intro p hp
      simp only [List.mem_singleton] at hp
      subst hp
      exact skippable_of_depth _ (by simp [UnitTree.fits]) (by decide))

/-- C8 fails as stated: the body holds one pair, the registered key 1 (a
Number is declared) with 17 Lists nested in each other as its value;
`ScanIdKVMap` returns `TooDeeplyNested`, not `UnexpectedTypeForKey`, with 18
Terms left unread. -/
theorem C8_counterexample :
    fitsIdPairs [(1, nestedLists 16)] ∧
    (numberGetters 1).map (fun g => g.Typ) = some UTNumber ∧
    (nestedLists 16).ut = UTList ∧
    scanSummary (ScanIdKVMap (NewSimpleUnitReader (encodeIdPairs [(1, nestedLists 16)] ++ []))
        numberGetters false () (fun _ => false)) =
      .ret (some .TooDeeplyNested, { r := List.replicate 18 UTTerm, mu := false }, false, []) :=
  ⟨by simp [fitsIdPairs, nestedLists, UnitTree.fits, fitsItems], by decide, by decide, by decide⟩

/-- C9, as the code has it: the pairs before `(k, v)` pass, `k` is registered
with the type of `v`, and its action returns the error `e`, leaving the reader
`ur1`. If the error is fatal, `ScanIdKVMap` returns `e` at once, the reader
being as the action left it. If it is not fatal, and the action (which takes
bytes from the source and adds none) left the reader before pairs whose
values `SkipUnit` can skip, their Term and `rest`, `ScanIdKVMap` drains these
pairs through the Term, returns `e` and leaves exactly `rest`. In both cases
this pair does not record its key as seen and does not set its `Captured`
variable. -/
theorem C9_action_error (getters : Nat → Option (UKeyGetter σ)) (failOnUnknown : Bool)
    (pre : List (Nat × UnitTree)) (k : Nat) (v : UnitTree) (tail : List Nat) (world : σ)
    (flags : Nat → Bool) (g : UKeyGetter σ) (e : Err) (fatal : Bool) (ur1 : SimpleUnitReader)
    (hfit : fitsIdPairs pre) (hfv : v.fits)
    (hpre : ∀ p ∈ pre, PairOk getters failOnUnknown p)
    (hg : getters k = some g) (hty : v.ut = g.Typ)
    (hact : ∀ w : σ, ∃ w1,
      g.Action v.payload { r := v.body ++ tail, mu := v.locks } w =
        .ret ((some e, fatal), ur1, w1)) :
    (fatal = true →
      ∃ st : ScanState σ,
        ScanIdKVMap (NewSimpleUnitReader (wirePairs (pre ++ [(k, v)]) ++ tail)) getters
            failOnUnknown world flags = .ret (some e, st) ∧
        st.ur = ur1 ∧ st.calls = callsOf getters pre ++ [(k, v.payload)] ∧
        (∀ q, st.flags q = (flags q || capturedIn getters pre q)) ∧
        (∀ k', st.seen k' = occursIn getters pre k')) ∧
    (fatal = false →
      ∀ (post : List (Nat × UnitTree)) (rest : List Nat),
        fitsIdPairs post → (∀ p ∈ post, Skippable p.2) →
        ur1 = { r := encodeIdPairs post ++ rest, mu := false } →
        (encodeIdPairs post ++ rest).length ≤ (v.body ++ tail).length →
        ∃ st : ScanState σ,
          ScanIdKVMap (NewSimpleUnitReader (wirePairs (pre ++ [(k, v)]) ++ tail)) getters
              failOnUnknown world flags = .ret (some e, st) ∧
          st.ur = NewSimpleUnitReader rest ∧
          st.calls = callsOf getters pre ++ [(k, v.payload)] ∧
          (∀ q, st.flags q = (flags q || capturedIn getters pre q)) ∧
          (∀ k', st.seen k' = occursIn getters pre k')) := by
  have hsrc : wirePairs (pre ++ [(k, v)]) ++ tail =
      wirePairs pre ++ ([UTUKey, k] ++ (v.wire ++ tail)) := by
    rw [wirePairs_append]; simp [wirePairs]
  obtain ⟨f, st, h1, hf, h2, h3, h4, h5, h6⟩ :=
    scan_upto getters failOnUnknown pre k v tail world flags hfit hpre
  obtain ⟨w1, hrun⟩ := hact st.world
  constructor
  · intro hfatal
    subst hfatal
    rw [hsrc, h1, scanLoop_action_fatal getters failOnUnknown f st k v tail g e ur1 w1 h2 h3
      hfv hg hty hrun]
    exact ⟨_, rfl, rfl, by simp [h4], h5, h6⟩
  · intro hfatal post rest hfp hsp hur1 hlen
    subst hfatal
    have hl := wireIdPairs_length post
    rw [encodeIdPairs_eq_wire] at hur1 hlen
    rw [hsrc, h1, scanLoop_action_soft getters failOnUnknown f st k v tail g e ur1 w1 h2 h3
      hfv hg hty hrun,
      scan_drain getters failOnUnknown post f _ rest hfp hsp
        (by simp only [List.length_append] at hf hlen; omega) rfl hur1]
    exact ⟨_, rfl, rfl, by simp [h4], h5, h6⟩

theorem C9_action_error_witness :
    ∃ st : ScanState Unit,
      ScanIdKVMap (NewSimpleUnitReader (wirePairs ([(3, .byte 4)] ++ [(1, .bool false)]) ++
          (encodeIdPairs [(2, .list [.number 1])] ++ [9, 9])))
        failingGetters false () (fun _ => false) = .ret (some (.other 5), st) ∧
      st.ur = NewSimpleUnitReader [9, 9] ∧
      st.calls = callsOf failingGetters [(3, .byte 4)] ++ [(1, (UnitTree.bool false).payload)] ∧
      (∀ q, st.flags q = (false || capturedIn failingGetters [(3, .byte 4)] q)) ∧
      (∀ k', st.seen k' = occursIn failingGetters [(3, .byte 4)] k') :=
  (C9_action_error failingGetters false [(3, .byte 4)] 1 (.bool false)
    (encodeIdPairs [(2, .list [.number 1])] ++ [9, 9]) () (fun _ => false)
    { Typ := UTBool, Optional := false,
      Action := fun _ ur w => .ret ((some (.other 5), false), ur, w), Captured := some 0 }
    (.other 5) false (NewSimpleUnitReader (encodeIdPairs [(2, .list [.number 1])] ++ [9, 9]))
    (by simp [fitsIdPairs, UnitTree.fits]) (by simp [UnitTree.fits])
    (by
      intro p hp
      simp only [List.mem_singleton] at hp
      subst hp
      exact ⟨rfl, skippable_of_depth _ (by simp [UnitTree.fits]) (by decide)⟩)
    rfl rfl (fun w => ⟨w, rfl⟩)).2 rfl [(2, .list [.number 1])] [9, 9]
    (by simp [fitsIdPairs, UnitTree.fits, fitsItems])
    (by
      intro p hp
      simp only [List.mem_singleton] at hp
      subst hp
      exact skippable_of_depth _ (by simp [UnitTree.fits, fitsItems]) (by decide))
    rfl (by simp [UnitTree.body])

/-- C9 fails as stated: the action of key 1 fails with an error `e` that is
not fatal, and the next pair has 17 Lists nested in each other as its value;
`ScanIdKVMap` does not drain through the Term and does not return `e`: it
returns the error "Error while skipping" built from `TooDeeplyNested` and
`e`, with 18 Terms left unread. -/
theorem C9_counterexample :
    fitsIdPairs [(1, .bool true), (2, nestedLists 16)] ∧
    scanSummary (ScanIdKVMap
        (NewSimpleUnitReader (encodeIdPairs [(1, .bool true), (2, nestedLists 16)] ++ []))
        failingGetters false () (fun _ => false)) =
      .ret (some (.errorfSkipping .TooDeeplyNested (.other 5)),
        { r := List.replicate 18 UTTerm, mu := false }, true, [(1, .bool true)]) :=
  ⟨by simp [fitsIdPairs, nestedLists, UnitTree.fits, fitsItems], by decide⟩

/-! ## C10: the demultiplexer -/

theorem routeAll_append (a b : List urReturn) :
    ∀ d : Demux, d.routeAll (a ++ b) = (d.routeAll a).routeAll b := by
  induction a with
  | nil => intro d; rfl
  | cons u a ih => intro d; simp [Demux.routeAll, ih]

theorem demux_eq_routeAll (units : List urReturn) (err : Err) :
    ∀ d : Demux, d.demux units err = { d.routeAll units with err := some err, closed := true } := by
  induction units with
  | nil => intro d; rfl
  | cons u units ih => intro d; simp [Demux.demux, Demux.routeAll, ih]

/-- In event mode, a unit that is neither an opening nor a Term goes to the
events and leaves the nesting as it is. -/
theorem route_scalar (d : Demux) (ut : UnitType) (data : Payload) (he : d.inEvent = true)
    (h1 : ut ≠ UTList) (h2 : ut ≠ UTIdKVMap) (h3 : ut ≠ UTTextKVMap) (h4 : ut ≠ UTTerm) :
    d.route ut data =
      { d with events := d.events ++ [{ ut := ut, data := data }],
               inEvent := if d.nesting ≤ 0 then false else true } := by
  simp [Demux.route, he, h1, h2, h3, h4]

theorem route_open (d : Demux) (ut : UnitType) (data : Payload) (he : d.inEvent = true)
    (hn : 0 ≤ d.nesting) (h : ut = UTList ∨ ut = UTIdKVMap ∨ ut = UTTextKVMap) :
    d.route ut data =
      { d with events := d.events ++ [{ ut := ut, data := data }], nesting := d.nesting + 1 } := by
  have : ¬ (d.nesting + 1 ≤ 0) := by omega
  simp [Demux.route, he, h, this]

theorem route_term (d : Demux) (data : Payload) (he : d.inEvent = true) :
    d.route UTTerm data =
      { d with events := d.events ++ [{ ut := UTTerm, data := data }],
               nesting := d.nesting - 1,
               inEvent := if d.nesting - 1 ≤ 0 then false else true } := by
  simp [Demux.route, he]

theorem routeAll_scalar (d : Demux) (ut : UnitType) (data : Payload) (he : d.inEvent = true)
    (h1 : ut ≠ UTList) (h2 : ut ≠ UTIdKVMap) (h3 : ut ≠ UTTextKVMap) (h4 : ut ≠ UTTerm) :
    d.routeAll [{ ut := ut, data := data }] =
      { d with events := d.events ++ [{ ut := ut, data := data }],
               inEvent := if d.nesting ≤ 0 then false else true } := by
  simp [Demux.routeAll, route_scalar d ut data he h1 h2 h3 h4]

mutual
theorem route_tree : ∀ (t : UnitTree) (d : Demux), d.inEvent = true → 0 ≤ d.nesting →
    d.routeAll t.units =
      { d with events := d.events ++ t.units, inEvent := if d.nesting ≤ 0 then false else true }
  | .list items, d, he, hn => by
    have h := route_items items
      { d with events := d.events ++ [{ ut := UTList, data := .nil }], nesting := d.nesting + 1 }
      he (by simp only; omega)
    simp only [UnitTree.units, Demux.routeAll, route_open d UTList .nil he hn (by simp), h]
    simp
  | .textkvmap pairs, d, he, hn => by
    have h := route_textPairs pairs
      { d with events := d.events ++ [{ ut := UTTextKVMap, data := .nil }],
               nesting := d.nesting + 1 }
      he (by simp only; omega)
    simp only [UnitTree.units, Demux.routeAll, route_open d UTTextKVMap .nil he hn (by simp), h]
    simp
  | .idkvmap pairs, d, he, hn => by
    have h := route_idPairs pairs
      { d with events := d.events ++ [{ ut := UTIdKVMap, data := .nil }],
               nesting := d.nesting + 1 }
      he (by simp only; omega)
    simp only [UnitTree.units, Demux.routeAll, route_open d UTIdKVMap .nil he hn (by simp), h]
    simp
  | .nil, d, he, _ => routeAll_scalar d _ _ he (by decide) (by decide) (by decide) (by decide)
  | .request _, d, he, _ => routeAll_scalar d _ _ he (by decide) (by decide) (by decide) (by decide)
  | .answer _, d, he, _ => routeAll_scalar d _ _ he (by decide) (by decide) (by decide) (by decide)
  | .event _, d, he, _ => routeAll_scalar d _ _ he (by decide) (by decide) (by decide) (by decide)
  | .bin _, d, he, _ => routeAll_scalar d _ _ he (by decide) (by decide) (by decide) (by decide)
  | .number _, d, he, _ => routeAll_scalar d _ _ he (by decide) (by decide) (by decide) (by decide)
  | .ukey _, d, he, _ => routeAll_scalar d _ _ he (by decide) (by decide) (by decide) (by decide)
  | .bool _, d, he, _ => routeAll_scalar d _ _ he (by decide) (by decide) (by decide) (by decide)
  | .byte _, d, he, _ => routeAll_scalar d _ _ he (by decide) (by decide) (by decide) (by decide)
  | .binstream _, d, he, _ =>
    routeAll_scalar d _ _ he (by decide) (by decide) (by decide) (by decide)
theorem route_items : ∀ (ts : List UnitTree) (d : Demux), d.inEvent = true → 1 ≤ d.nesting →
    d.routeAll (unitsItems ts) =
      { d with events := d.events ++ unitsItems ts, nesting := d.nesting - 1,
               inEvent := if d.nesting - 1 ≤ 0 then false else true }
  | [], d, he, _ => by
    simp [unitsItems, Demux.routeAll, route_term d .nil he]
  | t :: ts, d, he, hn => by
    have h1 := route_tree t d he (by omega)
    have hne : ¬ (d.nesting ≤ 0) := by omega
    simp only [hne, if_false] at h1
    have h2 := route_items ts { d with events := d.events ++ t.units, inEvent := true } rfl hn
    simp only [unitsItems, routeAll_append, h1, h2]
    simp
theorem route_textPairs : ∀ (ts : List (List Nat × UnitTree)) (d : Demux),
    d.inEvent = true → 1 ≤ d.nesting →
    d.routeAll (unitsTextPairs ts) =
      { d with events := d.events ++ unitsTextPairs ts, nesting := d.nesting - 1,
               inEvent := if d.nesting - 1 ≤ 0 then false else true }
  | [], d, he, _ => by
    simp [unitsTextPairs, Demux.routeAll, route_term d .nil he]
  | (key, t) :: ts, d, he, hn => by
    have hne : ¬ (d.nesting ≤ 0) := by omega
    have h0 := route_scalar d UTBin (.bin key) he (by decide) (by decide) (by decide) (by decide)
    simp only [hne, if_false] at h0
    have h1 := route_tree t
      { d with events := d.events ++ [{ ut := UTBin, data := .bin key }], inEvent := true }
      rfl (by simp only; omega)
    simp only [hne, if_false] at h1
    have h2 := route_textPairs ts
      { d with events := d.events ++ [{ ut := UTBin, data := .bin key }] ++ t.units,
               inEvent := true } rfl hn
    simp only [unitsTextPairs, Demux.routeAll, routeAll_append, h0, h1, h2]
    simp
theorem route_idPairs : ∀ (ts : List (Nat × UnitTree)) (d : Demux),
    d.inEvent = true → 1 ≤ d.nesting →
    d.routeAll (unitsIdPairs ts) =
      { d with events := d.events ++ unitsIdPairs ts, nesting := d.nesting - 1,
               inEvent := if d.nesting - 1 ≤ 0 then false else true }
  | [], d, he, _ => by
    simp [unitsIdPairs, Demux.routeAll, route_term d .nil he]
  | (key, t) :: ts, d, he, hn => by
    have hne : ¬ (d.nesting ≤ 0) := by omega
    have h0 := route_scalar d UTUKey (.byte key) he (by decide) (by decide) (by decide) (by decide)
    simp only [hne, if_false] at h0
    have h1 := route_tree t
      { d with events := d.events ++ [{ ut := UTUKey, data := .byte key }], inEvent := true }
      rfl (by simp only; omega)
    simp only [hne, if_false] at h1
    have h2 := route_idPairs ts
      { d with events := d.events ++ [{ ut := UTUKey, data := .byte key }] ++ t.units,
               inEvent := true } rfl hn
    simp only [unitsIdPairs, Demux.routeAll, routeAll_append, h0, h1, h2]
    simp
end

theorem route_stretches (ss : List Stretch) :
    ∀ d : Demux, d.inEvent = false → (∀ u, Stretch.plain u ∈ ss → u.ut ≠ UTEvent) →
      (d.routeAll (allUnits ss)).events = d.events ++ allEventUnits ss ∧
      (d.routeAll (allUnits ss)).other = d.other ++ allOtherUnits ss ∧
      (d.routeAll (allUnits ss)).inEvent = false := by
  induction ss with
  | nil => intro d he _; simp [allUnits, allEventUnits, allOtherUnits, Demux.routeAll, he]
  | cons s ss ih =>
    intro d he hp
    have hp' : ∀ u, Stretch.plain u ∈ ss → u.ut ≠ UTEvent := fun u hu => hp u (by simp [hu])
    cases s with
    | plain u =>
      have hu := hp u (by simp)
      have hr : d.route u.ut u.data = { d with other := d.other ++ [u] } := by
        simp [Demux.route, he, hu]
      obtain ⟨h1, h2, h3⟩ := ih { d with other := d.other ++ [u] } he hp'
      simp only [allUnits, allEventUnits, allOtherUnits, Stretch.units, Stretch.eventUnits,
        Stretch.otherUnits, List.cons_append, List.nil_append, Demux.routeAll, hr]
      exact ⟨h1, by simpa using h2, h3⟩
    | event c t =>
      have hr : d.route UTEvent (.code c) =
          { d with events := d.events ++ [{ ut := UTEvent, data := .code c }],
                   inEvent := true, nesting := 0 } := by
        simp [Demux.route, he]
      have ht := route_tree t
        { d with events := d.events ++ [{ ut := UTEvent, data := .code c }],
                 inEvent := true, nesting := 0 } rfl (by simp)
      obtain ⟨h1, h2, h3⟩ := ih
        { d with events := d.events ++ [{ ut := UTEvent, data := .code c }] ++ t.units,
                 inEvent := false, nesting := 0 } rfl hp'
      have hsplit : d.routeAll (allUnits (Stretch.event c t :: ss)) =
          ((d.route UTEvent (.code c)).routeAll t.units).routeAll (allUnits ss) := by
        show d.routeAll ({ ut := UTEvent, data := .code c } :: (t.units ++ allUnits ss)) = _
        rw [Demux.routeAll, routeAll_append]
      rw [hsplit, hr, ht]
      simp only [le_refl, if_true, allEventUnits, allOtherUnits, Stretch.eventUnits,
        Stretch.otherUnits, List.nil_append]
      exact ⟨by simpa using h1, h2, h3⟩

/-- C10: the wrapped reader reports stretches of units, each stretch being one
unit that is not an Event or an Event followed by one complete unit (a scalar,
a stream, or a container through its Term), and then fails. The
demultiplexer sends on the events channel exactly the Event units with the
complete unit after each, and on the other channel exactly the remaining
units, both in the order of the source. -/
theorem C10_demux_routing (ss : List Stretch) (err : Err)
    (h : ∀ u, Stretch.plain u ∈ ss → u.ut ≠ UTEvent) :
    (NewDemux.demux (allUnits ss) err).events = allEventUnits ss ∧
    (NewDemux.demux (allUnits ss) err).other = allOtherUnits ss := by
  obtain ⟨h1, h2, _⟩ := route_stretches ss NewDemux rfl h
  rw [demux_eq_routeAll]
  exact ⟨by simpa [NewDemux] using h1, by simpa [NewDemux] using h2⟩

theorem C10_demux_routing_witness :
    (NewDemux.demux (allUnits
        [.plain { ut := UTAnswer, data := .code 1 }, .plain { ut := UTList, data := .nil },
          .plain { ut := UTByte, data := .byte 1 }, .plain { ut := UTTerm, data := .nil },
          .event 2 (.byte 42), .event 3 (.list [.event 4, .idkvmap [(1, .nil)]]),
          .plain { ut := UTAnswer, data := .code 3 }]) .EOF).events =
      allEventUnits
        [.plain { ut := UTAnswer, data := .code 1 }, .plain { ut := UTList, data := .nil },
          .plain { ut := UTByte, data := .byte 1 }, .plain { ut := UTTerm, data := .nil },
          .event 2 (.byte 42), .event 3 (.list [.event 4, .idkvmap [(1, .nil)]]),
          .plain { ut := UTAnswer, data := .code 3 }] ∧
    (NewDemux.demux (allUnits
        [.plain { ut := UTAnswer, data := .code 1 }, .plain { ut := UTList, data := .nil },
          .plain { ut := UTByte, data := .byte 1 }, .plain { ut := UTTerm, data := .nil },
          .event 2 (.byte 42), .event 3 (.list [.event 4, .idkvmap [(1, .nil)]]),
          .plain { ut := UTAnswer, data := .code 3 }]) .EOF).other =
      allOtherUnits
        [.plain { ut := UTAnswer, data := .code 1 }, .plain { ut := UTList, data := .nil },
          .plain { ut := UTByte, data := .byte 1 }, .plain { ut := UTTerm, data := .nil },
          .event 2 (.byte 42), .event 3 (.list [.event 4, .idkvmap [(1, .nil)]]),
          .plain { ut := UTAnswer, data := .code 3 }] :=
  C10_demux_routing _ .EOF (by
    intro u hu
    simp only [List.mem_cons, Stretch.plain.injEq, List.mem_singleton, List.not_mem_nil,
      or_false, false_or, reduceCtorEq] at hu
    rcases hu with rfl | rfl | rfl | rfl | rfl <;> decide)

/-! ## C11, C12: every unit goes to one channel; the end of the source -/

theorem route_one (d : Demux) (ut : UnitType) (data : Payload) :
    ((d.route ut data).events = d.events ++ [{ ut := ut, data := data }] ∧
      (d.route ut data).other = d.other) ∨
    ((d.route ut data).events = d.events ∧
      (d.route ut data).other = d.other ++ [{ ut := ut, data := data }]) := by
  unfold Demux.route
  by_cases he : d.inEvent = true
  · left; simp [he]
  · by_cases hu : ut = UTEvent
    · left; simp [he, hu]
    · right; simp [he, hu]

theorem routeAll_mask (units : List urReturn) :
    ∀ d : Demux, ∃ mask : List Bool, mask.length = units.length ∧
      (d.routeAll units).events = d.events ++ pick true mask units ∧
      (d.routeAll units).other = d.other ++ pick false mask units := by
  induction units with
  | nil => intro d; exact ⟨[], rfl, by simp [Demux.routeAll, pick], by simp [Demux.routeAll, pick]⟩
  | cons u units ih =>
    intro d
    obtain ⟨mask, hl, he, ho⟩ := ih (d.route u.ut u.data)
    rcases route_one d u.ut u.data with ⟨h1, h2⟩ | ⟨h1, h2⟩
    · refine ⟨true :: mask, by simp [hl], ?_, ?_⟩
      · simp [Demux.routeAll, he, h1, pick]
      · simp [Demux.routeAll, ho, h2, pick]
    · refine ⟨false :: mask, by simp [hl], ?_, ?_⟩
      · simp [Demux.routeAll, he, h1, pick]
      · simp [Demux.routeAll, ho, h2, pick]

/-- C11: whatever units the wrapped reader reports before it fails, the
demultiplexer sends each of them on exactly one of its two channels, and each
channel carries its units in the order of the source: a marking of the units
splits them into the units sent on `events` and the units sent on `other`. -/
theorem C11_demux_partition (units : List urReturn) (err : Err) :
    ∃ mask : List Bool, mask.length = units.length ∧
      (NewDemux.demux units err).events = pick true mask units ∧
      (NewDemux.demux units err).other = pick false mask units := by
  obtain ⟨mask, hl, he, ho⟩ := routeAll_mask units NewDemux
  refine ⟨mask, hl, ?_, ?_⟩
  · rw [demux_eq_routeAll]; simpa [NewDemux] using he
  · rw [demux_eq_routeAll]; simpa [NewDemux] using ho

/-- C12: when the wrapped reader fails with the error `e` after the units
`units`, every `ReadUnit` on the events reader and on the other reader that
comes after the units sent on its channel have been received returns unit
type 0, a nil payload and the error `e`. -/
theorem C12_demux_terminal_error (units : List urReturn) (e : Err) (n m : Nat)
    (hn : (NewDemux.demux units e).events.length ≤ n)
    (hm : (NewDemux.demux units e).other.length ≤ m) :
    PartUnitReader.ReadUnit (NewDemux.demux units e).events (NewDemux.demux units e) n =
      (0, .nil, some e) ∧
    PartUnitReader.ReadUnit (NewDemux.demux units e).other (NewDemux.demux units e) m =
      (0, .nil, some e) := by
  have herr : (NewDemux.demux units e).err = some e := by rw [demux_eq_routeAll]
  constructor
  · simp [PartUnitReader.ReadUnit, herr, List.getElem?_eq_none hn]
  · simp [PartUnitReader.ReadUnit, herr, List.getElem?_eq_none hm]

theorem C12_demux_terminal_error_witness :
    PartUnitReader.ReadUnit
        (NewDemux.demux [{ ut := UTEvent, data := .code 2 }, { ut := UTNil, data := .nil },
          { ut := UTByte, data := .byte 1 }] .UnknownUnit).events
        (NewDemux.demux [{ ut := UTEvent, data := .code 2 }, { ut := UTNil, data := .nil },
          { ut := UTByte, data := .byte 1 }] .UnknownUnit) 2 = (0, .nil, some .UnknownUnit) ∧
    PartUnitReader.ReadUnit
        (NewDemux.demux [{ ut := UTEvent, data := .code 2 }, { ut := UTNil, data := .nil },
          { ut := UTByte, data := .byte 1 }] .UnknownUnit).other
        (NewDemux.demux [{ ut := UTEvent, data := .code 2 }, { ut := UTNil, data := .nil },
          { ut := UTByte, data := .byte 1 }] .UnknownUnit) 1 = (0, .nil, some .UnknownUnit) :=
  C12_demux_terminal_error _ .UnknownUnit 2 1 (by decide) (by decide)

/-! ## C13 - C15: the mutex -/

theorem read_stored (bsr : BinstreamReader) (sur : SimpleUnitReader) (plen : Nat) (e : Err)
    (h : bsr.err = some e) : bsr.Read sur plen = .ret ([], some e, bsr, sur) := by
  simp [BinstreamReader.Read, h]

theorem readChunk_mu (bsr bsr' : BinstreamReader) (sur sur' : SimpleUnitReader) (plen : Nat)
    (p : List Nat) (err : Option Err)
    (h : bsr.readChunk sur plen = .ret (p, err, bsr', sur')) :
    sur'.mu = sur.mu ∧ bsr'.toread ≠ -1 ∧ (err = none → bsr'.err = bsr.err) ∧
      (∀ e, err = some e → bsr'.err = some e ∧ e ≠ .EOF) := by
  unfold BinstreamReader.readChunk at h
  by_cases hneg : bsr.toread < 0
  · simp [hneg] at h
  · simp only [hneg, if_false] at h
    by_cases hr : sur.r = []
    · simp only [Read, hr, if_true, Run.ret.injEq, Prod.mk.injEq] at h
      obtain ⟨_, rfl, rfl, rfl⟩ := h
      refine ⟨rfl, ?_, by simp, ?_⟩
      · simp only; omega
      · intro e he; simp only [Option.some.injEq] at he; subst he; simp
    · simp only [Read, hr, if_false, Run.ret.injEq, Prod.mk.injEq] at h
      obtain ⟨hp, rfl, rfl, rfl⟩ := h
      subst hp
      refine ⟨rfl, ?_, by simp, by simp⟩
      simp only [List.length_take]
      split <;> omega

/-- What one `Read` does to the mutex: nothing, or, when it reads a negative
chunk length on a reader without a stored error, it releases it and leaves the
reader exhausted. -/
theorem read_mu (bsr bsr' : BinstreamReader) (sur sur' : SimpleUnitReader) (plen : Nat)
    (p : List Nat) (err : Option Err)
    (h : bsr.Read sur plen = .ret (p, err, bsr', sur')) :
    (sur'.mu = sur.mu ∧ (bsr'.toread ≠ -1 ∨ bsr' = bsr)) ∨
    (sur.mu = true ∧ sur'.mu = false ∧ bsr.err = none ∧ bsr.toread = 0 ∧
      bsr' = { err := some .EOF, toread := -1 } ∧ err = some .EOF ∧
      ∃ bs, ReadFull 4 sur.r = (bs, none, sur'.r) ∧ toInt32 (leNat bs) < 0) := by
  unfold BinstreamReader.Read at h
  cases he : bsr.err with
  | some e =>
    simp only [he, Run.ret.injEq, Prod.mk.injEq] at h
    obtain ⟨_, _, rfl, rfl⟩ := h
    exact Or.inl ⟨rfl, Or.inr rfl⟩
  | none =>
    simp only [he] at h
    by_cases h0 : bsr.toread = 0
    · simp only [h0, if_true] at h
      rcases hrf : ReadFull 4 sur.r with ⟨bs, e4, r⟩
      rw [hrf] at h
      cases e4 with
      | some e =>
        simp only [Run.ret.injEq, Prod.mk.injEq] at h
        obtain ⟨_, _, rfl, rfl⟩ := h
        exact Or.inl ⟨rfl, Or.inl (by simp [h0])⟩
      | none =>
        simp only at h
        by_cases hneg : toInt32 (leNat bs) < 0
        · simp only [hneg, if_true] at h
          cases hmu : sur.mu with
          | false => simp [hmu] at h
          | true =>
            simp only [hmu, if_true, Run.ret.injEq, Prod.mk.injEq] at h
            obtain ⟨_, rfl, rfl, rfl⟩ := h
            exact Or.inr ⟨rfl, rfl, rfl, h0, rfl, rfl, bs, rfl, hneg⟩
        · simp only [hneg, if_false] at h
          obtain ⟨h1, h2, _, _⟩ := readChunk_mu _ _ _ _ _ _ _ h
          exact Or.inl ⟨h1, Or.inl h2⟩
    · simp only [h0, if_false] at h
      obtain ⟨h1, h2, _, _⟩ := readChunk_mu _ _ _ _ _ _ _ h
      exact Or.inl ⟨h1, Or.inl h2⟩

theorem read_negative (bsr : BinstreamReader) (sur : SimpleUnitReader) (plen : Nat)
    (bs r : List Nat) (he : bsr.err = none) (h0 : bsr.toread = 0)
    (hrf : ReadFull 4 sur.r = (bs, none, r)) (hneg : toInt32 (leNat bs) < 0) :
    bsr.Read sur plen =
      if sur.mu then
        .ret ([], some .EOF, { err := some .EOF, toread := -1 }, { r := r, mu := false })
      else .crashed := by
  simp [BinstreamReader.Read, he, h0, hrf, hneg]

theorem copyStream_stored (fuel : Nat) (bsr : BinstreamReader) (sur : SimpleUnitReader) (e : Err)
    (h : bsr.err = some e) :
    copyStream (fuel + 1) bsr sur =
      .ret ([], if e = .EOF then none else some e, bsr, sur) := by
  simp only [copyStream, read_stored bsr sur 32768 e h]
  cases e <;> simp

theorem copyStream_mu (fuel : Nat) :
    ∀ (bsr bsr' : BinstreamReader) (sur sur' : SimpleUnitReader) (d : List Nat)
      (err : Option Err), copyStream fuel bsr sur = .ret (d, err, bsr', sur') →
      sur'.mu = sur.mu ∨
      (sur.mu = true ∧ sur'.mu = false ∧ bsr.err = none ∧
        bsr' = { err := some .EOF, toread := -1 } ∧ err = none) := by
  induction fuel with
  | zero => intro bsr bsr' sur sur' d err h; simp [copyStream] at h
  | succ fuel ih =>
    intro bsr bsr' sur sur' d err h
    simp only [copyStream] at h
    cases hr : bsr.Read sur 32768 with
    | ret a =>
      obtain ⟨p, e1, bsr1, sur1⟩ := a
      rw [hr] at h
      have hm := read_mu bsr bsr1 sur sur1 32768 p e1 hr
      cases e1 with
      | none =>
        simp only at h
        cases hq : copyStream fuel bsr1 sur1 with
        | ret a2 =>
          obtain ⟨q, e2, bsr2, sur2⟩ := a2
          rw [hq] at h
          simp only [Run.ret.injEq, Prod.mk.injEq] at h
          obtain ⟨_, rfl, rfl, rfl⟩ := h
          have hnone : bsr.err = none := by
            cases hb : bsr.err with
            | none => rfl
            | some e => rw [read_stored bsr sur 32768 e hb] at hr; simp at hr
          rcases hm with ⟨hm1, _⟩ | ⟨_, _, _, _, _, hm6, _⟩
          · rcases ih bsr1 bsr2 sur1 sur2 q e2 hq with h2 | ⟨h2, h3, _, h5, h6⟩
            · exact Or.inl (h2.trans hm1)
            · exact Or.inr ⟨hm1 ▸ h2, h3, hnone, h5, h6⟩
          · simp at hm6
        | blocked => rw [hq] at h; simp at h
        | crashed => rw [hq] at h; simp at h
        | starved => rw [hq] at h; simp at h
      | some e =>
        rcases hm with ⟨hm1, _⟩ | ⟨hm1, hm2, hm3, _, hm5, hm6, _⟩
        · left
          cases e <;> simp only [Run.ret.injEq, Prod.mk.injEq] at h <;>
            obtain ⟨_, _, _, rfl⟩ := h <;> exact hm1
        · simp only [Option.some.injEq] at hm6
          subst hm6
          simp only [Run.ret.injEq, Prod.mk.injEq] at h
          obtain ⟨_, rfl, rfl, rfl⟩ := h
          exact Or.inr ⟨hm1, hm2, hm3, hm5, rfl⟩
    | blocked => rw [hr] at h; simp at h
    | crashed => rw [hr] at h; simp at h
    | starved => rw [hr] at h; simp at h

/-- What one call on a stream reader does to the mutex: nothing, or it
releases it and leaves the reader exhausted. -/
theorem call_mu (c : StreamCall) (bsr bsr' : BinstreamReader) (sur sur' : SimpleUnitReader)
    (err : Option Err) (h : c.run bsr sur = .ret (err, bsr', sur')) :
    sur'.mu = sur.mu ∨
    (sur.mu = true ∧ sur'.mu = false ∧ bsr.err = none ∧
      bsr' = { err := some .EOF, toread := -1 }) := by
  cases c with
  | read plen =>
    simp only [StreamCall.run] at h
    cases hr : bsr.Read sur plen with
    | ret a =>
      obtain ⟨p, e1, bsr1, sur1⟩ := a
      rw [hr] at h
      simp only [Run.ret.injEq, Prod.mk.injEq] at h
      obtain ⟨rfl, rfl, rfl⟩ := h
      rcases read_mu bsr bsr1 sur sur1 plen p e1 hr with ⟨h1, _⟩ | ⟨h1, h2, h3, _, h5, _⟩
      · exact Or.inl h1
      · exact Or.inr ⟨h1, h2, h3, h5⟩
    | blocked => rw [hr] at h; simp at h
    | crashed => rw [hr] at h; simp at h
    | starved => rw [hr] at h; simp at h
  | fastForward =>
    simp only [StreamCall.run, BinstreamReader.FastForward, BinstreamReader.fastForward] at h
    cases hq : copyStream (sur.r.length + 1) bsr sur with
    | ret a =>
      obtain ⟨q, e2, bsr2, sur2⟩ := a
      rw [hq] at h
      simp only [Run.ret.injEq, Prod.mk.injEq] at h
      obtain ⟨rfl, rfl, rfl⟩ := h
      rcases copyStream_mu _ _ _ _ _ _ _ hq with h1 | ⟨h1, h2, h3, h4, _⟩
      · exact Or.inl h1
      · exact Or.inr ⟨h1, h2, h3, h4⟩
    | blocked => rw [hq] at h; simp at h
    | crashed => rw [hq] at h; simp at h
    | starved => rw [hq] at h; simp at h

/-- A call on a stream reader with a stored error changes nothing. -/
theorem call_stored (c : StreamCall) (bsr : BinstreamReader) (sur : SimpleUnitReader) (e : Err)
    (h : bsr.err = some e) : ∃ err, c.run bsr sur = .ret (err, bsr, sur) := by
  cases c with
  | read plen => exact ⟨some e, by simp [StreamCall.run, read_stored bsr sur plen e h]⟩
  | fastForward =>
    exact ⟨if e = .EOF then none else some e, by
      simp [StreamCall.run, BinstreamReader.FastForward, BinstreamReader.fastForward,
        copyStream_stored _ bsr sur e h]⟩

theorem unlocks_stored (cs : List StreamCall) (bsr : BinstreamReader) (sur : SimpleUnitReader)
    (e : Err) (h : bsr.err = some e) : unlocks cs bsr sur = 0 := by
  induction cs with
  | nil => rfl
  | cons c cs ih =>
    obtain ⟨err, hrun⟩ := call_stored c bsr sur e h
    simp only [unlocks, hrun, ih]
    cases sur.mu <;> simp

theorem unlocks_le_one (cs : List StreamCall) :
    ∀ (bsr : BinstreamReader) (sur : SimpleUnitReader), unlocks cs bsr sur ≤ 1 := by
  induction cs with
  | nil => intro bsr sur; simp [unlocks]
  | cons c cs ih =>
    intro bsr sur
    simp only [unlocks]
    cases hrun : c.run bsr sur with
    | ret a =>
      obtain ⟨err, bsr', sur'⟩ := a
      simp only
      rcases call_mu c bsr bsr' sur sur' err hrun with h1 | ⟨h1, h2, _, h4⟩
      · have := ih bsr' sur'
        rw [h1]
        cases sur.mu <;> simp <;> omega
      · rw [unlocks_stored cs bsr' sur' .EOF (by rw [h4])]
        simp [h1, h2]
    | blocked => simp
    | crashed => simp
    | starved => simp

/-- C14: in every sequence of `Read` and `FastForward` calls on a stream
reader the mutex is released at most once; a call changes the mutex only by
releasing it, and then it leaves the reader exhausted (`toread = -1`, the
error `io.EOF` stored); a `Read` releases it exactly when it reads a negative
chunk length; and on a reader with `io.EOF` stored every `Read` returns
`(0, io.EOF)` and every `FastForward` nil, the source and the mutex staying as
they are. -/
theorem C14_lock_released_once (cs : List StreamCall) (bsr : BinstreamReader)
    (sur : SimpleUnitReader) (plen : Nat) :
    unlocks cs bsr sur ≤ 1 ∧
    (∀ (c : StreamCall) (err : Option Err) (bsr' : BinstreamReader) (sur' : SimpleUnitReader),
      c.run bsr sur = .ret (err, bsr', sur') → sur'.mu ≠ sur.mu →
        sur.mu = true ∧ sur'.mu = false ∧ bsr.err = none ∧
          bsr' = { err := some .EOF, toread := -1 }) ∧
    (∀ (p : List Nat) (err : Option Err) (bsr' : BinstreamReader) (sur' : SimpleUnitReader),
      bsr.Read sur plen = .ret (p, err, bsr', sur') →
        (sur'.mu ≠ sur.mu ↔
          (bsr.err = none ∧ bsr.toread = 0 ∧
            ∃ bs, ReadFull 4 sur.r = (bs, none, sur'.r) ∧ toInt32 (leNat bs) < 0))) ∧
    (bsr.err = some .EOF →
      bsr.Read sur plen = .ret ([], some .EOF, bsr, sur) ∧
      bsr.FastForward sur = .ret (none, bsr, sur)) := by
  refine ⟨unlocks_le_one cs bsr sur, ?_, ?_, ?_⟩
  · intro c err bsr' sur' hrun hne
    rcases call_mu c bsr bsr' sur sur' err hrun with h1 | h1
    · exact absurd h1 hne
    · exact h1
  · intro p err bsr' sur' hrd
    constructor
    · intro hne
      rcases read_mu bsr bsr' sur sur' plen p err hrd with ⟨h1, _⟩ | ⟨_, _, h3, h4, _, _, h7⟩
      · exact absurd h1 hne
      · exact ⟨h3, h4, h7⟩
    · rintro ⟨he, h0, bs, hrf, hneg⟩
      rw [read_negative bsr sur plen bs sur'.r he h0 hrf hneg] at hrd
      cases hmu : sur.mu with
      | false => simp [hmu] at hrd
      | true =>
        simp only [hmu, if_true, Run.ret.injEq, Prod.mk.injEq] at hrd
        obtain ⟨_, _, _, hs⟩ := hrd
        rw [← hs]
        simp
  · intro he
    refine ⟨read_stored bsr sur plen .EOF he, ?_⟩
    simp [BinstreamReader.FastForward, BinstreamReader.fastForward,
      copyStream_stored _ bsr sur .EOF he]

/-- C13 does not hold on the code: the source ends after a complete chunk,
where the next chunk length (or the terminator) is due. `Read` passes the
`io.EOF` of the source on, so `FastForward` and `SkipNext` return nil although
no terminator was read, the mutex stays locked, and the next `ReadUnit`
never returns. -/
theorem C13_fast_forward_truncated :
    BinstreamReader.FastForward { err := none, toread := 0 }
        { r := [1, 0, 0, 0, 65], mu := true } =
      .ret (none, { err := some .EOF, toread := 0 }, { r := [], mu := true }) ∧
    SkipNext (NewSimpleUnitReader [UTBinStream, 1, 0, 0, 0, 65]) =
      .ret (none, { r := [], mu := true }) ∧
    (SimpleUnitReader.mk [] true).ReadUnit = .blocked := by
  decide

/-! ## C15: the mutex after ReadUnit -/

theorem readUnit_mu (r : List Nat) :
    match (SimpleUnitReader.mk r false).ReadUnit with
    | .ret (ut, _, err, sur) => (sur.mu = true ↔ (ut = UTBinStream ∧ err = none))
    | _ => False := by
  cases r with
  | nil => simp [SimpleUnitReader.ReadUnit, ReadByte]
  | cons t rest =>
    by_cases ht : t < 14
    · interval_cases t
      · simp [SimpleUnitReader.ReadUnit, ReadByte]
      · rcases h : ReadFull 2 rest with ⟨bs, _ | e, r'⟩ <;>
          simp [SimpleUnitReader.ReadUnit, ReadByte, h]
      · rcases h : ReadFull 2 rest with ⟨bs, _ | e, r'⟩ <;>
          simp [SimpleUnitReader.ReadUnit, ReadByte, h]
      · rcases h : ReadFull 2 rest with ⟨bs, _ | e, r'⟩ <;>
          simp [SimpleUnitReader.ReadUnit, ReadByte, h]
      · rcases h : ReadFull 4 rest with ⟨bs, _ | e, r'⟩
        · rcases h2 : ReadFull (leNat bs) r' with ⟨buf, _ | e, r''⟩ <;>
            simp [SimpleUnitReader.ReadUnit, ReadByte, h, h2]
        · simp [SimpleUnitReader.ReadUnit, ReadByte, h]
      · rcases h : ReadFull 8 rest with ⟨bs, _ | e, r'⟩ <;>
          simp [SimpleUnitReader.ReadUnit, ReadByte, h]
      · simp [SimpleUnitReader.ReadUnit, ReadByte]
      · simp [SimpleUnitReader.ReadUnit, ReadByte]
      · simp [SimpleUnitReader.ReadUnit, ReadByte]
      · cases rest <;> simp [SimpleUnitReader.ReadUnit, ReadByte]
      · simp [SimpleUnitReader.ReadUnit, ReadByte]
      · simp [SimpleUnitReader.ReadUnit, ReadByte]
      · cases rest <;> simp [SimpleUnitReader.ReadUnit, ReadByte]
      · cases rest <;> simp [SimpleUnitReader.ReadUnit, ReadByte]
    · have h0 : t ≠ 0 := by omega
      have h1 : t ≠ 1 := by omega
      have h2 : t ≠ 2 := by omega
      have h3 : t ≠ 3 := by omega
      have h4 : t ≠ 4 := by omega
      have h5 : t ≠ 5 := by omega
      have h6 : t ≠ 6 := by omega
      have h7 : t ≠ 7 := by omega
      have h8 : t ≠ 8 := by omega
      have h9 : t ≠ 9 := by omega
      have h10 : t ≠ 10 := by omega
      have h11 : t ≠ 11 := by omega
      have h12 : t ≠ 12 := by omega
      have h13 : t ≠ 13 := by omega
      simp [SimpleUnitReader.ReadUnit, ReadByte, h0, h1, h2, h3, h4, h5, h6, h7, h8, h9, h10,
        h11, h12, h13]

/-- C15: `ReadUnit` on a reader whose mutex is free returns, and when it has
returned the mutex is locked if and only if it returned the unit type
BinStream with a nil error; on a reader whose mutex is locked it does not
return. -/
theorem C15_lock_after_ReadUnit (r : List Nat) :
    (∃ ut data err sur, (SimpleUnitReader.mk r false).ReadUnit = .ret (ut, data, err, sur) ∧
      (sur.mu = true ↔ (ut = UTBinStream ∧ err = none))) ∧
    (SimpleUnitReader.mk r true).ReadUnit = .blocked := by
  refine ⟨?_, rfl⟩
  have h := readUnit_mu r
  cases hr : (SimpleUnitReader.mk r false).ReadUnit with
  | ret a =>
    obtain ⟨ut, data, err, sur⟩ := a
    rw [hr] at h
    exact ⟨ut, data, err, sur, rfl, h⟩
  | blocked => rw [hr] at h; exact h.elim
  | crashed => rw [hr] at h; exact h.elim
  | starved => rw [hr] at h; exact h.elim

/-! ## C16 - C18: ReadExpect and ReadIdKVPair -/

theorem readUnit_returns (r : List Nat) :
    ∃ ut data err sur, (SimpleUnitReader.mk r false).ReadUnit = .ret (ut, data, err, sur) := by
  have h := readUnit_mu r
  cases hr : (SimpleUnitReader.mk r false).ReadUnit with
  | ret a =>
    obtain ⟨ut, data, err, sur⟩ := a
    exact ⟨ut, data, err, sur, rfl⟩
  | blocked => rw [hr] at h; exact h.elim
  | crashed => rw [hr] at h; exact h.elim
  | starved => rw [hr] at h; exact h.elim

theorem readUnit_tag (t : Nat) (rest : List Nat) :
    match (SimpleUnitReader.mk (t :: rest) false).ReadUnit with
    | .ret (ut, _, _, _) => ut = t
    | _ => False := by
  by_cases ht : t < 14
  · interval_cases t
    · simp [SimpleUnitReader.ReadUnit, ReadByte]
    · rcases h : ReadFull 2 rest with ⟨bs, _ | e, r'⟩ <;>
        simp [SimpleUnitReader.ReadUnit, ReadByte, h]
    · rcases h : ReadFull 2 rest with ⟨bs, _ | e, r'⟩ <;>
        simp [SimpleUnitReader.ReadUnit, ReadByte, h]
    · rcases h : ReadFull 2 rest with ⟨bs, _ | e, r'⟩ <;>
        simp [SimpleUnitReader.ReadUnit, ReadByte, h]
    · rcases h : ReadFull 4 rest with ⟨bs, _ | e, r'⟩
      · rcases h2 : ReadFull (leNat bs) r' with ⟨buf, _ | e, r''⟩ <;>
          simp [SimpleUnitReader.ReadUnit, ReadByte, h, h2]
      · simp [SimpleUnitReader.ReadUnit, ReadByte, h]
    · rcases h : ReadFull 8 rest with ⟨bs, _ | e, r'⟩ <;>
        simp [SimpleUnitReader.ReadUnit, ReadByte, h]
    · simp [SimpleUnitReader.ReadUnit, ReadByte]
    · simp [SimpleUnitReader.ReadUnit, ReadByte]
    · simp [SimpleUnitReader.ReadUnit, ReadByte]
    · cases rest <;> simp [SimpleUnitReader.ReadUnit, ReadByte]
    · simp [SimpleUnitReader.ReadUnit, ReadByte]
    · simp [SimpleUnitReader.ReadUnit, ReadByte]
    · cases rest <;> simp [SimpleUnitReader.ReadUnit, ReadByte]
    · cases rest <;> simp [SimpleUnitReader.ReadUnit, ReadByte]
  · have h0 : t ≠ 0 := by omega
    have h1 : t ≠ 1 := by omega
    have h2 : t ≠ 2 := by omega
    have h3 : t ≠ 3 := by omega
    have h4 : t ≠ 4 := by omega
    have h5 : t ≠ 5 := by omega
    have h6 : t ≠ 6 := by omega
    have h7 : t ≠ 7 := by omega
    have h8 : t ≠ 8 := by omega
    have h9 : t ≠ 9 := by omega
    have h10 : t ≠ 10 := by omega
    have h11 : t ≠ 11 := by omega
    have h12 : t ≠ 12 := by omega
    have h13 : t ≠ 13 := by omega
    simp [SimpleUnitReader.ReadUnit, ReadByte, h0, h1, h2, h3, h4, h5, h6, h7, h8, h9, h10,
      h11, h12, h13]

/-- A UKey that `ReadUnit` returns without error carries a byte, and the
mutex is free after it. -/
theorem readUnit_ukey (ur ur1 : SimpleUnitReader) (data : Payload)
    (h : ur.ReadUnit = .ret (UTUKey, data, none, ur1)) :
    ∃ k, data = .byte k ∧ ur1.mu = false := by
  obtain ⟨r, mu⟩ := ur
  cases mu with
  | true => simp [SimpleUnitReader.ReadUnit] at h
  | false =>
    cases r with
    | nil => simp [SimpleUnitReader.ReadUnit, ReadByte] at h
    | cons t rest =>
      have ht := readUnit_tag t rest
      rw [h] at ht
      simp only at ht
      subst ht
      cases rest with
      | nil => simp [SimpleUnitReader.ReadUnit, ReadByte] at h
      | cons k rest =>
        simp only [SimpleUnitReader.ReadUnit, ReadByte] at h
        simp at h
        exact ⟨k, h.1.symm, by rw [← h.2]⟩


theorem readExpect_match (ur ur1 : SimpleUnitReader) (ut : UnitType) (data : Payload)
    (h : ur.ReadUnit = .ret (ut, data, none, ur1)) :
    ReadExpect ur ut = .ret (data, none, ur1) := by
  simp [ReadExpect, h]

theorem readExpect_skipped (ur ur1 ur2 : SimpleUnitReader) (expected ut : UnitType)
    (data : Payload) (h1 : ur.ReadUnit = .ret (ut, data, none, ur1)) (h2 : ut ≠ expected)
    (h3 : SkipUnit ur1 ut data = .ret (none, ur2)) :
    ReadExpect ur expected = .ret (.nil, some .UnexpectedUnit, ur2) := by
  simp [ReadExpect, h1, h2, h3]

/-- C16: `ReadExpect` on a complete unit followed by `rest` decodes one unit.
If the type of the unit is the expected one, it returns the payload with a nil
error, the reader being where `ReadUnit` leaves it; if the type differs and
`SkipUnit` can skip the unit, it returns a nil payload with `UnexpectedUnit`
and leaves exactly `rest`, after the whole unit. -/
theorem C16_ReadExpect (t : UnitTree) (rest : List Nat) (expected : UnitType) (hf : t.fits) :
    (NewSimpleUnitReader (t.encode ++ rest)).ReadUnit =
      .ret (t.ut, t.payload, none, { r := t.body ++ rest, mu := t.locks }) ∧
    (t.ut = expected →
      ReadExpect (NewSimpleUnitReader (t.encode ++ rest)) expected =
        .ret (t.payload, none, { r := t.body ++ rest, mu := t.locks })) ∧
    (t.ut ≠ expected → Skippable t →
      ReadExpect (NewSimpleUnitReader (t.encode ++ rest)) expected =
        .ret (.nil, some .UnexpectedUnit, NewSimpleUnitReader rest)) := by
  rw [encode_eq_wire]
  have hr := readUnit_tree t rest hf
  refine ⟨hr, ?_, ?_⟩
  · intro he
    subst he
    exact readExpect_match _ _ _ _ hr
  · intro hne hs
    exact readExpect_skipped _ _ _ _ _ _ hr hne (skippable_skip t rest hf hs)

theorem C16_ReadExpect_witness :
    (ReadExpect (NewSimpleUnitReader ((UnitTree.request 42).encode ++ [8, 11])) UTRequest =
        .ret (.code 42, none, { r := [8, 11], mu := false })) ∧
    (ReadExpect (NewSimpleUnitReader
        ((UnitTree.list [.list [.byte 1], .binstream [[1, 2], [3]]]).encode ++ [2, 3, 0]))
        UTAnswer =
      .ret (.nil, some .UnexpectedUnit, NewSimpleUnitReader [2, 3, 0])) :=
  ⟨(C16_ReadExpect (.request 42) [8, 11] UTRequest (by simp [UnitTree.fits])).2.1 rfl,
    (C16_ReadExpect (.list [.list [.byte 1], .binstream [[1, 2], [3]]]) [2, 3, 0] UTAnswer
      (by simp [UnitTree.fits, fitsItems])).2.2 (by decide)
      (skippable_of_depth _ (by simp [UnitTree.fits, fitsItems]) (by decide))⟩

/-- C17: when the unit that `ReadExpect` decodes has a type other than the
expected one and `SkipUnit` of that unit fails with the error `e`,
`ReadExpect` returns a nil payload and `e`, the error of the skip, in place of
the `UnexpectedUnit` of the mismatch. -/
theorem C17_ReadExpect_skip_failure (ur ur1 ur2 : SimpleUnitReader) (expected ut : UnitType)
    (data : Payload) (e : Err)
    (h1 : ur.ReadUnit = .ret (ut, data, none, ur1)) (h2 : ut ≠ expected)
    (h3 : SkipUnit ur1 ut data = .ret (some e, ur2)) :
    ReadExpect ur expected = .ret (.nil, some e, ur2) := by
  simp [ReadExpect, h1, h2, h3]

theorem C17_ReadExpect_skip_failure_witness :
    ReadExpect (NewSimpleUnitReader (List.replicate 17 UTList ++ List.replicate 17 UTTerm))
        UTNil =
      .ret (.nil, some .TooDeeplyNested, { r := List.replicate 17 UTTerm, mu := false }) :=
  C17_ReadExpect_skip_failure
    (NewSimpleUnitReader (List.replicate 17 UTList ++ List.replicate 17 UTTerm))
    { r := List.replicate 16 UTList ++ List.replicate 17 UTTerm, mu := false }
    { r := List.replicate 17 UTTerm, mu := false } UTNil UTList .nil .TooDeeplyNested
    (by decide) (by decide) (by decide)

/-- C18: `ReadIdKVPair` decodes the next unit. If it is a UKey with the byte
`k`, it decodes one more unit and returns the pair of `k` and the type and
payload of that unit, with the error of the second decoding; if it is a Term,
it returns `Terminated`, only the Term being consumed; if it is any other
unit, it returns `UnexpectedUnit`, only that unit having been decoded. -/
theorem C18_ReadIdKVPair (ur ur1 : SimpleUnitReader) (ut : UnitType) (data : Payload)
    (h : ur.ReadUnit = .ret (ut, data, none, ur1)) :
    (ut = UTUKey → ∃ k, data = .byte k ∧
      ∃ vt vp err ur2, ur1.ReadUnit = .ret (vt, vp, err, ur2) ∧
        ReadIdKVPair ur = .ret ({ Key := k, ValueType := vt, ValuePayload := vp }, err, ur2)) ∧
    (ut = UTTerm →
      ReadIdKVPair ur =
        .ret ({ Key := 0, ValueType := 0, ValuePayload := .nil }, some .Terminated, ur1)) ∧
    (ut ≠ UTUKey → ut ≠ UTTerm →
      ReadIdKVPair ur =
        .ret ({ Key := 0, ValueType := 0, ValuePayload := .nil }, some .UnexpectedUnit, ur1)) := by
  refine ⟨?_, ?_, ?_⟩
  · intro hut
    subst hut
    obtain ⟨k, hk, hmu⟩ := readUnit_ukey ur ur1 data h
    subst hk
    obtain ⟨r1, mu1⟩ := ur1
    simp only at hmu
    subst hmu
    obtain ⟨vt, vp, err, ur2, h2⟩ := readUnit_returns r1
    exact ⟨k, rfl, vt, vp, err, ur2, h2, by simp [ReadIdKVPair, h, h2]⟩
  · intro hut
    subst hut
    simp [ReadIdKVPair, h]
  · intro h1 h2
    simp [ReadIdKVPair, h, h1, h2]

theorem C18_ReadIdKVPair_witness :
    ∃ k, Payload.byte 16 = .byte k ∧
      ∃ vt vp err ur2,
        (SimpleUnitReader.mk [UTBool, 1, UTTerm] false).ReadUnit = .ret (vt, vp, err, ur2) ∧
        ReadIdKVPair (NewSimpleUnitReader [UTUKey, 16, UTBool, 1, UTTerm]) =
          .ret ({ Key := k, ValueType := vt, ValuePayload := vp }, err, ur2) :=
  (C18_ReadIdKVPair (NewSimpleUnitReader [UTUKey, 16, UTBool, 1, UTTerm])
    { r := [UTBool, 1, UTTerm], mu := false } UTUKey (.byte 16) (by decide)).1 rfl

/-- C19: for every tag byte `t ≥ 14` and all bytes `rest` after it,
`ReadUnit` returns `UnknownUnit` with a nil payload, and exactly `rest` is
left unread. -/
theorem C19_unknown_tag (t : Nat) (rest : List Nat) (ht : 14 ≤ t) :
    (NewSimpleUnitReader (t :: rest)).ReadUnit =
      .ret (t, .nil, some .UnknownUnit, NewSimpleUnitReader rest) := by
  have h0 : t ≠ 0 := by omega
  have h1 : t ≠ 1 := by omega
  have h2 : t ≠ 2 := by omega
  have h3 : t ≠ 3 := by omega
  have h4 : t ≠ 4 := by omega
  have h5 : t ≠ 5 := by omega
  have h6 : t ≠ 6 := by omega
  have h7 : t ≠ 7 := by omega
  have h8 : t ≠ 8 := by omega
  have h9 : t ≠ 9 := by omega
  have h10 : t ≠ 10 := by omega
  have h11 : t ≠ 11 := by omega
  have h12 : t ≠ 12 := by omega
  have h13 : t ≠ 13 := by omega
  simp [NewSimpleUnitReader, SimpleUnitReader.ReadUnit, ReadByte, h0, h1, h2, h3, h4, h5, h6,
    h7, h8, h9, h10, h11, h12, h13]

theorem C19_unknown_tag_witness :
    (NewSimpleUnitReader (200 :: [1, 2, 3])).ReadUnit =
      .ret (200, .nil, some .UnknownUnit, NewSimpleUnitReader [1, 2, 3]) :=
  C19_unknown_tag 200 [1, 2, 3] (by decide)

/-! ## C20: the bytes of the encoders of fixed size -/

theorem leBytes_lt (k n : Nat) : ∀ x ∈ leBytes k n, x < 256 := by
  induction k generalizing n with
  | zero => simp [leBytes]
  | succ k ih =>
    intro x hx
    simp only [leBytes, List.mem_cons] at hx
    rcases hx with rfl | hx
    · exact Nat.mod_lt _ (by decide)
    · exact ih _ x hx

theorem leValue_leBytes (k n : Nat) : leValue (leBytes k n) = n % 256 ^ k := by
  induction k generalizing n with
  | zero => simp [leBytes, leValue, Nat.mod_one]
  | succ k ih =>
    simp only [leBytes, leValue, ih]
    rw [pow_succ', Nat.mod_mul]

/-- C20: on a writer that does not fail, every encoder of fixed size appends
exactly the bytes of its row of the wire format: `SendNil` 0; `InitRequest`,
`InitAnswer`, `InitEvent` the tag 1, 2, 3 and the code, low byte first;
`SendNumber` the tag 5 and the eight bytes of the two's complement of the
number, least significant first; `InitList` 6; `InitTextKVMap` 7;
`InitIdKVMap` 8; `SendUKey` 9 and the key; `InitBinStream` 10; `SendTerm` 11;
`SendBool` 12 and 1 or 0; `SendByte` 13 and the byte. -/
theorem C20_fixed_size_encoders (out : List Nat) (c : Nat) (n : Int) (k b : Nat) (flag : Bool)
    (hc : c < 2 ^ 16) :
    SendNil { out := out, room := none } = (none, { out := out ++ [0], room := none }) ∧
    InitRequest { out := out, room := none } c =
      (none, { out := out ++ [1, c % 256, c / 256], room := none }) ∧
    InitAnswer { out := out, room := none } c =
      (none, { out := out ++ [2, c % 256, c / 256], room := none }) ∧
    InitEvent { out := out, room := none } c =
      (none, { out := out ++ [3, c % 256, c / 256], room := none }) ∧
    (∃ bs : List Nat,
      SendNumber { out := out, room := none } n =
        (none, { out := out ++ 5 :: bs, room := none }) ∧
      bs.length = 8 ∧ (∀ x ∈ bs, x < 256) ∧ ((leValue bs : Nat) : Int) = n % 2 ^ 64) ∧
    InitList { out := out, room := none } = (none, { out := out ++ [6], room := none }) ∧
    InitTextKVMap { out := out, room := none } = (none, { out := out ++ [7], room := none }) ∧
    InitIdKVMap { out := out, room := none } = (none, { out := out ++ [8], room := none }) ∧
    SendUKey { out := out, room := none } k = (none, { out := out ++ [9, k], room := none }) ∧
    InitBinStream { out := out, room := none } =
      (some { w := { out := out ++ [10], room := none }, err := none }, none,
        { out := out ++ [10], room := none }) ∧
    SendTerm { out := out, room := none } = (none, { out := out ++ [11], room := none }) ∧
    SendBool { out := out, room := none } flag =
      (none, { out := out ++ [12, if flag then 1 else 0], room := none }) ∧
    SendByte { out := out, room := none } b = (none, { out := out ++ [13, b], room := none }) := by
  have hdiv : c / 256 % 256 = c / 256 := Nat.mod_eq_of_lt (by omega)
  refine ⟨rfl, ?_, ?_, ?_, ?_, rfl, rfl, rfl, rfl, rfl, rfl, ?_, rfl⟩
  · simp [InitRequest, sendRAE, Writer.Write, leBytes, hdiv]
  · simp [InitAnswer, sendRAE, Writer.Write, leBytes, hdiv]; decide
  · simp [InitEvent, sendRAE, Writer.Write, leBytes, hdiv]; decide
  · refine ⟨leBytes 8 (ofInt64 n), ?_, leBytes_length 8 _, leBytes_lt 8 _, ?_⟩
    · simp [SendNumber, Writer.Write]
    · rw [leValue_leBytes]
      unfold ofInt64
      omega
  · cases flag <;> simp [SendBool, sendTypedByte, Writer.Write] <;> decide

theorem C20_fixed_size_encoders_witness :
    InitRequest { out := [7], room := none } 4660 =
      (none, { out := [7] ++ [1, 4660 % 256, 4660 / 256], room := none }) ∧
    (∃ bs : List Nat,
      SendNumber { out := [7], room := none } (-2) =
        (none, { out := [7] ++ 5 :: bs, room := none }) ∧
      bs.length = 8 ∧ (∀ x ∈ bs, x < 256) ∧ ((leValue bs : Nat) : Int) = -2 % 2 ^ 64) :=
  ⟨(C20_fixed_size_encoders [7] 4660 (-2) 3 4 true (by decide)).2.1,
    (C20_fixed_size_encoders [7] 4660 (-2) 3 4 true (by decide)).2.2.2.2.1⟩

/-! ## C21 - C23: byte blocks, Bool, the frames of a stream -/

theorem leValue_lt (bs : List Nat) (h : ∀ x ∈ bs, x < 256) : leValue bs < 256 ^ bs.length := by
  induction bs with
  | nil => simp [leValue]
  | cons b bs ih =>
    have hb := h b (by simp)
    have := ih (fun x hx => h x (by simp [hx]))
    simp only [leValue, List.length_cons, pow_succ]
    omega

theorem sendBin_out (out b : List Nat) :
    SendBin { out := out, room := none } b =
      (none, { out := out ++ [UTBin] ++ leBytes 4 (b.length % 2 ^ 32) ++ b, room := none }) := by
  simp [SendBin, Writer.Write]

/-- C21, as the code has it: for every byte block `b` shorter than 2^32 bytes
`SendBin` writes the tag 4, then four bytes whose little-endian value is the
length of `b`, then the bytes of `b`; and `SendTextKey`, on any writer, does
what `SendBin` does on the bytes of the key. -/
theorem C21_SendBin (out b key : List Nat) (w : Writer) (hb : b.length < 2 ^ 32) :
    (∃ bs : List Nat,
      SendBin { out := out, room := none } b =
        (none, { out := out ++ [4] ++ bs ++ b, room := none }) ∧
      bs.length = 4 ∧ (∀ x ∈ bs, x < 256) ∧ leValue bs = b.length) ∧
    SendTextKey w key = SendBin w key ∧
    (∃ bs : List Nat,
      SendTextKey { out := out, room := none } b =
        (none, { out := out ++ [4] ++ bs ++ b, room := none }) ∧
      bs.length = 4 ∧ (∀ x ∈ bs, x < 256) ∧ leValue bs = b.length) := by
  have hv : leValue (leBytes 4 (b.length % 2 ^ 32)) = b.length := by
    rw [leValue_leBytes]
    simp only [Nat.reducePow] at hb ⊢
    omega
  refine ⟨⟨leBytes 4 (b.length % 2 ^ 32), sendBin_out out b, leBytes_length _ _,
    leBytes_lt _ _, hv⟩, rfl, ⟨leBytes 4 (b.length % 2 ^ 32), sendBin_out out b,
    leBytes_length _ _, leBytes_lt _ _, hv⟩⟩

theorem C21_SendBin_witness :
    ∃ bs : List Nat,
      SendBin { out := [7], room := none } [104, 105] =
        (none, { out := [7] ++ [4] ++ bs ++ [104, 105], room := none }) ∧
      bs.length = 4 ∧ (∀ x ∈ bs, x < 256) ∧ leValue bs = [104, 105].length :=
  (C21_SendBin [7] [104, 105] [102] { out := [], room := none } (by decide)).1

theorem sendBin_wrapped (b : List Nat) (h : b.length = 2 ^ 32) :
    SendBin { out := [], room := none } b =
      (none, { out := [4, 0, 0, 0, 0] ++ b, room := none }) := by
  rw [sendBin_out, h]
  simp [leBytes]

/-- C21 fails as stated: for a byte block of 2^32 bytes `SendBin` writes the
length bytes 0, 0, 0, 0; no four bytes stand for the length of the block. -/
theorem C21_counterexample :
    SendBin { out := [], room := none } (List.replicate (2 ^ 32) 0) =
      (none, { out := [4, 0, 0, 0, 0] ++ List.replicate (2 ^ 32) 0, room := none }) ∧
    ¬ ∃ bs : List Nat, bs.length = 4 ∧ (∀ x ∈ bs, x < 256) ∧
      leValue bs = (List.replicate (2 ^ 32) 0).length := by
  constructor
  · exact sendBin_wrapped _ (List.length_replicate _ _)
  · rintro ⟨bs, hl, hx, hv⟩
    have := leValue_lt bs hx
    rw [hl] at this
    rw [List.length_replicate] at hv
    omega

/-- C22: `ReadUnit` on the tag 12 and a byte `b` (and whatever follows) returns
the unit type Bool with a nil error, the payload `false` when `b = 0` and
`true` for every other `b`, and has taken these two bytes. -/
theorem C22_bool_decoding (b : Nat) (rest : List Nat) :
    (SimpleUnitReader.mk [12, b] false).ReadUnit =
      .ret (UTBool, .bool (decide (b ≠ 0)), none, { r := [], mu := false }) ∧
    (SimpleUnitReader.mk (12 :: b :: rest) false).ReadUnit =
      .ret (UTBool, .bool (decide (b ≠ 0)), none, { r := rest, mu := false }) ∧
    (SimpleUnitReader.mk [12, 0] false).ReadUnit =
      .ret (UTBool, .bool false, none, { r := [], mu := false }) ∧
    (b ≠ 0 → (SimpleUnitReader.mk [12, b] false).ReadUnit =
      .ret (UTBool, .bool true, none, { r := [], mu := false })) := by
  have key : ∀ rest : List Nat, (SimpleUnitReader.mk (12 :: b :: rest) false).ReadUnit =
      .ret (UTBool, .bool (decide (b ≠ 0)), none, { r := rest, mu := false }) := by
    intro rest
    by_cases hb : b = 0 <;> simp [SimpleUnitReader.ReadUnit, ReadByte, hb]
  refine ⟨key [], key rest, by decide, ?_⟩
  intro hb
  rw [key []]
  simp [hb]

/-- C23, as the code has it: for every non-empty slice `p` shorter than 2^31
bytes, `Write` on a stream writer without a stored error (whose sink takes the
bytes) emits four bytes that stand, as a little-endian signed number, for the
length of `p`, which is greater than zero, then the bytes of `p`, and returns
`(len(p), nil)`. -/
theorem C23_stream_write (out p : List Nat) (hp : p ≠ []) (hl : p.length < 2 ^ 31) :
    ∃ bs : List Nat,
      BinstreamWriter.Write { w := { out := out, room := none }, err := none } p =
        (p.length, none, { w := { out := out ++ bs ++ p, room := none }, err := none }) ∧
      bs.length = 4 ∧ (∀ x ∈ bs, x < 256) ∧
      toInt32 (leNat bs) = (p.length : Int) ∧ 0 < toInt32 (leNat bs) := by
  have hv : toInt32 (leNat (leBytes 4 (ofInt32 (p.length : Int)))) = (p.length : Int) := by
    rw [leNat_leBytes]
    exact toInt32_ofInt32_len p.length hl
  have hpos : 0 < p.length := List.length_pos.mpr hp
  refine ⟨leBytes 4 (ofInt32 (p.length : Int)), ?_, leBytes_length _ _, leBytes_lt _ _, hv, ?_⟩
  · rw [bsw_write]
    simp [hp]
  · rw [hv]
    exact_mod_cast hpos

theorem C23_stream_write_witness :
    ∃ bs : List Nat,
      BinstreamWriter.Write { w := { out := [10], room := none }, err := none } [104, 105] =
        ([104, 105].length, none,
          { w := { out := [10] ++ bs ++ [104, 105], room := none }, err := none }) ∧
      bs.length = 4 ∧ (∀ x ∈ bs, x < 256) ∧
      toInt32 (leNat bs) = ([104, 105].length : Int) ∧ 0 < toInt32 (leNat bs) :=
  C23_stream_write [10] [104, 105] (by decide) (by decide)

theorem bsw_write_wrapped (p : List Nat) (h : p.length = 2 ^ 31) :
    BinstreamWriter.Write { w := { out := [], room := none }, err := none } p =
      (2 ^ 31, none, { w := { out := [0, 0, 0, 128] ++ p, room := none }, err := none }) := by
  have hp : p ≠ [] := by
    intro h0
    rw [h0] at h
    simp at h
  rw [bsw_write, h]
  simp [hp, ofInt32, leBytes]

/-- C23 fails as stated: for a slice of 2^31 bytes `Write` emits the length
bytes 0, 0, 0, 128, which stand for -2^31 as a signed number: the length is not
greater than zero and is not the length of the slice. -/
theorem C23_counterexample :
    BinstreamWriter.Write { w := { out := [], room := none }, err := none }
        (List.replicate (2 ^ 31) 0) =
      (2 ^ 31, none,
        { w := { out := [0, 0, 0, 128] ++ List.replicate (2 ^ 31) 0, room := none },
          err := none }) ∧
    toInt32 (leNat [0, 0, 0, 128]) = -2147483648 ∧
    (List.replicate (2 ^ 31) 0).length = 2 ^ 31 :=
  ⟨bsw_write_wrapped _ (List.length_replicate _ _), by decide, List.length_replicate _ _⟩

/-! ## C24, C25: empty writes, Close -/

theorem frames_filter (ps : List (List Nat)) :
    frames ps = concat ((ps.filter (fun p => decide (p ≠ []))).map
      (fun p => leBytes 4 (ofInt32 (p.length : Int)) ++ p)) := by
  induction ps with
  | nil => simp [frames, concat]
  | cons p ps ih =>
    by_cases hp : p = []
    · subst hp
      simp [frames, ih]
    · simp [frames, hp, ih, concat]

/-- C24, as the code has it: `Write` with an empty slice on a stream writer
without a stored error emits nothing, returns `(0, nil)` and leaves the writer
as it is. Hence a sequence of `Write` calls with slices shorter than 2^32
bytes emits one frame for each slice that is not empty, in order, and nothing
for an empty one; the four length bytes of each frame stand for the length of
its slice, which is not zero (read as a signed number it is not zero either). -/
theorem C24_empty_write (w : Writer) (ps : List (List Nat)) (out : List Nat)
    (hb : ∀ p ∈ ps, p.length < 2 ^ 32) :
    BinstreamWriter.Write { w := w, err := none } [] = (0, none, { w := w, err := none }) ∧
    BinstreamWriter.writeAll { w := { out := out, room := none }, err := none } ps =
      (none,
        { w := { out := out ++ concat ((ps.filter (fun p => decide (p ≠ []))).map
            (fun p => leBytes 4 (ofInt32 (p.length : Int)) ++ p)), room := none },
          err := none }) ∧
    (∀ p ∈ ps.filter (fun p => decide (p ≠ [])),
      (leBytes 4 (ofInt32 (p.length : Int))).length = 4 ∧
      leValue (leBytes 4 (ofInt32 (p.length : Int))) = p.length ∧
      leValue (leBytes 4 (ofInt32 (p.length : Int))) ≠ 0 ∧
      toInt32 (leNat (leBytes 4 (ofInt32 (p.length : Int)))) ≠ 0) ∧
    BinstreamWriter.writeAll { w := { out := out, room := none }, err := none } ps =
      BinstreamWriter.writeAll { w := { out := out, room := none }, err := none }
        (ps.filter (fun p => decide (p ≠ []))) := by
  refine ⟨by simp [BinstreamWriter.Write], ?_, ?_, ?_⟩
  · rw [bsw_writeAll, frames_filter]
  · intro p hp
    simp only [List.mem_filter, decide_eq_true_eq] at hp
    obtain ⟨hmem, hne⟩ := hp
    have hlt := hb p hmem
    have hpos := List.length_pos.mpr hne
    simp only [Nat.reducePow] at hlt
    refine ⟨leBytes_length _ _, ?_, ?_, ?_⟩
    · rw [leValue_leBytes]; unfold ofInt32; omega
    · rw [leValue_leBytes]; unfold ofInt32; omega
    · rw [leNat_leBytes]; unfold toInt32 ofInt32; omega
  · rw [bsw_writeAll, bsw_writeAll, frames_filter, frames_filter, List.filter_filter]
    simp

theorem C24_empty_write_witness :
    BinstreamWriter.writeAll { w := { out := [10], room := none }, err := none }
        [[104, 105], [], [33]] =
      (none,
        { w := { out := [10] ++
            concat (([[104, 105], [], [33]].filter (fun p => decide (p ≠ []))).map
              (fun p => leBytes 4 (ofInt32 (p.length : Int)) ++ p)), room := none },
          err := none }) :=
  (C24_empty_write { out := [], room := none } [[104, 105], [], [33]] [10]
    (by decide)).2.1

theorem bsw_write_zero (p : List Nat) (h : p.length = 2 ^ 32) :
    BinstreamWriter.Write { w := { out := [], room := none }, err := none } p =
      (2 ^ 32, none, { w := { out := [0, 0, 0, 0] ++ p, room := none }, err := none }) := by
  have hp : p ≠ [] := by
    intro h0
    rw [h0] at h
    simp at h
  rw [bsw_write, h]
  simp [hp, ofInt32, leBytes]

/-- C24 fails as stated: one `Write` of a slice of 2^32 bytes emits the
length bytes 0, 0, 0, 0 before the slice, a chunk of length zero on the
wire. -/
theorem C24_counterexample :
    BinstreamWriter.Write { w := { out := [], room := none }, err := none }
        (List.replicate (2 ^ 32) 0) =
      (2 ^ 32, none,
        { w := { out := [0, 0, 0, 0] ++ List.replicate (2 ^ 32) 0, room := none },
          err := none }) ∧
    leValue [0, 0, 0, 0] = 0 ∧ toInt32 (leNat [0, 0, 0, 0]) = 0 ∧
    (List.replicate (2 ^ 32) 0).length = 2 ^ 32 :=
  ⟨bsw_write_zero _ (List.length_replicate _ _), by decide, by decide,
    List.length_replicate _ _⟩

theorem calls_closed (cs : List WriterCall) (w : Writer) :
    BinstreamWriter.calls { w := w, err := some .EOF } cs = { w := w, err := some .EOF } := by
  induction cs with
  | nil => rfl
  | cons c cs ih =>
    cases c with
    | write p => simpa [BinstreamWriter.calls, BinstreamWriter.Write] using ih
    | close => simpa [BinstreamWriter.calls, BinstreamWriter.Close] using ih

theorem calls_out (cs : List WriterCall) : ∀ out : List Nat,
    BinstreamWriter.calls { w := { out := out, room := none }, err := none } cs =
      { w := { out := out ++ frames (written cs) ++ (if closes cs then [255, 255, 255, 255] else []),
               room := none },
        err := if closes cs then some .EOF else none } := by
  induction cs with
  | nil => intro out; simp [BinstreamWriter.calls, written, closes, frames]
  | cons c cs ih =>
    intro out
    cases c with
    | write p =>
      simp only [BinstreamWriter.calls, bsw_write, ih, written, closes, frames, List.append_assoc]
    | close =>
      have ht : leBytes 4 (ofInt32 (-1)) = [255, 255, 255, 255] := by decide
      simp [BinstreamWriter.calls, BinstreamWriter.Close, Writer.Write, calls_closed, written,
        closes, frames, ht]

/-- C25, as the code has it: `Close` on a stream writer without a stored
error emits the four bytes FF FF FF FF, the length -1. After a `Close` that
succeeded every `Close` returns nil and every `Write` returns `(0, io.EOF)`,
and neither emits anything. Hence the bytes emitted by a sequence of `Write`
and `Close` calls are the frames of the slices written before the first
`Close`, followed by the terminator, once, when there is a `Close` among the
calls. When the slices are shorter than 2^31 bytes the length of every such
frame is greater than zero, so no frame but the last is a terminator: a
stream reader on the emitted bytes finds the terminator when it has passed all
of them, and what follows them is left. -/
theorem C25_close (out p rest : List Nat) (w : Writer) (cs : List WriterCall)
    (hb : ∀ q ∈ written cs, q.length < 2 ^ 31) :
    BinstreamWriter.Close { w := { out := out, room := none }, err := none } =
      (none, { w := { out := out ++ [255, 255, 255, 255], room := none }, err := some .EOF }) ∧
    toInt32 (leNat [255, 255, 255, 255]) = -1 ∧
    BinstreamWriter.Close { w := w, err := some .EOF } = (none, { w := w, err := some .EOF }) ∧
    BinstreamWriter.Write { w := w, err := some .EOF } p =
      (0, some .EOF, { w := w, err := some .EOF }) ∧
    BinstreamWriter.calls { w := w, err := some .EOF } cs = { w := w, err := some .EOF } ∧
    (BinstreamWriter.calls { w := { out := out, room := none }, err := none } cs).w.out =
      out ++ frames (written cs) ++ (if closes cs then [255, 255, 255, 255] else []) ∧
    (∀ q ∈ written cs, q ≠ [] →
      toInt32 (leNat (leBytes 4 (ofInt32 (q.length : Int)))) = (q.length : Int) ∧
      0 < toInt32 (leNat (leBytes 4 (ofInt32 (q.length : Int))))) ∧
    (closes cs = true →
      BinstreamReader.FastForward { err := none, toread := 0 }
          { r := (BinstreamWriter.calls { w := { out := [], room := none }, err := none }
                    cs).w.out ++ rest,
            mu := true } =
        .ret (none, { err := some .EOF, toread := -1 }, { r := rest, mu := false })) := by
  have ht : leBytes 4 (ofInt32 (-1)) = [255, 255, 255, 255] := by decide
  refine ⟨by simp [BinstreamWriter.Close, Writer.Write, ht], by decide,
    by simp [BinstreamWriter.Close], by simp [BinstreamWriter.Write], calls_closed cs w, ?_,
    ?_, ?_⟩
  · rw [calls_out]
  · intro q hq hne
    have hv : toInt32 (leNat (leBytes 4 (ofInt32 (q.length : Int)))) = (q.length : Int) := by
      rw [leNat_leBytes]
      exact toInt32_ofInt32_len q.length (hb q hq)
    have hpos : 0 < q.length := List.length_pos.mpr hne
    rw [hv]
    exact ⟨rfl, by exact_mod_cast hpos⟩
  · intro hc
    rw [calls_out, hc]
    have h := fastForward_frames (written cs) rest hb
    have ht2 : terminator = [255, 255, 255, 255] := by decide
    rw [ht2] at h
    simpa using h

theorem C25_close_witness :
    BinstreamReader.FastForward { err := none, toread := 0 }
        { r := (BinstreamWriter.calls { w := { out := [], room := none }, err := none }
                  [.write [104, 105], .write [], .close, .write [33], .close]).w.out ++ [9, 9],
          mu := true } =
      .ret (none, { err := some .EOF, toread := -1 }, { r := [9, 9], mu := false }) :=
  (C25_close [] [] [9, 9] { out := [], room := none }
    [.write [104, 105], .write [], .close, .write [33], .close]
    (by decide)).2.2.2.2.2.2.2 (by decide)

theorem calls_wrapped (p : List Nat) (h : p.length = 2 ^ 32 - 1) :
    (BinstreamWriter.calls { w := { out := [], room := none }, err := none }
        [.write p, .close]).w.out = [255, 255, 255, 255] ++ p ++ [255, 255, 255, 255] := by
  have hp : p ≠ [] := by
    intro h0
    rw [h0] at h
    simp at h
  rw [calls_out]
  simp [written, closes, frames, hp, h, ofInt32, leBytes]

/-- C25 fails as stated: a `Write` of a slice of 2^32 - 1 bytes followed by
`Close` emits FF FF FF FF, the slice, and FF FF FF FF: the terminator stands
at the start of the emitted stream as well as at its end, and a stream reader
stops at the first one, with the slice and the last frame unread. -/
theorem C25_counterexample :
    (BinstreamWriter.calls { w := { out := [], room := none }, err := none }
        [.write (List.replicate (2 ^ 32 - 1) 0), .close]).w.out =
      [255, 255, 255, 255] ++ List.replicate (2 ^ 32 - 1) 0 ++ [255, 255, 255, 255] ∧
    toInt32 (leNat [255, 255, 255, 255]) = -1 ∧
    BinstreamReader.Read { err := none, toread := 0 }
        { r := terminator ++ (List.replicate (2 ^ 32 - 1) 0 ++ [255, 255, 255, 255]),
          mu := true } 1 =
      .ret ([], some .EOF, { err := some .EOF, toread := -1 },
        { r := List.replicate (2 ^ 32 - 1) 0 ++ [255, 255, 255, 255], mu := false }) ∧
    terminator = [255, 255, 255, 255] :=
  ⟨calls_wrapped _ (List.length_replicate _ _), by decide, read_terminator _ _, by decide⟩

/-! ## C26: the source ends inside a chunk -/

/-- C26: a stream reader without a stored error stands inside a chunk (the
length has been read, bytes of the chunk are still due). When the source is
empty, `Read` returns the error "binstream terminated abnormally" and stores
it, the mutex staying as it is; the same holds when the call itself has read
the length with the last four bytes of the source. Bytes that are left, fewer
than are due, are handed out with a nil error first, and bytes remain due.
With the error stored every later `Read` returns it, and reads nothing. -/
theorem C26_abnormal_termination (bsr : BinstreamReader) (mu : Bool) (plen : Nat)
    (he : bsr.err = none) :
    (0 < bsr.toread →
      bsr.Read { r := [], mu := mu } plen =
        .ret ([], some .abnormal, { bsr with err := some .abnormal }, { r := [], mu := mu })) ∧
    (bsr.toread = 0 → ∀ bs : List Nat, bs.length = 4 → 0 < toInt32 (leNat bs) →
      bsr.Read { r := bs, mu := mu } plen =
        .ret ([], some .abnormal, { err := some .abnormal, toread := toInt32 (leNat bs) },
          { r := [], mu := mu })) ∧
    (0 < bsr.toread → ∀ data : List Nat, data ≠ [] → (data.length : Int) < bsr.toread →
      ∃ got left bsr', bsr.Read { r := data, mu := mu } plen =
          .ret (got, none, bsr', { r := left, mu := mu }) ∧
        data = got ++ left ∧ bsr'.err = none ∧
        bsr'.toread = bsr.toread - (got.length : Int) ∧ (left.length : Int) < bsr'.toread) ∧
    (∀ (toread : Int) (sur : SimpleUnitReader) (n : Nat),
      BinstreamReader.Read { err := some .abnormal, toread := toread } sur n =
        .ret ([], some .abnormal, { err := some .abnormal, toread := toread }, sur)) := by
  refine ⟨?_, ?_, ?_, ?_⟩
  · intro hpos
    have h0 : bsr.toread ≠ 0 := by omega
    have h1 : ¬ bsr.toread < 0 := by omega
    simp [BinstreamReader.Read, he, h0, BinstreamReader.readChunk, h1, Read]
  · intro h0 bs hl hpos
    have hr : ReadFull 4 bs = (bs, none, []) := by
      have := ReadFull_append bs [] 4 hl
      simpa using this
    have h1 : ¬ toInt32 (leNat bs) < 0 := by omega
    simp [BinstreamReader.Read, he, h0, hr, h1, BinstreamReader.readChunk, Read]
  · intro hpos data hd hlt
    have h0 : bsr.toread ≠ 0 := by omega
    have h1 : ¬ bsr.toread < 0 := by omega
    refine ⟨data.take (if bsr.toread < (plen : Int) then bsr.toread.toNat else plen),
      data.drop (if bsr.toread < (plen : Int) then bsr.toread.toNat else plen),
      { bsr with toread := bsr.toread -
        ((data.take (if bsr.toread < (plen : Int) then bsr.toread.toNat else plen)).length : Int) },
      ?_, (List.take_append_drop _ _).symm, he, rfl, ?_⟩
    · simp [BinstreamReader.Read, he, h0, BinstreamReader.readChunk, h1, Read, hd]
    · simp only [List.length_drop, List.length_take]
      omega
  · intro toread sur n
    simp [BinstreamReader.Read]

theorem C26_abnormal_termination_witness :
    BinstreamReader.Read { err := none, toread := 1 } { r := [], mu := true } 8 =
      .ret ([], some .abnormal, { err := some .abnormal, toread := 1 }, { r := [], mu := true }) :=
  (C26_abnormal_termination { err := none, toread := 1 } true 8 rfl).1 (by decide)

/-! ## C27: the drain-only mode of the scanner -/

theorem worldAfter_cons (getters : Nat → Option (UKeyGetter σ)) (k : Nat) (t : UnitTree)
    (ps : List (Nat × UnitTree)) (tail : List Nat) (w : σ) :
    worldAfter getters ((k, t) :: ps) tail w =
      match getters k with
      | none => worldAfter getters ps tail w
      | some g =>
        if t.ut = g.Typ then
          match g.Action t.payload { r := t.body ++ (wirePairs ps ++ tail), mu := t.locks } w with
          | .ret (_, _, w') => worldAfter getters ps tail w'
          | _ => worldAfter getters ps tail w
        else worldAfter getters ps tail w := by
  rw [worldAfter]

theorem worldAfter_append (getters : Nat → Option (UKeyGetter σ))
    (a b : List (Nat × UnitTree)) (tail : List Nat) :
    ∀ w : σ, worldAfter getters (a ++ b) tail w =
      worldAfter getters b tail (worldAfter getters a (wirePairs b ++ tail) w) := by
  induction a with
  | nil => intro w; simp [worldAfter]
  | cons p a ih =>
    obtain ⟨k, t⟩ := p
    intro w
    rw [List.cons_append, worldAfter_cons, worldAfter_cons, wirePairs_append, List.append_assoc]
    cases hg : getters k with
    | none => exact ih w
    | some g =>
      by_cases hty : t.ut = g.Typ
      · simp only [hty, if_true]
        generalize g.Action t.payload
            { r := t.body ++ (wirePairs a ++ (wirePairs b ++ tail)), mu := t.locks } w = r
        cases r with
        | ret r => obtain ⟨_, _, w'⟩ := r; exact ih w'
        | blocked => exact ih w
        | crashed => exact ih w
        | starved => exact ih w
      · simp only [hty, if_false]
        exact ih w

/-- Pairs that do not put the scan into drain-only mode are processed one per
round of the loop; the state of the actions goes through the actions of
these pairs in order. -/
theorem scan_pairs_world (getters : Nat → Option (UKeyGetter σ)) (failOnUnknown : Bool)
    (pre : List (Nat × UnitTree)) :
    ∀ (fuel : Nat) (st : ScanState σ) (tail : List Nat),
      fitsIdPairs pre → (∀ p ∈ pre, PairOk getters failOnUnknown p) →
      st.skipAll = false → st.ur = { r := wirePairs pre ++ tail, mu := false } →
      ∃ st' : ScanState σ,
        scanLoop getters failOnUnknown (fuel + pre.length) st =
          scanLoop getters failOnUnknown fuel st' ∧
        st'.ur = { r := tail, mu := false } ∧ st'.skipAll = false ∧ st'.outerr = st.outerr ∧
        st'.calls = st.calls ++ callsOf getters pre ∧
        (∀ q, st'.flags q = (st.flags q || capturedIn getters pre q)) ∧
        (∀ k, st'.seen k = (st.seen k || occursIn getters pre k)) ∧
        st'.world = worldAfter getters pre tail st.world := by
  induction pre with
  | nil =>
    intro fuel st tail _ _ hskip hur
    exact ⟨st, rfl, by simpa [wirePairs] using hur, hskip, rfl, by simp [callsOf],
      by simp [capturedIn], by simp [occursIn], by simp [worldAfter]⟩
  | cons p pre ih =>
    obtain ⟨key, t⟩ := p
    intro fuel st tail hfit hok hskip hur
    simp only [fitsIdPairs] at hfit
    have hp := hok (key, t) (by simp)
    have hok' : ∀ p ∈ pre, PairOk getters failOnUnknown p := fun p hp => hok p (by simp [hp])
    simp only [wirePairs, List.append_assoc] at hur
    simp only [List.length_cons, ← Nat.add_assoc]
    unfold PairOk at hp
    cases hg : getters key with
    | none =>
      simp only [hg] at hp
      obtain ⟨hfl, hs⟩ := hp
      subst hfl
      rw [scanLoop_unknown_lenient getters _ st key t _ hur hskip hfit.1 hg hs]
      obtain ⟨st', h1, h2, h3, h4, h5, h6, h7, h8⟩ :=
        ih fuel { st with ur := { r := wirePairs pre ++ tail, mu := false } } tail hfit.2 hok'
          hskip rfl
      refine ⟨st', h1, h2, h3, h4, ?_, ?_, ?_, ?_⟩
      · simpa [callsOf, hg] using h5
      · intro q; simpa [capturedIn, hg] using h6 q
      · intro k; simpa [occursIn, hg] using h7 k
      · simpa [worldAfter, hg] using h8
    | some g =>
      simp only [hg] at hp
      obtain ⟨hty, hact⟩ := hp
      obtain ⟨fatal, w1, hrun⟩ := hact (wirePairs pre ++ tail) st.world
      rw [scanLoop_action_ok getters failOnUnknown _ st key t _ g fatal _ w1 hur hskip hfit.1 hg
        hty hrun]
      obtain ⟨st', h1, h2, h3, h4, h5, h6, h7, h8⟩ :=
        ih fuel
          { st with
            ur := { r := wirePairs pre ++ tail, mu := false }, world := w1,
            calls := st.calls ++ [(key, t.payload)],
            seen := fun k => if k = key then true else st.seen k,
            flags := match g.Captured with
              | some p => fun q => if q = p then true else st.flags q
              | none => st.flags }
          tail hfit.2 hok' hskip rfl
      refine ⟨st', h1, h2, h3, h4, ?_, ?_, ?_, ?_⟩
      · simpa [callsOf, hg] using h5
      · intro q
        rw [h6 q]
        cases hc : g.Captured with
        | none => simp [capturedIn, hg, hc]
        | some p =>
          by_cases hq : q = p
          · subst hq; simp [capturedIn, hg, hc]
          · have : ¬ p = q := fun h => hq h.symm
            simp [capturedIn, hg, hc, hq, this]
      · intro k
        rw [h7 k]
        by_cases hk : k = key
        · subst hk; simp [occursIn, hg]
        · have : ¬ key = k := fun h => hk h.symm
          simp [occursIn, hg, hk, this]
      · simpa [worldAfter, hg, hty, hrun] using h8

/-- The pairs `pre` pass, and the scan stands before the pair `(k, v)`, the
actions of `pre` having run. -/
theorem scan_upto_world (getters : Nat → Option (UKeyGetter σ)) (failOnUnknown : Bool)
    (pre : List (Nat × UnitTree)) (k : Nat) (v : UnitTree) (tail : List Nat) (world : σ)
    (flags : Nat → Bool)
    (hfit : fitsIdPairs pre) (hok : ∀ p ∈ pre, PairOk getters failOnUnknown p) :
    ∃ (f : Nat) (st : ScanState σ),
      ScanIdKVMap (NewSimpleUnitReader (wirePairs pre ++ ([UTUKey, k] ++ (v.wire ++ tail))))
          getters failOnUnknown world flags = scanLoop getters failOnUnknown (f + 1) st ∧
      v.body.length + tail.length + 3 ≤ f ∧
      st.ur = { r := [UTUKey, k] ++ (v.wire ++ tail), mu := false } ∧ st.skipAll = false ∧
      st.calls = callsOf getters pre ∧
      (∀ q, st.flags q = (flags q || capturedIn getters pre q)) ∧
      (∀ k', st.seen k' = occursIn getters pre k') ∧
      st.world = worldAfter getters pre ([UTUKey, k] ++ (v.wire ++ tail)) world := by
  obtain ⟨f, hf1, hf2⟩ := scan_fuel pre k v tail
  obtain ⟨st, h1, h2, h3, _, h5, h6, h7, h8⟩ := scan_pairs_world getters failOnUnknown pre (f + 1)
    { ur := NewSimpleUnitReader (wirePairs pre ++ ([UTUKey, k] ++ (v.wire ++ tail))),
      world := world, flags := flags, seen := fun _ => false, outerr := none, skipAll := false,
      calls := [] }
    ([UTUKey, k] ++ (v.wire ++ tail)) hfit hok rfl rfl
  refine ⟨f, st, ?_, hf2, h2, h3, by simpa using h5, h6, by simpa using h7, h8⟩
  simp only [ScanIdKVMap, NewSimpleUnitReader] at h1 ⊢
  rw [hf1, h1]

/-- C27, as the code has it. In drain-only mode the scan reads the remaining
pairs, whose values `SkipUnit` can skip, through the Term and returns the
error it has kept: it calls no action, sets no `Captured` variable, records
no key and makes no check for missing keys, and what the actions have stored
stays (its state is the one it had, apart from the reader), whatever the
getters say about the remaining keys. So when the pairs before `(k, v)` pass
and `(k, v)` is the first pair with an unregistered key under `failOnUnknown`,
a value of another type than declared, or an action that fails with an error
that is not fatal, `ScanIdKVMap` returns the error of that pair and leaves
exactly `rest`; the actions called are those of the pairs before it (and the
failing action itself), the state of the actions is the one these calls have
left, in order, and the keys recorded and the `Captured` flags set are those
of the pairs before it. -/
theorem C27_drain_only (getters : Nat → Option (UKeyGetter σ)) (failOnUnknown : Bool)
    (pre post : List (Nat × UnitTree)) (k : Nat) (v : UnitTree) (rest : List Nat) (world : σ)
    (flags : Nat → Bool) (e : Err)
    (hfit : fitsIdPairs (pre ++ (k, v) :: post))
    (hpre : ∀ p ∈ pre, PairOk getters failOnUnknown p)
    (hpost : ∀ p ∈ post, Skippable p.2)
    (hbad : (getters k = none ∧ failOnUnknown = true ∧ Skippable v ∧ e = .UnknownKey) ∨
      (∃ g, getters k = some g ∧ v.ut ≠ g.Typ ∧ Skippable v ∧ e = .UnexpectedTypeForKey) ∨
      (∃ g, getters k = some g ∧ v.ut = g.Typ ∧ ∀ w : σ, ∃ w1,
        g.Action v.payload { r := v.body ++ (wireIdPairs post ++ rest), mu := v.locks } w =
          .ret ((some e, false), { r := wireIdPairs post ++ rest, mu := false }, w1))) :
    (∀ (fuel : Nat) (st : ScanState σ), 2 * post.length < fuel → st.skipAll = true →
      st.ur = { r := encodeIdPairs post ++ rest, mu := false } →
      scanLoop getters failOnUnknown fuel st =
        .ret (st.outerr, { st with ur := { r := rest, mu := false } })) ∧
    ∃ st : ScanState σ,
      ScanIdKVMap (NewSimpleUnitReader (encodeIdPairs (pre ++ (k, v) :: post) ++ rest)) getters
          failOnUnknown world flags = .ret (some e, st) ∧
      st.ur = NewSimpleUnitReader rest ∧ st.skipAll = true ∧
      st.world = worldAfter getters (pre ++ [(k, v)]) (wireIdPairs post ++ rest) world ∧
      st.calls = callsOf getters pre ++
        (match getters k with
          | some g => if v.ut = g.Typ then [(k, v.payload)] else []
          | none => []) ∧
      (∀ q, st.flags q = (flags q || capturedIn getters pre q)) ∧
      (∀ k', st.seen k' = occursIn getters pre k') := by
  rw [fitsIdPairs_append] at hfit
  obtain ⟨hfpre, hfv, hfpost⟩ := hfit
  constructor
  · intro fuel st hfuel hskip hur
    rw [encodeIdPairs_eq_wire] at hur
    exact scan_drain getters failOnUnknown post fuel st rest hfpost hpost hfuel hskip hur
  · obtain ⟨f, st, h1, hf, h2, h3, h4, h5, h6, h7⟩ :=
      scan_upto_world getters failOnUnknown pre k v (wireIdPairs post ++ rest) world flags hfpre
        hpre
    have hl := wireIdPairs_length post
    have hfuel : 2 * post.length < f := by
      simp only [List.length_append] at hf; omega
    have hw : worldAfter getters (pre ++ [(k, v)]) (wireIdPairs post ++ rest) world =
        worldAfter getters [(k, v)] (wireIdPairs post ++ rest) st.world := by
      rw [worldAfter_append, h7]
      simp [wirePairs]
    rcases hbad with ⟨hk, hfl, hv, rfl⟩ | ⟨g, hg, hty, hv, rfl⟩ | ⟨g, hg, hty, hact⟩
    · subst hfl
      rw [encodeIdPairs_split, h1, scanLoop_unknown_strict getters f st k v _ h2 h3 hfv hk hv,
        scan_drain getters true post f _ rest hfpost hpost hfuel rfl rfl]
      exact ⟨_, rfl, rfl, rfl, by rw [hw]; simp [worldAfter, hk], by simp [h4, hk], h5, h6⟩
    · rw [encodeIdPairs_split, h1,
        scanLoop_mismatch getters failOnUnknown f st k v _ g h2 h3 hfv hg hty hv,
        scan_drain getters failOnUnknown post f _ rest hfpost hpost hfuel rfl rfl]
      exact ⟨_, rfl, rfl, rfl, by rw [hw]; simp [worldAfter, hg, hty], by simp [h4, hg, hty],
        h5, h6⟩
    · obtain ⟨w1, hrun⟩ := hact st.world
      rw [encodeIdPairs_split, h1,
        scanLoop_action_soft getters failOnUnknown f st k v _ g e _ w1 h2 h3 hfv hg hty hrun,
        scan_drain getters failOnUnknown post f _ rest hfpost hpost hfuel rfl rfl]
      exact ⟨_, rfl, rfl, rfl, by rw [hw]; simp [worldAfter, hg, hty, wirePairs, hrun],
        by simp [h4, hg, hty], h5, h6⟩

theorem C27_drain_only_witness :
    ∃ st : ScanState Nat,
      ScanIdKVMap (NewSimpleUnitReader
          (encodeIdPairs ([(1, .byte 42)] ++ (7, .bool true) :: [(8, .nil), (1, .bool true)]) ++
            [9, 9]))
        storingGetters true 0 (fun _ => false) = .ret (some .UnknownKey, st) ∧
      st.ur = NewSimpleUnitReader [9, 9] ∧ st.skipAll = true ∧ st.world = 42 ∧
      st.calls = [(1, .byte 42)] := by
  obtain ⟨st, h1, h2, h3, h4, h5, _, _⟩ :=
    (C27_drain_only storingGetters true [(1, .byte 42)] [(8, .nil), (1, .bool true)] 7
      (.bool true) [9, 9] 0 (fun _ => false) .UnknownKey
      (by simp [fitsIdPairs, UnitTree.fits])
      (by
        intro p hp
        simp only [List.mem_singleton] at hp
        subst hp
        exact ⟨rfl, fun rest w => ⟨false, 42, rfl⟩⟩)
      (by
        intro p hp
        simp only [List.mem_cons, List.mem_singleton, List.not_mem_nil, or_false] at hp
        rcases hp with rfl | rfl
        · exact skippable_of_depth _ (by simp [UnitTree.fits]) (by decide)
        · exact skippable_of_depth _ (by simp [UnitTree.fits]) (by decide))
      (Or.inl ⟨by simp [storingGetters], rfl,
        skippable_of_depth _ (by simp [UnitTree.fits]) (by decide), rfl⟩)).2
  refine ⟨st, h1, h2, h3, ?_, ?_⟩
  · rw [h4]
    simp [worldAfter, storingGetters, ActionStoreByte, UnitTree.ut, UnitTree.payload]
  · rw [h5]
    simp [callsOf, storingGetters, UnitTree.payload]

/-- C27 fails as stated: the body is well-formed, its first pair has an
unregistered key (under `failOnUnknown`), and the value of its second pair is
17 Lists nested in each other. The scan enters drain-only mode with
`UnknownKey`, but its result is not that error: it is the error "Error while
skipping" built from `TooDeeplyNested` and `UnknownKey`, with 18 Terms left
unread. -/
theorem C27_counterexample :
    fitsIdPairs [(7, .nil), (2, nestedLists 16)] ∧ numberGetters 7 = none ∧
    scanSummary (ScanIdKVMap
        (NewSimpleUnitReader (encodeIdPairs [(7, .nil), (2, nestedLists 16)] ++ []))
        numberGetters true () (fun _ => false)) =
      .ret (some (.errorfSkipping .TooDeeplyNested .UnknownKey),
        { r := List.replicate 18 UTTerm, mu := false }, true, []) :=
  ⟨by simp [fitsIdPairs, nestedLists, UnitTree.fits, fitsItems], by simp [numberGetters],
    by decide⟩

/-! ## C28: what the depth bound counts -/

mutual
theorem depth_nesting : ∀ t : UnitTree, t.nesting ≤ t.depth ∧ t.depth ≤ t.nesting + 1
  | .list items => by
    have := depthItems_nesting items
    simp only [UnitTree.nesting, UnitTree.depth]; omega
  | .textkvmap pairs => by
    have := depthTextPairs_nesting pairs
    simp only [UnitTree.nesting, UnitTree.depth]; omega
  | .idkvmap pairs => by
    have := depthIdPairs_nesting pairs
    simp only [UnitTree.nesting, UnitTree.depth]; omega
  | .nil => by simp [UnitTree.nesting, UnitTree.depth]
  | .request _ => by simp [UnitTree.nesting, UnitTree.depth]
  | .answer _ => by simp [UnitTree.nesting, UnitTree.depth]
  | .event _ => by simp [UnitTree.nesting, UnitTree.depth]
  | .bin _ => by simp [UnitTree.nesting, UnitTree.depth]
  | .number _ => by simp [UnitTree.nesting, UnitTree.depth]
  | .ukey _ => by simp [UnitTree.nesting, UnitTree.depth]
  | .bool _ => by simp [UnitTree.nesting, UnitTree.depth]
  | .byte _ => by simp [UnitTree.nesting, UnitTree.depth]
  | .binstream _ => by simp [UnitTree.nesting, UnitTree.depth]
theorem depthItems_nesting :
    ∀ ts : List UnitTree, nestingItems ts ≤ depthItems ts ∧ depthItems ts ≤ nestingItems ts + 1
  | [] => by simp [nestingItems, depthItems]
  | t :: ts => by
    have h1 := depth_nesting t
    have h2 := depthItems_nesting ts
    simp only [nestingItems, depthItems]; omega
theorem depthTextPairs_nesting :
    ∀ ts : List (List Nat × UnitTree),
      nestingTextPairs ts ≤ depthTextPairs ts ∧ depthTextPairs ts ≤ nestingTextPairs ts + 1
  | [] => by simp [nestingTextPairs, depthTextPairs]
  | (_, t) :: ts => by
    have h1 := depth_nesting t
    have h2 := depthTextPairs_nesting ts
    simp only [nestingTextPairs, depthTextPairs]; omega
theorem depthIdPairs_nesting :
    ∀ ts : List (Nat × UnitTree),
      nestingIdPairs ts ≤ depthIdPairs ts ∧ depthIdPairs ts ≤ nestingIdPairs ts + 1
  | [] => by simp [nestingIdPairs, depthIdPairs]
  | (_, t) :: ts => by
    have h1 := depth_nesting t
    have h2 := depthIdPairs_nesting ts
    simp only [nestingIdPairs, depthIdPairs]; omega
end

/-- C28, as the code has it: the bound of 16 counts every unit, a scalar or a
stream in a container like the container itself (`depth`: the skipped unit is
level 1, what a container holds is one level further down). A well-formed
unit with no unit below level 16 is skipped without error, leaving exactly
`rest`; so is every one whose containers are nested at most 15 deep. On a
well-formed unit `SkipUnit` returns an error only when some unit lies below
level 16, the error is `TooDeeplyNested`, and then containers are nested at
least 16 deep. -/
theorem C28_depth_bound (t : UnitTree) (rest : List Nat) (hf : t.fits) :
    (t.depth ≤ 16 →
      SkipUnit { r := t.body ++ rest, mu := t.locks } t.ut t.payload =
        .ret (none, { r := rest, mu := false })) ∧
    (t.nesting ≤ 15 →
      SkipUnit { r := t.body ++ rest, mu := t.locks } t.ut t.payload =
        .ret (none, { r := rest, mu := false })) ∧
    (∃ err ur, SkipUnit { r := t.body ++ rest, mu := t.locks } t.ut t.payload = .ret (err, ur) ∧
      (err = none ∨ err = some .TooDeeplyNested) ∧
      (err = some .TooDeeplyNested ↔ 16 < t.depth) ∧
      (err = some .TooDeeplyNested → 16 ≤ t.nesting)) := by
  obtain ⟨h1, h2⟩ := SkipUnit_tree t rest hf
  obtain ⟨h3, h4⟩ := depth_nesting t
  simp only [maxSkipDepth] at h1 h2
  refine ⟨h1, fun h => h1 (by omega), ?_⟩
  by_cases hd : t.depth ≤ 16
  · exact ⟨none, _, h1 hd, Or.inl rfl, by simp; omega, by simp⟩
  · obtain ⟨ur, hur⟩ := h2 (by omega)
    exact ⟨_, ur, hur, Or.inr rfl, by simp; omega, fun _ => by omega⟩

theorem C28_depth_bound_witness :
    (nestedHolding .nil 14).fits ∧ (nestedHolding .nil 14).depth = 16 ∧
    SkipUnit { r := (nestedHolding .nil 14).body ++ [9, 9], mu := (nestedHolding .nil 14).locks }
        (nestedHolding .nil 14).ut (nestedHolding .nil 14).payload =
      .ret (none, { r := [9, 9], mu := false }) :=
  ⟨by simp [nestedHolding, UnitTree.fits, fitsItems], by decide,
    (C28_depth_bound (nestedHolding .nil 14) [9, 9]
      (by simp [nestedHolding, UnitTree.fits, fitsItems])).1 (by decide)⟩

/-- C28 fails as stated: 16 Lists nested in each other, the innermost one
holding a Nil, are a well-formed unit whose containers are nested 16 deep,
and `SkipUnit` returns `TooDeeplyNested` on it, with 16 Terms left unread; with
the innermost List empty the unit is skipped. -/
theorem C28_counterexample :
    (nestedHolding .nil 15).fits ∧ (nestedHolding .nil 15).nesting = 16 ∧
    SkipUnit { r := (nestedHolding .nil 15).body ++ [], mu := false } UTList .nil =
      .ret (some .TooDeeplyNested, { r := List.replicate 16 UTTerm, mu := false }) ∧
    (nestedLists 15).nesting = 16 ∧
    SkipUnit { r := (nestedLists 15).body ++ [], mu := false } UTList .nil =
      .ret (none, { r := [], mu := false }) :=
  ⟨by simp [nestedHolding, UnitTree.fits, fitsItems], by decide, by decide, by decide, by decide⟩

/-! ## C29: truncated input -/

theorem readFull_short (n : Nat) (r : List Nat) (h : r.length < n) :
    ∃ got e, ReadFull n r = (got, some e, []) ∧ (e = .EOF ∨ e = .ErrUnexpectedEOF) := by
  have hn : n ≠ 0 := by omega
  by_cases hr : r = []
  · exact ⟨[], .EOF, by simp [ReadFull, hn, hr], Or.inl rfl⟩
  · exact ⟨r, .ErrUnexpectedEOF, by simp [ReadFull, hn, hr, h], Or.inr rfl⟩

theorem readUnit_short_code (t : Nat) (q : List Nat) (ht : t = UTRequest ∨ t = UTAnswer ∨ t = UTEvent)
    (hq : q.length < 2) :
    ∃ e, (SimpleUnitReader.mk (t :: q) false).ReadUnit = .ret (t, .nil, some e, ⟨[], false⟩) ∧
      (e = .EOF ∨ e = .ErrUnexpectedEOF) := by
  obtain ⟨got, e, hr, he⟩ := readFull_short 2 q hq
  refine ⟨e, ?_, he⟩
  rcases ht with rfl | rfl | rfl <;> simp [SimpleUnitReader.ReadUnit, ReadByte, hr]

theorem readUnit_short_number (q : List Nat) (hq : q.length < 8) :
    ∃ e, (SimpleUnitReader.mk (UTNumber :: q) false).ReadUnit =
        .ret (UTNumber, .nil, some e, ⟨[], false⟩) ∧
      (e = .EOF ∨ e = .ErrUnexpectedEOF) := by
  obtain ⟨got, e, hr, he⟩ := readFull_short 8 q hq
  exact ⟨e, by simp [SimpleUnitReader.ReadUnit, ReadByte, hr], he⟩

theorem readUnit_short_bin (q s b : List Nat) (hb : b.length < 2 ^ 32)
    (hs : q ++ s = leBytes 4 (b.length % 2 ^ 32) ++ b) (hs0 : s ≠ []) :
    ∃ e, (SimpleUnitReader.mk (UTBin :: q) false).ReadUnit =
        .ret (UTBin, .nil, some e, ⟨[], false⟩) ∧
      (e = .EOF ∨ e = .ErrUnexpectedEOF) := by
  have hl4 : (leBytes 4 (b.length % 2 ^ 32)).length = 4 := leBytes_length _ _
  by_cases hq : q.length < 4
  · obtain ⟨got, e, hr, he⟩ := readFull_short 4 q hq
    exact ⟨e, by simp [SimpleUnitReader.ReadUnit, ReadByte, hr], he⟩
  · have hq4 : 4 ≤ q.length := by omega
    have h1 : q.take 4 = leBytes 4 (b.length % 2 ^ 32) := by
      have := congrArg (List.take 4) hs
      rwa [List.take_append_of_le_length hq4, List.take_left' hl4] at this
    have h2 : q.drop 4 ++ s = b := by
      have := congrArg (List.drop 4) hs
      rwa [List.drop_append_of_le_length hq4, List.drop_left' hl4] at this
    have hq' : q = leBytes 4 (b.length % 2 ^ 32) ++ q.drop 4 := by
      rw [← h1, List.take_append_drop]
    have hlen : (q.drop 4).length < b.length := by
      have := congrArg List.length h2
      have hs1 := List.length_pos.mpr hs0
      simp only [List.length_append] at this
      omega
    have hv : leNat (leBytes 4 (b.length % 2 ^ 32)) = b.length := by
      rw [leNat_leBytes]
      simp only [Nat.reducePow] at hb ⊢
      omega
    obtain ⟨got, e, hr, he⟩ := readFull_short b.length (q.drop 4) hlen
    refine ⟨e, ?_, he⟩
    rw [hq']
    generalize leBytes 4 (b.length % 2 ^ 32) = L at hl4 hv
    simp [SimpleUnitReader.ReadUnit, ReadByte, ReadFull_append L _ 4 hl4, hv, hr]

theorem readUnit_short_byte (t : Nat) (ht : t = UTUKey ∨ t = UTByte ∨ t = UTBool) :
    ∃ data, (SimpleUnitReader.mk [t] false).ReadUnit = .ret (t, data, some .EOF, ⟨[], false⟩) := by
  rcases ht with rfl | rfl | rfl
  · exact ⟨_, rfl⟩
  · exact ⟨_, rfl⟩
  · exact ⟨_, rfl⟩

/-- C29: a unit other than a stream, with its values in their Go types, is
sent, and `p` is a strict initial part of the bytes written (the empty one
included). `ReadUnit` on a source that holds only `p` returns a non-nil error,
`io.EOF` or `io.ErrUnexpectedEOF`; on the empty source it returns
`(0, nil, io.EOF)`. -/
theorem C29_truncated_unit (u : FlatUnit) (p : List Nat) (hf : u.fits)
    (hp : p <+: (u.send { out := [], room := none }).2.out)
    (hne : p ≠ (u.send { out := [], room := none }).2.out) :
    ∃ ut data e sur,
      (NewSimpleUnitReader p).ReadUnit = .ret (ut, data, some e, sur) ∧
      (e = .EOF ∨ e = .ErrUnexpectedEOF) ∧
      (p = [] → ut = 0 ∧ data = .nil ∧ e = .EOF) := by
  have hw : (u.send { out := [], room := none }).2.out = u.wire := by
    rw [flat_send]; simp
  rw [hw] at hp hne
  obtain ⟨s, hs⟩ := hp
  have hs0 : s ≠ [] := by
    rintro rfl
    simp at hs
    exact hne hs
  have hspos := List.length_pos.mpr hs0
  cases p with
  | nil => exact ⟨0, .nil, .EOF, ⟨[], false⟩, rfl, Or.inl rfl, fun _ => ⟨rfl, rfl, rfl⟩⟩
  | cons a q =>
    have fin : ∀ (t : Nat) (data : Payload) (sur : SimpleUnitReader),
        (∃ e, (SimpleUnitReader.mk (a :: q) false).ReadUnit = .ret (t, data, some e, sur) ∧
          (e = .EOF ∨ e = .ErrUnexpectedEOF)) →
        ∃ ut data e sur,
          (NewSimpleUnitReader (a :: q)).ReadUnit = .ret (ut, data, some e, sur) ∧
          (e = .EOF ∨ e = .ErrUnexpectedEOF) ∧
          (a :: q = [] → ut = 0 ∧ data = .nil ∧ e = .EOF) := by
      rintro t data sur ⟨e, h1, h2⟩
      exact ⟨t, data, e, sur, h1, h2, fun h => by simp at h⟩
    have bare : ∀ tag : Nat, a :: (q ++ s) = [tag] → False := by
      intro tag h
      simp only [List.cons.injEq, List.append_eq_nil] at h
      exact hs0 h.2.2
    have one : ∀ tag k : Nat, a :: (q ++ s) = [tag, k] → a = tag ∧ q = [] := by
      intro tag k h
      simp only [List.cons.injEq] at h
      refine ⟨h.1, ?_⟩
      have := congrArg List.length h.2
      simp only [List.length_append, List.length_cons, List.length_nil] at this
      exact List.length_eq_zero.mp (by omega)
    have payload : ∀ (tag n : Nat) (pl : List Nat), pl.length = n → a :: (q ++ s) = tag :: pl →
        a = tag ∧ q.length < n := by
      intro tag n pl hpl h
      simp only [List.cons.injEq] at h
      refine ⟨h.1, ?_⟩
      have := congrArg List.length h.2
      simp only [List.length_append] at this
      omega
    simp only [List.cons_append] at hs
    cases u with
    | nil => exact (bare _ hs).elim
    | list => exact (bare _ hs).elim
    | textkvmap => exact (bare _ hs).elim
    | idkvmap => exact (bare _ hs).elim
    | term => exact (bare _ hs).elim
    | request c =>
      obtain ⟨rfl, hq⟩ := payload UTRequest 2 _ (leBytes_length 2 c) hs
      exact fin _ _ _ (readUnit_short_code _ q (by simp) hq)
    | answer c =>
      obtain ⟨rfl, hq⟩ := payload UTAnswer 2 _ (leBytes_length 2 c) hs
      exact fin _ _ _ (readUnit_short_code _ q (by simp) hq)
    | event c =>
      obtain ⟨rfl, hq⟩ := payload UTEvent 2 _ (leBytes_length 2 c) hs
      exact fin _ _ _ (readUnit_short_code _ q (by simp) hq)
    | number n =>
      obtain ⟨rfl, hq⟩ := payload UTNumber 8 _ (leBytes_length 8 _) hs
      exact fin _ _ _ (readUnit_short_number q hq)
    | bin b =>
      simp only [FlatUnit.wire, List.cons.injEq] at hs
      obtain ⟨rfl, hs⟩ := hs
      exact fin _ _ _ (readUnit_short_bin q s b hf hs hs0)
    | ukey k =>
      obtain ⟨rfl, rfl⟩ := one UTUKey k hs
      obtain ⟨data, h⟩ := readUnit_short_byte UTUKey (by simp)
      exact fin _ data _ ⟨_, h, Or.inl rfl⟩
    | byte b =>
      obtain ⟨rfl, rfl⟩ := one UTByte b hs
      obtain ⟨data, h⟩ := readUnit_short_byte UTByte (by simp)
      exact fin _ data _ ⟨_, h, Or.inl rfl⟩
    | bool b =>
      obtain ⟨rfl, rfl⟩ := one UTBool (if b then 1 else 0) hs
      obtain ⟨data, h⟩ := readUnit_short_byte UTBool (by simp)
      exact fin _ data _ ⟨_, h, Or.inl rfl⟩

theorem C29_truncated_unit_witness :
    ∃ ut data e sur,
      (NewSimpleUnitReader [4, 3, 0, 0, 0, 104, 105]).ReadUnit = .ret (ut, data, some e, sur) ∧
      (e = .EOF ∨ e = .ErrUnexpectedEOF) ∧
      ([4, 3, 0, 0, 0, 104, 105] = [] → ut = 0 ∧ data = .nil ∧ e = .EOF) :=
  C29_truncated_unit (.bin [104, 105, 33]) [4, 3, 0, 0, 0, 104, 105] (by simp [FlatUnit.fits])
    ⟨[33], by decide⟩ (by decide)

/-! ## C30: two Events in a row -/

/-- C30: the demultiplexer is outside event mode and reads two Event units
one after the other. Both are sent on `events`; the first starts event mode,
the second ends it (the nesting is 0) and starts none. The unit that follows
is sent on `other`, event mode staying off, unless it is an Event, which is
sent on `events` and starts event mode. -/
theorem C30_two_events (d : Demux) (p1 p2 : Payload) (u : urReturn) (h : d.inEvent = false) :
    (d.route UTEvent p1).inEvent = true ∧
    d.routeAll [{ ut := UTEvent, data := p1 }, { ut := UTEvent, data := p2 }] =
      { d with
        events := d.events ++ [{ ut := UTEvent, data := p1 }, { ut := UTEvent, data := p2 }],
        inEvent := false, nesting := 0 } ∧
    (u.ut ≠ UTEvent →
      d.routeAll [{ ut := UTEvent, data := p1 }, { ut := UTEvent, data := p2 }, u] =
        { d with
          events := d.events ++ [{ ut := UTEvent, data := p1 }, { ut := UTEvent, data := p2 }],
          other := d.other ++ [u], inEvent := false, nesting := 0 }) ∧
    (u.ut = UTEvent →
      d.routeAll [{ ut := UTEvent, data := p1 }, { ut := UTEvent, data := p2 }, u] =
        { d with
          events := d.events ++
            [{ ut := UTEvent, data := p1 }, { ut := UTEvent, data := p2 }, u],
          inEvent := true, nesting := 0 }) := by
  refine ⟨by simp [Demux.route, h], by simp [Demux.routeAll, Demux.route, h], ?_, ?_⟩
  · intro hu
    simp [Demux.routeAll, Demux.route, h, hu]
  · intro hu
    obtain ⟨ut, data⟩ := u
    simp only at hu
    subst hu
    simp [Demux.routeAll, Demux.route, h]

theorem C30_two_events_witness :
    (NewDemux.demux [{ ut := UTEvent, data := .code 2 }, { ut := UTEvent, data := .code 3 },
        { ut := UTList, data := .nil }, { ut := UTTerm, data := .nil }] .EOF).events =
      [{ ut := UTEvent, data := .code 2 }, { ut := UTEvent, data := .code 3 }] ∧
    NewDemux.routeAll [{ ut := UTEvent, data := .code 2 }, { ut := UTEvent, data := .code 3 },
        { ut := UTList, data := .nil }] =
      { NewDemux with
        events := NewDemux.events ++
          [{ ut := UTEvent, data := .code 2 }, { ut := UTEvent, data := .code 3 }],
        other := NewDemux.other ++ [{ ut := UTList, data := .nil }],
        inEvent := false, nesting := 0 } :=
  ⟨by decide,
    (C30_two_events NewDemux (.code 2) (.code 3) { ut := UTList, data := .nil } rfl).2.2.1
      (by decide)⟩

end Binproto
